import Mathlib

/-!
# The in-memory message store of `chat_app`

A shallow embedding of `database/in-memory/*.go`, of the entity types of
`database/models.go`, of the text functions of `internal/pkg/utils/utils.go`
and of the handlers of `controller/*.go` that change the store, and the
properties proved or refuted on it.

Conventions of the embedding.

* A Go `map[string]V` is an association list `List (String × V)`: `get?` is
  the lookup `m[k]`, `set` is the assignment `m[k] = v` (the first entry of
  the key is replaced, a new key is put at the end).
* Go leaves the order of a `range` over a map unspecified.  Every loop over a
  map therefore takes its order from a `MapOrder`, a function that rearranges
  the entries of the map; the statements quantify over all such orders, a
  separate one for every call.
* Go pointers to entities are replaced by the entities themselves: an
  assignment through a stored pointer becomes the replacement of the stored
  value at the place the loop found it.  A pointer handed to the store is
  taken to be one the store does not hold yet.  Where this matters, for the
  postcondition of `CreateMessage`, the pointers to the messages are kept:
  `PointerStore.CreateMessage` is the call for any pointer, and it agrees with
  `CreateMessage` for a pointer the store does not hold (`CreateMessage_view`).
* `time.Now()` is read from a `Clock`: `clk k` is the value of the `k`-th read
  of the running operation.  `Before` is `<` on these values.
* `int` is the 64-bit two's-complement integer: `wrapInt` reduces the result
  of an addition, a slice expression out of range is a run-time panic
  (`none`).
* An operation that changes the store returns the new store together with its
  Go `error` (`none` is `nil`); the lock is not part of the state.
* A Go `string` that is only compared, tested for `""` and concatenated (an
  id, a status, a kind, an error text) is a Lean `String`.  A string whose
  bytes the code inspects (a message text, a search query) is the list of its
  bytes, `List UInt8`; `utf8` gives the bytes of a string literal.  The
  decoding of a `range` over a string and the encoding of `string([]rune)`
  follow the Go runtime (`decodeRune`, `encodeRune`); an index out of range
  is a run-time panic (`none`).
* A handler is a function of the store and of what it reads from the request:
  the authenticated user of the context, the decoded body (`none` when the
  JSON decoder fails), path and query parameters.  What it takes from the Go
  library or from the outside (`strings.TrimSpace`, the result of
  `strconv.Atoi`, the id `utils.GenerateID()` draws) is a parameter.  It
  returns the store after the call and the response written (`Except.error`
  for `respondWithError`).  Where a property depends on what trimming does,
  the parameter is `TrimSpace`, which follows `strings.TrimSpace` of the Go
  library (`unicode.IsSpace`, `utf8.DecodeLastRuneInString`).
-/

namespace ChatApp

/-! ## Entities (`database/models.go`) -/

/-- `type ConversationType string`. -/
abbrev ConversationType := String

/-- `ConversationTypeOneToOne ConversationType = "one-one"`. -/
def ConversationTypeOneToOne : ConversationType := "one-one"

/-- `ConversationTypeGroup ConversationType = "group"`. -/
def ConversationTypeGroup : ConversationType := "group"

/-- `type MessageStatus string`. -/
abbrev MessageStatus := String

/-- `StatusSent MessageStatus = "SENT"`. -/
def StatusSent : MessageStatus := "SENT"

/-- `StatusDelivered MessageStatus = "DELIVERED"`. -/
def StatusDelivered : MessageStatus := "DELIVERED"

/-- `StatusRead MessageStatus = "READ"`. -/
def StatusRead : MessageStatus := "READ"

/-- `type User struct`. -/
structure User where
  ID : String
  Name : String
  Email : String
  CreatedAt : Nat
  UpdatedAt : Nat
deriving DecidableEq, Repr

/-- `type Group struct`. -/
structure Group where
  ID : String
  Name : String
  Description : String
  CreatedBy : String
  CreatedAt : Nat
  UpdatedAt : Nat
deriving DecidableEq, Repr

/-- `type UserConversation struct`. -/
structure UserConversation where
  ID : String
  UserID : String
  DestinationID : String
  ConversationType : ConversationType
  CreatedAt : Nat
  UpdatedAt : Nat
deriving DecidableEq, Repr

/-- `type Message struct`. -/
structure Message where
  ID : String
  SenderID : String
  DestinationID : String
  MessageText : List UInt8
  Status : MessageStatus
  ConversationType : ConversationType
  CreatedAt : Nat
  UpdatedAt : Nat
deriving DecidableEq, Repr

/-- `type MessageRead struct`. -/
structure MessageRead where
  ID : String
  MessageID : String
  UserID : String
  CreatedAt : Nat
  UpdatedAt : Nat
deriving DecidableEq, Repr

/-! ## Go strings, maps, clocks and machine integers -/

/-- The UTF-8 encoding of one rune as the Go runtime writes it (`encoderune`):
a surrogate or a value above `0x10FFFF` is written as U+FFFD. -/
def encodeRune (r : Nat) : List UInt8 :=
  if r ≤ 0x7F then [r.toUInt8]
  else if r ≤ 0x7FF then [(0xC0 + r / 64).toUInt8, (0x80 + r % 64).toUInt8]
  else if 0x10FFFF < r ∨ (0xD800 ≤ r ∧ r ≤ 0xDFFF) then [0xEF, 0xBF, 0xBD]
  else if r ≤ 0xFFFF then
    [(0xE0 + r / 4096).toUInt8, (0x80 + r / 64 % 64).toUInt8, (0x80 + r % 64).toUInt8]
  else
    [(0xF0 + r / 262144).toUInt8, (0x80 + r / 4096 % 64).toUInt8,
      (0x80 + r / 64 % 64).toUInt8, (0x80 + r % 64).toUInt8]

/-- A continuation byte of UTF-8, `0x80` to `0xBF`. -/
def isCont (b : UInt8) : Bool := 0x80 ≤ b ∧ b ≤ 0xBF

/-- The first rune of a non-empty string and the number of bytes it takes, as
the Go runtime decodes it in a `range` over the string (`decoderune`): an
invalid or incomplete sequence gives U+FFFD and the width 1. -/
def decodeRune (s : List UInt8) : Nat × Nat :=
  match s with
  | [] => (0xFFFD, 1)
  | b0 :: rest =>
    if b0 < 0x80 then (b0.toNat, 1)
    else if 0xC0 ≤ b0 ∧ b0 < 0xE0 then
      match rest with
      | b1 :: _ =>
        let r := (b0.toNat % 32) * 64 + b1.toNat % 64
        if isCont b1 ∧ 0x7F < r then (r, 2) else (0xFFFD, 1)
      | _ => (0xFFFD, 1)
    else if 0xE0 ≤ b0 ∧ b0 < 0xF0 then
      match rest with
      | b1 :: b2 :: _ =>
        let r := (b0.toNat % 16) * 4096 + (b1.toNat % 64) * 64 + b2.toNat % 64
        if isCont b1 ∧ isCont b2 ∧ 0x7FF < r ∧ ¬ (0xD800 ≤ r ∧ r ≤ 0xDFFF) then (r, 3)
        else (0xFFFD, 1)
      | _ => (0xFFFD, 1)
    else if 0xF0 ≤ b0 ∧ b0 < 0xF8 then
      match rest with
      | b1 :: b2 :: b3 :: _ =>
        let r := (b0.toNat % 8) * 262144 + (b1.toNat % 64) * 4096 + (b2.toNat % 64) * 64
          + b3.toNat % 64
        if isCont b1 ∧ isCont b2 ∧ isCont b3 ∧ 0xFFFF < r ∧ r ≤ 0x10FFFF then (r, 4)
        else (0xFFFD, 1)
      | _ => (0xFFFD, 1)
    else (0xFFFD, 1)

/-- The runes a `for _, r := range s` visits; the fuel bounds the number of
iterations and the length of `s` is enough. -/
def decodeRunes : Nat → List UInt8 → List Nat
  | 0, _ => []
  | _ + 1, [] => []
  | fuel + 1, b :: rest =>
    (decodeRune (b :: rest)).1 :: decodeRunes fuel ((b :: rest).drop (decodeRune (b :: rest)).2)

/-- The bytes of the Go string that holds the text `s`. -/
def utf8 (s : String) : List UInt8 := s.data.flatMap (fun c => encodeRune c.toNat)

/-- The lookup `m[k]` of a Go map, `none` when the key is absent. -/
def get? {V : Type} : List (String × V) → String → Option V
  | [], _ => none
  | (k', v) :: rest, k => if k' = k then some v else get? rest k

/-- The assignment `m[k] = v` of a Go map. -/
def set {V : Type} : List (String × V) → String → V → List (String × V)
  | [], k, v => [(k, v)]
  | (k', v') :: rest, k, v => if k' = k then (k, v) :: rest else (k', v') :: set rest k v

/-- The order in which one `range` loop visits the entries of a map. -/
structure MapOrder (V : Type) where
  visit : List (String × V) → List (String × V)
  perm : ∀ l, (visit l).Perm l

/-- The order of the association list itself. -/
def MapOrder.asStored (V : Type) : MapOrder V := ⟨fun l => l, fun l => List.Perm.refl l⟩

/-- The reverse of the order of the association list. -/
def MapOrder.backwards (V : Type) : MapOrder V := ⟨List.reverse, List.reverse_perm⟩

/-- The successive values of `time.Now()` during one operation. -/
abbrev Clock := Nat → Nat

/-- The value of a 64-bit `int` after an arithmetic operation whose exact
result is `x`. -/
def wrapInt (x : Int) : Int := (x + 2 ^ 63) % 2 ^ 64 - 2 ^ 63

/-- The largest `int`. -/
def maxInt : Int := 2 ^ 63 - 1

/-! ## `strings.TrimSpace` of the Go library -/

/-- `unicode.IsSpace`: the white space of Unicode, `'\t'`, `'\n'`, `'\v'`,
`'\f'`, `'\r'`, `' '`, U+0085, U+00A0, and beyond Latin-1 the code points of
the property White_Space. -/
def isSpace (r : Nat) : Bool :=
  (0x09 ≤ r ∧ r ≤ 0x0D) ∨ r = 0x20 ∨ r = 0x85 ∨ r = 0xA0 ∨ r = 0x1680 ∨
  (0x2000 ≤ r ∧ r ≤ 0x200A) ∨ r = 0x2028 ∨ r = 0x2029 ∨ r = 0x202F ∨ r = 0x205F ∨ r = 0x3000

/-- `utf8.RuneStart(s[i])` for an index within the string: the byte is not a
continuation byte. -/
def runeStartAt (s : List UInt8) (i : Nat) : Bool :=
  match s.get? i with
  | some b => ! isCont b
  | none => false

/-- `utf8.DecodeLastRuneInString`: the last rune of the string and its width;
for the empty string U+FFFD and 0, for an invalid end U+FFFD and 1.  The loop
looks for the start of the rune among the up to three bytes before the last
one. -/
def decodeLastRune (s : List UInt8) : Nat × Nat :=
  match s.getLast? with
  | none => (0xFFFD, 0)
  | some last =>
    if last < 0x80 then (last.toNat, 1)
    else
      let n := s.length
      let start :=
        if 2 ≤ n ∧ runeStartAt s (n - 2) then n - 2
        else if 3 ≤ n ∧ runeStartAt s (n - 3) then n - 3
        else if 4 ≤ n ∧ runeStartAt s (n - 4) then n - 4
        else n - 5
      let d := decodeRune (s.drop start)
      if start + d.2 ≠ n then (0xFFFD, 1) else d

/-- `strings.TrimLeftFunc(s, unicode.IsSpace)`: the string from its first rune
that is not white space on; the fuel bounds the number of runes passed and the
length of `s` is enough. -/
def trimLeft : Nat → List UInt8 → List UInt8
  | 0, s => s
  | fuel + 1, s =>
    if s = [] then []
    else if isSpace (decodeRune s).1 then trimLeft fuel (s.drop (decodeRune s).2)
    else s

/-- `strings.TrimRightFunc(s, unicode.IsSpace)`: the string up to its last
rune that is not white space, the runes taken from the end with
`utf8.DecodeLastRuneInString`; the fuel bounds the number of runes passed. -/
def trimRight : Nat → List UInt8 → List UInt8
  | 0, s => s
  | fuel + 1, s =>
    if s = [] then []
    else if isSpace (decodeLastRune s).1 then
      trimRight fuel (s.take (s.length - (decodeLastRune s).2))
    else s

/-- `strings.TrimSpace(s)`: `s` "with all leading and trailing white space
removed, as defined by Unicode". -/
def TrimSpace (s : List UInt8) : List UInt8 :=
  trimRight (trimLeft s.length s).length (trimLeft s.length s)

/-! ## The store (`database/in-memory/store.go`) -/

/-- `type MemoryStore struct`, without the lock. -/
structure MemoryStore where
  users : List (String × User)
  groups : List (String × Group)
  groupMembers : List (String × List (String × Bool))
  messages : List (String × List Message)
  userConversations : List (String × List UserConversation)
  messageReads : List (String × List (String × MessageRead))
deriving DecidableEq, Repr

/-- `func NewStore() *MemoryStore`. -/
def NewStore : MemoryStore := ⟨[], [], [], [], [], []⟩

/-! ## Message operations (`database/in-memory/message.go`) -/

/-- Lines 88-97 of `GetMessages`: the index after the first message of
`reversed` whose id is the cursor, `0` when there is none. -/
def cursorStart (cursor : String) : List Message → Nat → Nat
  | [], _ => 0
  | msg :: rest, i => if msg.ID = cursor then i + 1 else cursorStart cursor rest (i + 1)

/-- `func (s *MemoryStore) GetMessages(destinationID string, limit int, cursor string)
([]*database.Message, string, error)`; `none` is the panic of the slice
expression `reversed[startIdx:endIdx]`, raised when `endIdx < startIdx` (the
other bounds hold by construction).  `limit` is an `int`: callers pass a
value from `-2^63` to `2^63 - 1`. -/
def GetMessages (s : MemoryStore) (destinationID : String) (limit : Int) (cursor : String) :
    Option (List Message × String × Option String) :=
  match get? s.messages destinationID with
  | none => some ([], "", none)
  | some messages =>
    let reversed := messages.reverse
    let startIdx : Nat := if cursor ≠ "" then cursorStart cursor reversed 0 else 0
    let endIdx : Int := wrapInt (startIdx + limit)
    let endIdx : Int := if endIdx > reversed.length then reversed.length else endIdx
    if (startIdx : Int) ≤ endIdx then
      let result := (reversed.drop startIdx).take (endIdx.toNat - startIdx)
      let nextCursor :=
        if endIdx < reversed.length then
          match reversed.get? endIdx.toNat with
          | some m => m.ID
          | none => ""
        else ""
      some (result, nextCursor, none)
    else none

/-- Lines 52-58 of `updateUserConversation`: the first row of the destination
and kind gets `UpdatedAt = t`; `none` when no row matches (`found` stays
false). -/
def bumpRow (destinationID : String) (convType : ConversationType) (t : Nat) :
    List UserConversation → Option (List UserConversation)
  | [] => none
  | uc :: rest =>
    if uc.DestinationID = destinationID ∧ uc.ConversationType = convType then
      some ({ uc with UpdatedAt := t } :: rest)
    else (bumpRow destinationID convType t rest).map (fun rest' => uc :: rest')

/-- `func (s *MemoryStore) updateUserConversation(userID, destinationID string,
convType database.ConversationType, message *database.Message)`; `k` is the
number of clock reads made so far, the result carries the number after the
call.  The parameter `message` is not used by the Go body and is left out. -/
def updateUserConversation (s : MemoryStore) (clk : Clock) (k : Nat)
    (userID destinationID : String) (convType : ConversationType) : MemoryStore × Nat :=
  let rows := (get? s.userConversations userID).getD []
  match bumpRow destinationID convType (clk k) rows with
  | some rows' => ({ s with userConversations := set s.userConversations userID rows' }, k + 1)
  | none =>
    let uc : UserConversation :=
      { ID := "uc_" ++ userID ++ "_" ++ destinationID
        UserID := userID
        DestinationID := destinationID
        ConversationType := convType
        CreatedAt := clk k
        UpdatedAt := clk (k + 1) }
    ({ s with userConversations := set s.userConversations userID (rows ++ [uc]) }, k + 2)

/-- Lines 34-38 of `CreateMessage`: the loop over the members of the
destination group, in the order the map is visited. -/
def fanOut (clk : Clock) (senderID destinationID : String) (convType : ConversationType) :
    List (String × Bool) → MemoryStore × Nat → MemoryStore × Nat
  | [], acc => acc
  | (memberID, _) :: rest, acc =>
    if memberID ≠ senderID then
      fanOut clk senderID destinationID convType rest
        (updateUserConversation acc.1 clk acc.2 memberID destinationID convType)
    else fanOut clk senderID destinationID convType rest acc

/-- Lines 15-17 of `CreateMessage`: the assignments through the pointer
`message`. -/
def stampMessage (clk : Clock) (message : Message) : Message :=
  { message with CreatedAt := clk 0, UpdatedAt := clk 1, Status := StatusSent }

/-- Lines 19-23 of `CreateMessage`: the message is appended to the slice of
its destination. -/
def appendMessage (s : MemoryStore) (message : Message) : MemoryStore :=
  let destKey := message.DestinationID
  { s with messages := set s.messages destKey ((get? s.messages destKey).getD [] ++ [message]) }

/-- `func (s *MemoryStore) CreateMessage(message *database.Message) error`, for
a pointer `message` the store does not hold yet, given by the message it
points to. -/
def CreateMessage (s : MemoryStore) (clk : Clock) (o : MapOrder Bool) (message : Message) :
    MemoryStore × Option String :=
  let message := stampMessage clk message
  let r := updateUserConversation (appendMessage s message) clk 2 message.SenderID
    message.DestinationID message.ConversationType
  if message.ConversationType = ConversationTypeOneToOne then
    ((updateUserConversation r.1 clk r.2 message.DestinationID message.SenderID
      message.ConversationType).1, none)
  else
    match get? r.1.groupMembers message.DestinationID with
    | some members =>
      ((fanOut clk message.SenderID message.DestinationID message.ConversationType
        (o.visit members) r).1, none)
    | none => (r.1, none)

/-- The store with the pointers to the messages made explicit, for
`CreateMessage`, which writes through the pointer it is given and stores that
pointer.  `objects a` is the `Message` at the address `a`; `slices` is the map
`messages`, whose slices hold addresses as `map[string][]*database.Message`
does; `others` holds the other maps of the store (its field `messages` is not
read, `view` fills it). -/
structure PointerStore where
  objects : Nat → Message
  slices : List (String × List Nat)
  others : MemoryStore

/-- The store as a reader finds it: every stored pointer followed to its
message. -/
def PointerStore.view (p : PointerStore) : MemoryStore :=
  { p.others with messages := p.slices.map (fun e => (e.1, e.2.map p.objects)) }

/-- `func (s *MemoryStore) CreateMessage(message *database.Message) error`
with the pointer `message` given by its address `a` (not nil).  Lines 15-17
assign through the pointer, so they change the object at `a` wherever it is
held; line 23 appends the pointer itself.  Lines 25-42 read the fields of the
message and the maps `userConversations` and `groupMembers` only. -/
def PointerStore.CreateMessage (p : PointerStore) (clk : Clock) (o : MapOrder Bool) (a : Nat) :
    PointerStore × Option String :=
  let objects := fun b => if b = a then stampMessage clk (p.objects a) else p.objects b
  let message := objects a
  let destKey := message.DestinationID
  let slices := set p.slices destKey ((get? p.slices destKey).getD [] ++ [a])
  let r := updateUserConversation p.others clk 2 message.SenderID
    message.DestinationID message.ConversationType
  if message.ConversationType = ConversationTypeOneToOne then
    ({ objects := objects, slices := slices,
       others := (updateUserConversation r.1 clk r.2 message.DestinationID message.SenderID
         message.ConversationType).1 }, none)
  else
    match get? r.1.groupMembers message.DestinationID with
    | some members =>
      ({ objects := objects, slices := slices,
         others := (fanOut clk message.SenderID message.DestinationID message.ConversationType
           (o.visit members) r).1 }, none)
    | none => ({ objects := objects, slices := slices, others := r.1 }, none)

/-- The store does not hold the pointer `a`: no slice of `messages` has it. -/
def PointerStore.Fresh (p : PointerStore) (a : Nat) : Prop := ∀ e ∈ p.slices, a ∉ e.2

/-- The loops of `GetMessage`: the first message with the id, the slices taken
in the order given. -/
def findMessage (messageID : String) : List (String × List Message) → Option Message
  | [] => none
  | (_, messages) :: rest =>
    match messages.find? (fun msg => msg.ID = messageID) with
    | some msg => some msg
    | none => findMessage messageID rest

/-- `func (s *MemoryStore) GetMessage(messageID string) (*database.Message, error)`. -/
def GetMessage (s : MemoryStore) (o : MapOrder (List Message)) (messageID : String) :
    Option Message × Option String :=
  match findMessage messageID (o.visit s.messages) with
  | some msg => (some msg, none)
  | none => (none, some "message not found")

/-- The key of the first slice, in the order given, that holds a message with
the id: where the loops of `UpdateMessageStatus` and `CreateMessageRead`
stop. -/
def findKey (messageID : String) : List (String × List Message) → Option String
  | [] => none
  | (k, messages) :: rest =>
    if messages.any (fun msg => msg.ID = messageID) then some k else findKey messageID rest

/-- The assignments `msg.Status = status; msg.UpdatedAt = time.Now()` at the
first message of a slice that has the id. -/
def setStatusIn (messageID : String) (status : MessageStatus) (t : Nat) :
    List Message → List Message
  | [] => []
  | msg :: rest =>
    if msg.ID = messageID then { msg with Status := status, UpdatedAt := t } :: rest
    else msg :: setStatusIn messageID status t rest

/-- The store's message map after the assignments of `setStatusIn` in the
slice of key `k`. -/
def writeStatus (messageID : String) (status : MessageStatus) (t : Nat) (k : String)
    (ms : List (String × List Message)) : List (String × List Message) :=
  ms.map (fun e => if e.1 = k then (e.1, setStatusIn messageID status t e.2) else e)

/-- `func (s *MemoryStore) UpdateMessageStatus(messageID string,
status database.MessageStatus) error`. -/
def UpdateMessageStatus (s : MemoryStore) (clk : Clock) (o : MapOrder (List Message))
    (messageID : String) (status : MessageStatus) : MemoryStore × Option String :=
  match findKey messageID (o.visit s.messages) with
  | some k => ({ s with messages := writeStatus messageID status (clk 0) k s.messages }, none)
  | none => (s, some "message not found")

/-! ## Receipts and conversations (`database/in-memory/message_read.go`) -/

/-- `func (s *MemoryStore) CreateMessageRead(messageID, userID string) error`. -/
def CreateMessageRead (s : MemoryStore) (clk : Clock) (o : MapOrder (List Message))
    (messageID userID : String) : MemoryStore × Option String :=
  let s1 : MemoryStore :=
    if (get? s.messageReads messageID).isNone then
      { s with messageReads := set s.messageReads messageID [] }
    else s
  let reads := (get? s1.messageReads messageID).getD []
  match get? reads userID with
  | some _ => (s1, none)
  | none =>
    let mr : MessageRead :=
      { ID := "mr_" ++ messageID ++ "_" ++ userID
        MessageID := messageID
        UserID := userID
        CreatedAt := clk 0
        UpdatedAt := clk 1 }
    let s2 : MemoryStore :=
      { s1 with messageReads := set s1.messageReads messageID (set reads userID mr) }
    match findKey messageID (o.visit s2.messages) with
    | some k =>
      ({ s2 with messages := writeStatus messageID StatusRead (clk 2) k s2.messages }, none)
    | none => (s2, none)

/-- `func (s *MemoryStore) GetMessageReads(messageID string) []*database.MessageRead`. -/
def GetMessageReads (s : MemoryStore) (o : MapOrder MessageRead) (messageID : String) :
    List MessageRead :=
  match get? s.messageReads messageID with
  | none => []
  | some reads => (o.visit reads).map (fun e => e.2)

/-- The inner loop of `GetUserConversations` for one `i`: `x` is `result[i]`,
the list is `result[i+1:]`; the element at `i` is exchanged with every later
element whose `UpdatedAt` it is before.  Returns `result[i]` and
`result[i+1:]` after the loop. -/
def sweep (x : UserConversation) : List UserConversation → UserConversation × List UserConversation
  | [] => (x, [])
  | y :: rest =>
    if x.UpdatedAt < y.UpdatedAt then ((sweep y rest).1, x :: (sweep y rest).2)
    else ((sweep x rest).1, y :: (sweep x rest).2)

/-- The outer loop of `GetUserConversations`, `n` iterations from the front of
the list. -/
def sortLoop : Nat → List UserConversation → List UserConversation
  | 0, l => l
  | _ + 1, [] => []
  | n + 1, x :: rest => (sweep x rest).1 :: sortLoop n (sweep x rest).2

/-- `func (s *MemoryStore) GetUserConversations(userID string)
([]*database.UserConversation, error)`. -/
def GetUserConversations (s : MemoryStore) (userID : String) :
    List UserConversation × Option String :=
  match get? s.userConversations userID with
  | none => ([], none)
  | some conversations => (sortLoop (conversations.length - 1) conversations, none)

/-! ## Users and groups (`database/in-memory/user.go`, `group.go`) -/

/-- `func (s *MemoryStore) CreateUser(user *database.User) error`. -/
def CreateUser (s : MemoryStore) (clk : Clock) (user : User) : MemoryStore × Option String :=
  match get? s.users user.ID with
  | some _ => (s, some "user already exists")
  | none =>
    ({ s with users := set s.users user.ID { user with CreatedAt := clk 0, UpdatedAt := clk 1 } },
      none)

/-- `func (s *MemoryStore) GetUser(userID string) (*database.User, error)`. -/
def GetUser (s : MemoryStore) (userID : String) : Option User × Option String :=
  match get? s.users userID with
  | some user => (some user, none)
  | none => (none, some "user not found")

/-- `func (s *MemoryStore) CreateGroup(group *database.Group) error`. -/
def CreateGroup (s : MemoryStore) (clk : Clock) (group : Group) : MemoryStore × Option String :=
  match get? s.groups group.ID with
  | some _ => (s, some "group already exists")
  | none =>
    ({ s with
        groups := set s.groups group.ID { group with CreatedAt := clk 0, UpdatedAt := clk 1 }
        groupMembers := set s.groupMembers group.ID [] }, none)

/-- `func (s *MemoryStore) GetGroup(groupID string) (*database.Group, error)`. -/
def GetGroup (s : MemoryStore) (groupID : String) : Option Group × Option String :=
  match get? s.groups groupID with
  | some group => (some group, none)
  | none => (none, some "group not found")

/-- `func (s *MemoryStore) AddGroupMember(groupID, userID string) error`. -/
def AddGroupMember (s : MemoryStore) (groupID userID : String) : MemoryStore × Option String :=
  match get? s.groups groupID with
  | none => (s, some "group not found")
  | some _ =>
    ({ s with
        groupMembers :=
          set s.groupMembers groupID (set ((get? s.groupMembers groupID).getD []) userID true) },
      none)

/-- `func (s *MemoryStore) IsGroupMember(groupID, userID string) bool`. -/
def IsGroupMember (s : MemoryStore) (groupID userID : String) : Bool :=
  match get? s.groupMembers groupID with
  | none => false
  | some members => (get? members userID).getD false

/-! ## Text search (`internal/pkg/utils/utils.go`) -/

/-- `func toLowerString(s string) string`: the runes from `A` to `Z` are moved
to `a` to `z`, every other rune is kept. -/
def toLowerString (s : List UInt8) : List UInt8 :=
  ((decodeRunes s.length s).map
    (fun r => if 0x41 ≤ r ∧ r ≤ 0x5A then r + 0x61 - 0x41 else r)).flatMap encodeRune

/-- The inner loop of `containsSubstring` for one `i`, from `j` on: `some true`
when the loop ends with `match` still true, `some false` at the first
difference, `none` when an index is out of range or the fuel (a bound on the
iterations) runs out. -/
def matchFrom (text substr : List UInt8) (i : Nat) : Nat → Nat → Option Bool
  | 0, _ => none
  | fuel + 1, j =>
    if j < substr.length then
      match text.get? (i + j), substr.get? j with
      | some a, some b =>
        if a ≠ b then some false else matchFrom text substr i fuel (j + 1)
      | _, _ => none
    else some true

/-- The outer loop of `containsSubstring`, from `i` on, entered with
`len(substr) <= len(text)`. -/
def searchFrom (text substr : List UInt8) : Nat → Nat → Option Bool
  | 0, _ => none
  | fuel + 1, i =>
    if i ≤ text.length - substr.length then
      match matchFrom text substr i (substr.length + 1) 0 with
      | some true => some true
      | some false => searchFrom text substr fuel (i + 1)
      | none => none
    else some false

/-- `func containsSubstring(text, substr string) bool`; `none` is a panic. -/
def containsSubstring (text substr : List UInt8) : Option Bool :=
  if substr.length > text.length then some false
  else searchFrom text substr (text.length - substr.length + 2) 0

/-- `func ContainsString(text, query string) bool`; `none` is a panic. -/
def ContainsString (text query : List UInt8) : Option Bool :=
  if query.length = 0 then some false
  else containsSubstring (toLowerString text) (toLowerString query)

/-! ## Search (`database/in-memory/message_read.go`, lines 96-128) -/

/-- Lines 107-116 of `SearchMessages`: the user is part of the conversation of
the message. -/
def isParticipant (s : MemoryStore) (userID : String) (msg : Message) : Bool :=
  if msg.SenderID = userID then true
  else if msg.ConversationType = ConversationTypeOneToOne ∧ msg.DestinationID = userID then true
  else if msg.ConversationType = ConversationTypeGroup then
    IsGroupMember s msg.DestinationID userID
  else false

/-- The inner loop of `SearchMessages` over one slice; `none` is a panic. -/
def searchSlice (s : MemoryStore) (userID : String) (query : List UInt8) :
    List Message → Option (List Message)
  | [] => some []
  | msg :: rest =>
    if isParticipant s userID msg then
      match ContainsString msg.MessageText query with
      | none => none
      | some found =>
        (searchSlice s userID query rest).map (fun r => if found then msg :: r else r)
    else searchSlice s userID query rest

/-- The outer loop of `SearchMessages` over the slices in the order given. -/
def searchSlices (s : MemoryStore) (userID : String) (query : List UInt8) :
    List (String × List Message) → Option (List Message)
  | [] => some []
  | (_, messages) :: rest =>
    match searchSlice s userID query messages with
    | none => none
    | some r => (searchSlices s userID query rest).map (fun r' => r ++ r')

/-- `func (s *MemoryStore) SearchMessages(userID, query string)
([]*database.Message, error)`; `none` is a panic. -/
def SearchMessages (s : MemoryStore) (o : MapOrder (List Message)) (userID : String)
    (query : List UInt8) : Option (List Message × Option String) :=
  (searchSlices s userID query (o.visit s.messages)).map (fun r => (r, none))

/-! ## Handlers (`controller/*.go`, `internal/pkg/errors/errors.go`) -/

/-- `type AppError struct`, without the details. -/
structure AppError where
  Code : String
  Message : String
  HTTPStatus : Nat
deriving DecidableEq, Repr

/-- `ErrInvalidRequest`. -/
def ErrInvalidRequest : AppError := ⟨"BAD_REQUEST_INVALID_REQUEST", "Invalid request", 400⟩

/-- `ErrMessageEmpty`. -/
def ErrMessageEmpty : AppError :=
  ⟨"BAD_REQUEST_MESSAGE_EMPTY", "Message cannot be empty", 400⟩

/-- `ErrAuthRequired`. -/
def ErrAuthRequired : AppError :=
  ⟨"UNAUTHORIZED_AUTH_REQUIRED", "Authorization header required", 401⟩

/-- `ErrForbiddenAccessDenied`. -/
def ErrForbiddenAccessDenied : AppError := ⟨"FORBIDDEN_ACCESS_DENIED", "Access denied", 403⟩

/-- `ErrNotGroupMember`. -/
def ErrNotGroupMember : AppError :=
  ⟨"FORBIDDEN_NOT_GROUP_MEMBER", "User is not a member of this group", 403⟩

/-- `ErrNotMessageRecipient`. -/
def ErrNotMessageRecipient : AppError :=
  ⟨"FORBIDDEN_NOT_MESSAGE_RECIPIENT", "User is not the recipient of this message", 403⟩

/-- `ErrMessageNotFound`. -/
def ErrMessageNotFound : AppError := ⟨"NOT_FOUND_MESSAGE_NOT_FOUND", "Message not found", 404⟩

/-- `ErrSenderNotFound`. -/
def ErrSenderNotFound : AppError := ⟨"NOT_FOUND_SENDER_NOT_FOUND", "Sender not found", 404⟩

/-- `ErrDestinationNotFound`. -/
def ErrDestinationNotFound : AppError :=
  ⟨"NOT_FOUND_DESTINATION_NOT_FOUND", "Destination not found", 404⟩

/-- `ErrInternalError`. -/
def ErrInternalError : AppError :=
  ⟨"SERVER_ERROR_INTERNAL_ERROR", "An internal error occurred", 500⟩

deriving instance DecidableEq for Except

/-- `type GetMessagesResponse struct`. -/
structure GetMessagesResponse where
  Messages : List Message
  NextCursor : String
  HasMore : Bool
deriving DecidableEq, Repr

/-- Lines 28-34 of the handler `GetMessages`: the limit handed to the store.
`atoi` is the result of `strconv.Atoi(limitStr)`, `none` for an error. -/
def requestLimit (limitStr : String) (atoi : Option Int) : Int :=
  if limitStr ≠ "" then
    match atoi with
    | some l => if l > 0 then l else 50
    | none => 50
  else 50

/-- `func (h *Handler) GetMessages(w http.ResponseWriter, r *http.Request)`:
the response written, from the path variable `destinationId`, the query
parameters `cursor` and `limit` and the result of `strconv.Atoi` on the
latter; `none` is the panic of the store call. -/
def Handler.GetMessages (s : MemoryStore) (destinationID cursor limitStr : String)
    (atoi : Option Int) : Option (Except AppError GetMessagesResponse) :=
  match ChatApp.GetMessages s destinationID (requestLimit limitStr atoi) cursor with
  | none => none
  | some (messages, nextCursor, err) =>
    match err with
    | some _ => some (.error ErrInternalError)
    | none =>
      some (.ok { Messages := messages, NextCursor := nextCursor, HasMore := nextCursor ≠ "" })

/-- `func IsEmpty(s string) bool` of `utils.go`.  `strings.TrimSpace` belongs
to the Go library; it is the parameter `trimSpace`. -/
def IsEmpty (trimSpace : List UInt8 → List UInt8) (s : List UInt8) : Bool :=
  trimSpace s = []

/-- `func SanitizeString(s string, maxLen int) string` of `utils.go`; the
slice expression `s[:maxLen]` is within the bounds under the test before
it. -/
def SanitizeString (trimSpace : List UInt8 → List UInt8) (s : List UInt8) (maxLen : Int) :
    List UInt8 :=
  let s := trimSpace s
  if maxLen > 0 ∧ (s.length : Int) > maxLen then s.take maxLen.toNat else s

/-- `type SendMessageRequest struct`. -/
structure SendMessageRequest where
  SenderID : String
  DestinationID : String
  Message : List UInt8
deriving DecidableEq, Repr

/-- `type SendMessageResponse struct`. -/
structure SendMessageResponse where
  MessageID : String
  Status : MessageStatus
deriving DecidableEq, Repr

/-- `type AckDeliveredRequest struct`. -/
structure AckDeliveredRequest where
  UserID : String
  MessageID : String
deriving DecidableEq, Repr

/-- `type AckDeliveredResponse struct`. -/
structure AckDeliveredResponse where
  Message : String
deriving DecidableEq, Repr

/-- `type AckReadRequest struct`. -/
structure AckReadRequest where
  UserID : String
  MessageID : String
deriving DecidableEq, Repr

/-- `type AckReadResponse struct`. -/
structure AckReadResponse where
  Message : String
deriving DecidableEq, Repr

/-- Lines 93-100 of the handler `SendMessage`: the message that is handed to
the store, with the id `newID`.  The two times are left at their zero
value. -/
def newMessage (trimSpace : List UInt8 → List UInt8) (newID senderID : String)
    (req : SendMessageRequest) (convType : ConversationType) : Message :=
  { ID := newID, SenderID := senderID, DestinationID := req.DestinationID,
    MessageText := SanitizeString trimSpace req.Message 10000, Status := StatusSent,
    ConversationType := convType, CreatedAt := 0, UpdatedAt := 0 }

/-- Lines 93-127 of the handler `SendMessage`: the message is built and
stored, and the response is written with the status the store has assigned
through the pointer. -/
def sendStored (s : MemoryStore) (trimSpace : List UInt8 → List UInt8) (newID : String)
    (clk : Clock) (o : MapOrder Bool) (senderID : String) (req : SendMessageRequest)
    (convType : ConversationType) : MemoryStore × Except AppError SendMessageResponse :=
  let message := newMessage trimSpace newID senderID req convType
  match CreateMessage s clk o message with
  | (s', some _) => (s', .error ErrInternalError)
  | (s', none) =>
    (s', .ok { MessageID := message.ID, Status := (stampMessage clk message).Status })

/-- `func (h *Handler) SendMessage(w http.ResponseWriter, r *http.Request)`:
the store after the call and the response written.  `authenticatedUserID` is
`middleware.GetUserID(r)`, `body` the request decoded from the JSON body
(`none` when the decoder returns an error), `newID` the result of
`utils.GenerateID()`.  The mock of the web socket manager has no effect on the
store. -/
def Handler.SendMessage (s : MemoryStore) (trimSpace : List UInt8 → List UInt8)
    (newID : String) (clk : Clock) (o : MapOrder Bool) (authenticatedUserID : String)
    (body : Option SendMessageRequest) : MemoryStore × Except AppError SendMessageResponse :=
  if authenticatedUserID = "" then (s, .error ErrAuthRequired)
  else
    match body with
    | none => (s, .error ErrInvalidRequest)
    | some req =>
      if IsEmpty trimSpace req.Message then (s, .error ErrMessageEmpty)
      else if req.SenderID ≠ "" ∧ req.SenderID ≠ authenticatedUserID then
        (s, .error ErrForbiddenAccessDenied)
      else
        let senderID := if req.SenderID ≠ "" then req.SenderID else authenticatedUserID
        match (GetUser s senderID).2 with
        | some _ => (s, .error ErrSenderNotFound)
        | none =>
          match (GetGroup s req.DestinationID).2 with
          | none =>
            if ¬ IsGroupMember s req.DestinationID senderID then (s, .error ErrNotGroupMember)
            else sendStored s trimSpace newID clk o senderID req ConversationTypeGroup
          | some _ =>
            match (GetUser s req.DestinationID).2 with
            | some _ => (s, .error ErrDestinationNotFound)
            | none => sendStored s trimSpace newID clk o senderID req ConversationTypeOneToOne

/-- Lines 54-60 of `AckDelivered` and of `AckRead`: the user is the
destination of a one-to-one message or a member of the destination group. -/
def isRecipient (s : MemoryStore) (message : Message) (userID : String) : Bool :=
  if message.ConversationType = ConversationTypeOneToOne then message.DestinationID = userID
  else IsGroupMember s message.DestinationID userID

/-- `func (h *Handler) AckDelivered(w http.ResponseWriter, r *http.Request)`:
the store after the call and the response written.  `o` is the order of the
map in `GetMessage`, `o'` the one in `UpdateMessageStatus`. -/
def Handler.AckDelivered (s : MemoryStore) (clk : Clock) (o o' : MapOrder (List Message))
    (authenticatedUserID : String) (body : Option AckDeliveredRequest) :
    MemoryStore × Except AppError AckDeliveredResponse :=
  if authenticatedUserID = "" then (s, .error ErrAuthRequired)
  else
    match body with
    | none => (s, .error ErrInvalidRequest)
    | some req =>
      if req.UserID ≠ "" ∧ req.UserID ≠ authenticatedUserID then
        (s, .error ErrForbiddenAccessDenied)
      else
        let userID := if req.UserID ≠ "" then req.UserID else authenticatedUserID
        match GetMessage s o req.MessageID with
        | (some message, none) =>
          if ¬ isRecipient s message userID then (s, .error ErrNotMessageRecipient)
          else if message.Status = StatusSent then
            match UpdateMessageStatus s clk o' req.MessageID StatusDelivered with
            | (s', some _) => (s', .error ErrInternalError)
            | (s', none) => (s', .ok { Message := "Message delivered" })
          else (s, .ok { Message := "Message delivered" })
        | _ => (s, .error ErrMessageNotFound)

/-- `func (h *Handler) AckRead(w http.ResponseWriter, r *http.Request)`: the
store after the call and the response written.  `o` is the order of the map in
`GetMessage`, `o'` the one in `CreateMessageRead`. -/
def Handler.AckRead (s : MemoryStore) (clk : Clock) (o o' : MapOrder (List Message))
    (authenticatedUserID : String) (body : Option AckReadRequest) :
    MemoryStore × Except AppError AckReadResponse :=
  if authenticatedUserID = "" then (s, .error ErrAuthRequired)
  else
    match body with
    | none => (s, .error ErrInvalidRequest)
    | some req =>
      if req.UserID ≠ "" ∧ req.UserID ≠ authenticatedUserID then
        (s, .error ErrForbiddenAccessDenied)
      else
        let userID := if req.UserID ≠ "" then req.UserID else authenticatedUserID
        match GetMessage s o req.MessageID with
        | (some message, none) =>
          if ¬ isRecipient s message userID then (s, .error ErrNotMessageRecipient)
          else
            match CreateMessageRead s clk o' req.MessageID userID with
            | (s', some _) => (s', .error ErrInternalError)
            | (s', none) => (s', .ok { Message := "Message read" })
        | _ => (s, .error ErrMessageNotFound)

/-- `type ConversationListItem struct`; the count is at most the limit 1000 of
the scan, far from the range of `int`. -/
structure ConversationListItem where
  ConversationID : String
  DestinationID : String
  ConversationType : ConversationType
  LastMessage : Option Message
  UnreadCount : Nat
  UpdatedAt : Nat
deriving DecidableEq, Repr

/-- `type GetUserConversationsResponse struct`. -/
structure GetUserConversationsResponse where
  Conversations : List ConversationListItem
deriving DecidableEq, Repr

/-- Lines 69-88 of the handler `GetUserConversations`: the loop over
`allMessages` that increments `unreadCount`, from the message of index `j` on;
`o j` is the order of the map in the call `GetMessageReads` for that
message. -/
def countUnread (s : MemoryStore) (o : Nat → MapOrder MessageRead) (userID : String) :
    List Message → Nat → Nat
  | [], _ => 0
  | msg :: rest, j =>
    (if msg.SenderID ≠ userID ∧
        ¬ (GetMessageReads s (o j) msg.ID).any (fun read => read.UserID = userID)
      then 1 else 0) + countUnread s o userID rest (j + 1)

/-- Lines 58-97 of the handler `GetUserConversations`: the item of one
conversation; `none` is a panic of a store call. -/
def conversationItem (s : MemoryStore) (o : Nat → MapOrder MessageRead) (userID : String)
    (conv : UserConversation) : Option ConversationListItem :=
  match GetMessages s conv.DestinationID 1 "" with
  | none => none
  | some (messages, _, _) =>
    match GetMessages s conv.DestinationID 1000 "" with
    | none => none
    | some (allMessages, _, _) =>
      some { ConversationID := conv.ID, DestinationID := conv.DestinationID,
             ConversationType := conv.ConversationType, LastMessage := messages.head?,
             UnreadCount := countUnread s o userID allMessages 0,
             UpdatedAt := conv.UpdatedAt }

/-- The loop of the handler `GetUserConversations` over the conversations, from
the one of index `i` on. -/
def conversationItems (s : MemoryStore) (o : Nat → Nat → MapOrder MessageRead)
    (userID : String) : List UserConversation → Nat → Option (List ConversationListItem)
  | [], _ => some []
  | conv :: rest, i =>
    match conversationItem s (o i) userID conv with
    | none => none
    | some item => (conversationItems s o userID rest (i + 1)).map (fun items => item :: items)

/-- `func (h *Handler) GetUserConversations(w http.ResponseWriter, r *http.Request)`:
the response written, from the authenticated user of the context and the path
variable `userId`; `o i j` is the order of the map in the call
`GetMessageReads` for the message of index `j` of the conversation of index
`i`; `none` is a panic of a store call. -/
def Handler.GetUserConversations (s : MemoryStore) (o : Nat → Nat → MapOrder MessageRead)
    (authenticatedUserID requestedUserID : String) :
    Option (Except AppError GetUserConversationsResponse) :=
  if authenticatedUserID = "" then some (.error ErrAuthRequired)
  else if requestedUserID ≠ authenticatedUserID then some (.error ErrForbiddenAccessDenied)
  else
    match ChatApp.GetUserConversations s authenticatedUserID with
    | (_, some _) => some (.error ErrInternalError)
    | (conversations, none) =>
      (conversationItems s o authenticatedUserID conversations 0).map
        (fun items => .ok { Conversations := items })

/-- One request to a handler that changes the store, with what the handler
reads from the request and from its surroundings. -/
inductive HandlerCall where
  | sendMessage (trimSpace : List UInt8 → List UInt8) (newID : String) (clk : Clock)
      (o : MapOrder Bool) (authenticatedUserID : String) (body : Option SendMessageRequest)
  | ackDelivered (clk : Clock) (o o' : MapOrder (List Message)) (authenticatedUserID : String)
      (body : Option AckDeliveredRequest)
  | ackRead (clk : Clock) (o o' : MapOrder (List Message)) (authenticatedUserID : String)
      (body : Option AckReadRequest)

/-- The store after one request. -/
def handle (s : MemoryStore) : HandlerCall → MemoryStore
  | .sendMessage trimSpace newID clk o auth body =>
    (Handler.SendMessage s trimSpace newID clk o auth body).1
  | .ackDelivered clk o o' auth body => (Handler.AckDelivered s clk o o' auth body).1
  | .ackRead clk o o' auth body => (Handler.AckRead s clk o o' auth body).1

/-! ## Sequences of operations -/

/-- One call of a state-changing operation of the store, with its
arguments. -/
inductive Op where
  | createUser (user : User)
  | createGroup (group : Group)
  | addGroupMember (groupID userID : String)
  | createMessage (o : MapOrder Bool) (message : Message)
  | updateMessageStatus (o : MapOrder (List Message)) (messageID : String) (status : MessageStatus)
  | createMessageRead (o : MapOrder (List Message)) (messageID userID : String)

/-- The store after one call. -/
def step (s : MemoryStore) (c : Clock × Op) : MemoryStore :=
  match c.2 with
  | .createUser user => (CreateUser s c.1 user).1
  | .createGroup group => (CreateGroup s c.1 group).1
  | .addGroupMember groupID userID => (AddGroupMember s groupID userID).1
  | .createMessage o message => (CreateMessage s c.1 o message).1
  | .updateMessageStatus o messageID status => (UpdateMessageStatus s c.1 o messageID status).1
  | .createMessageRead o messageID userID => (CreateMessageRead s c.1 o messageID userID).1

/-- The store after a sequence of calls. -/
def run (s : MemoryStore) (calls : List (Clock × Op)) : MemoryStore :=
  calls.foldl step s

/-- The states of the store: those a sequence of calls produces from
`NewStore()`. -/
def Reachable (s : MemoryStore) : Prop := ∃ calls, run NewStore calls = s

/-- One call of the interface of the server: an operation of the store or a
request to a handler. -/
inductive Call where
  | op (c : Clock × Op)
  | request (h : HandlerCall)

/-- The store after one call of the interface. -/
def applyCall (s : MemoryStore) : Call → MemoryStore
  | .op c => step s c
  | .request h => handle s h

/-- The store after a sequence of calls of the interface. -/
def runCalls (s : MemoryStore) (calls : List Call) : MemoryStore :=
  calls.foldl applyCall s

/-! ## The pagination loop of a client -/

/-- The client loop of the pagination property: the first page is asked with
the empty cursor, every further page with the `nextCursor` of the page before,
until `nextCursor` is empty; the pages are concatenated.  `none` when a call
panics or the fuel (a bound on the number of calls) runs out. -/
def fetchAllPages (s : MemoryStore) (destinationID : String) (limit : Int) :
    Nat → String → Option (List Message)
  | 0, _ => none
  | fuel + 1, cursor =>
    match GetMessages s destinationID limit cursor with
    | none => none
    | some (page, nextCursor, _) =>
      if nextCursor = "" then some page
      else (fetchAllPages s destinationID limit fuel nextCursor).map (fun more => page ++ more)

/-! ## Words of the specification -/

/-- The words of the specification, "some contiguous substring of text equals
query when letters are compared ignoring case", for a text and a query given
by their characters.  The case folding `fold` says which letters are the same
ignoring case: two characters are when `fold` sends them to the same
character. -/
def CaseInsensitiveSubstring (fold : Char → Char) (text query : List Char) : Prop :=
  ∃ pre mid post, text = pre ++ mid ++ post ∧ mid.map fold = query.map fold

/-- The case folding treats the characters of ASCII as ASCII does: below
U+0080 it sends A to Z to a to z and keeps every other character.  Every case
folding of Unicode does. -/
def FoldsAscii (fold : Char → Char) : Prop :=
  ∀ c : Char, c.toNat < 128 → fold c = c.toLower

/-- The characters of the text are of ASCII. -/
def IsAscii (t : String) : Prop := ∀ c ∈ t.data, c.toNat < 128

/-- A case folding for the examples: the lower case of the letters of ASCII
and of the letters U+00C0 to U+00DE of Latin-1 (the sign U+00D7 is no
letter), every other character kept. -/
def foldLatin1 (c : Char) : Char :=
  if 0xC0 ≤ c.toNat ∧ c.toNat ≤ 0xDE ∧ c.toNat ≠ 0xD7 then Char.ofNat (c.toNat + 32)
  else c.toLower

/-- A receipt with the user is recorded for the message: one of the receipts
stored for the message id has the user in its field `UserID`. -/
def receiptOf (s : MemoryStore) (messageID userID : String) : Bool :=
  ((get? s.messageReads messageID).getD []).any (fun e => e.2.UserID = userID)

/-- The words of the specification, "the messages not sent by the user that
lack a MessageRead entry for that user": their number among the messages of a
list. -/
def unreadAmong (s : MemoryStore) (userID : String) (messages : List Message) : Nat :=
  messages.countP (fun m => m.SenderID ≠ userID ∧ ¬ receiptOf s m.ID userID)

/-- The string begins with white space: its first rune is a space of
Unicode. -/
def leadingSpace (s : List UInt8) : Bool := s ≠ [] ∧ isSpace (decodeRune s).1

/-- The string ends with white space: its last rune is a space of Unicode. -/
def trailingSpace (s : List UInt8) : Bool := s ≠ [] ∧ isSpace (decodeLastRune s).1

/-! ## Properties of a state -/

/-- Every receipt is stored under the id of its user, and no receipt map has
a key twice. -/
def ReceiptsKeyed (s : MemoryStore) : Prop :=
  ∀ e ∈ s.messageReads, (e.2.map (fun r => r.1)).Nodup ∧ ∀ r ∈ e.2, r.2.UserID = r.1

/-- Every receipt carries the message id it is stored under and the id
`mr_<message>_<user>`. -/
def ReceiptsNamed (s : MemoryStore) : Prop :=
  ∀ e ∈ s.messageReads, ∀ r ∈ e.2,
    r.2.MessageID = e.1 ∧ r.2.ID = "mr_" ++ e.1 ++ "_" ++ r.1

/-- A membership set is stored only for a stored group. -/
def MembersOfGroups (s : MemoryStore) : Prop :=
  ∀ g, get? s.groupMembers g ≠ none → get? s.groups g ≠ none

/-- The destination of every stored message is the id of a stored user or of a
stored group. -/
def DestinationsResolve (s : MemoryStore) : Prop :=
  ∀ e ∈ s.messages, ∀ m ∈ e.2,
    get? s.users m.DestinationID ≠ none ∨ get? s.groups m.DestinationID ≠ none

/-- No two stored messages have the same id. -/
def UniqueIDs (s : MemoryStore) : Prop :=
  ((s.messages.flatMap (fun e => e.2)).map (fun msg => msg.ID)).Nodup

/-- The message at index `i` of the slice stored for the destination. -/
def messageAt (s : MemoryStore) (destinationID : String) (i : Nat) : Option Message :=
  ((get? s.messages destinationID).getD []).get? i

/-- The rank of a status in the order SENT < DELIVERED < READ; a string that
is none of the three statuses has the rank of SENT. -/
def statusRank (st : MessageStatus) : Nat :=
  if st = StatusRead then 2 else if st = StatusDelivered then 1 else 0

/-- A message with the id is stored. -/
def Stored (s : MemoryStore) (messageID : String) : Prop :=
  ∃ e ∈ s.messages, ∃ msg ∈ e.2, msg.ID = messageID

/-- The test `_, exists := s.messageReads[messageID][userID]`: a receipt of the
user for the message is recorded. -/
def hasReceipt (s : MemoryStore) (messageID userID : String) : Bool :=
  match get? s.messageReads messageID with
  | none => false
  | some reads => (get? reads userID).isSome

/-- The conversation list `s.userConversations[userID]`, empty when the user
has none. -/
def conversationsOf (s : MemoryStore) (userID : String) : List UserConversation :=
  (get? s.userConversations userID).getD []

/-- The user's list holds a row for the destination and the kind. -/
def hasRow (s : MemoryStore) (userID destinationID : String) (convType : ConversationType) :
    Prop :=
  ∃ uc ∈ conversationsOf s userID,
    uc.DestinationID = destinationID ∧ uc.ConversationType = convType

/-- The fields of a row that `updateUserConversation` never assigns after the
row is made: all but `UpdatedAt`. -/
def rowFixed (uc : UserConversation) : String × String × String × ConversationType × Nat :=
  (uc.ID, uc.UserID, uc.DestinationID, uc.ConversationType, uc.CreatedAt)

/-- The fields of a message no operation assigns after `CreateMessage`: all but
`Status` and `UpdatedAt`. -/
def msgFixed (m : Message) :
    String × String × String × List UInt8 × ConversationType × Nat :=
  (m.ID, m.SenderID, m.DestinationID, m.MessageText, m.ConversationType, m.CreatedAt)

/-- From `s` to `s'` the users, the groups, the membership sets and the
conversation lists are the same, and the map of the messages has the same keys
in the same order, each with a slice of the same length, in which every
message has kept its place and all its fields but `Status` and `UpdatedAt`,
and a message whose id is not `messageID` has kept these two as well. -/
def StatusFrame (s s' : MemoryStore) (messageID : String) : Prop :=
  s'.users = s.users ∧ s'.groups = s.groups ∧ s'.groupMembers = s.groupMembers ∧
  s'.userConversations = s.userConversations ∧
  List.Forall₂
    (fun e e' => e'.1 = e.1 ∧
      List.Forall₂ (fun x x' => msgFixed x' = msgFixed x ∧ (x.ID ≠ messageID → x' = x)) e.2 e'.2)
    s.messages s'.messages

/-- No list of conversations has two rows of the same destination and kind. -/
def RowsUnique (s : MemoryStore) : Prop :=
  ∀ e ∈ s.userConversations,
    (e.2.map (fun uc => (uc.DestinationID, uc.ConversationType))).Nodup

/-- From `s` to `s'` no row of any conversation list is removed or moved: each
list of `s'` is the list of `s`, up to `UpdatedAt`, followed by new rows. -/
def RowsKept (s s' : MemoryStore) : Prop :=
  ∀ u, ∃ extra,
    (conversationsOf s' u).map rowFixed = (conversationsOf s u).map rowFixed ++ extra

/-! ## Concrete stores used by the examples -/

/-- The message "Hello Bob!" from user1 to user2 under the given id. -/
def helloMsg (id : String) : Message :=
  { ID := id, SenderID := "user1", DestinationID := "user2", MessageText := utf8 "Hello Bob!",
    Status := StatusSent, ConversationType := ConversationTypeOneToOne,
    CreatedAt := 0, UpdatedAt := 0 }

/-- A clock whose reads are `t`, `t + 1`, `t + 2`, ... -/
def clockFrom (t : Nat) : Clock := fun k => t + k

/-- The store after user1 has sent user2 the messages m1, m2 and m3. -/
def threeMessages : MemoryStore :=
  run NewStore
    [(clockFrom 10, .createMessage (MapOrder.asStored Bool) (helloMsg "m1")),
     (clockFrom 20, .createMessage (MapOrder.asStored Bool) (helloMsg "m2")),
     (clockFrom 30, .createMessage (MapOrder.asStored Bool) (helloMsg "m3"))]

/-- The slice of user2 in `threeMessages`: m1, m2, m3 in the order they were
sent. -/
def user2Messages : List Message := (get? threeMessages.messages "user2").getD []

/-- The store after user1 has sent user2 the message m1, "Hello Bob!". -/
def oneMessage : MemoryStore :=
  run NewStore [(clockFrom 10, .createMessage (MapOrder.asStored Bool) (helloMsg "m1"))]

/-- The calls that make the group g with the members a, b and c and send it
one message from a. -/
def groupChatCalls : List (Clock × Op) :=
  [(clockFrom 0, .createGroup
      { ID := "g", Name := "Team", Description := "", CreatedBy := "a",
        CreatedAt := 0, UpdatedAt := 0 }),
   (clockFrom 10, .addGroupMember "g" "a"),
   (clockFrom 20, .addGroupMember "g" "b"),
   (clockFrom 30, .addGroupMember "g" "c"),
   (clockFrom 40, .createMessage (MapOrder.backwards Bool)
      { ID := "m1", SenderID := "a", DestinationID := "g", MessageText := utf8 "Hello team!",
        Status := StatusRead, ConversationType := ConversationTypeGroup,
        CreatedAt := 0, UpdatedAt := 0 })]

/-- The message m1 of `groupChatCalls` as it is stored. -/
def groupChatMessage : Message :=
  { ID := "m1", SenderID := "a", DestinationID := "g", MessageText := utf8 "Hello team!",
    Status := StatusSent, ConversationType := ConversationTypeGroup,
    CreatedAt := 40, UpdatedAt := 41 }

/-- The calls by which user1 writes first to user2, then to user3. -/
def twoChatsCalls : List (Clock × Op) :=
  [(clockFrom 10, .createMessage (MapOrder.asStored Bool) (helloMsg "m1")),
   (clockFrom 20, .createMessage (MapOrder.asStored Bool)
      { helloMsg "m2" with DestinationID := "user3" })]

/-- The group g, "Team", made by a. -/
def teamGroup : Group :=
  { ID := "g", Name := "Team", Description := "", CreatedBy := "a",
    CreatedAt := 0, UpdatedAt := 0 }

/-- The calls by which user1 sends m1 to user2, user2 reads it twice and user3
reads it once. -/
def readCalls : List (Clock × Op) :=
  [(clockFrom 10, .createMessage (MapOrder.asStored Bool) (helloMsg "m1")),
   (clockFrom 20, .createMessageRead (MapOrder.asStored _) "m1" "user2"),
   (clockFrom 30, .createMessageRead (MapOrder.asStored _) "m1" "user3"),
   (clockFrom 40, .createMessageRead (MapOrder.asStored _) "m1" "user2")]

/-- The store in which user1, user2 and user3 exist and user1 has sent user2
the message m1, "Hello Bob!". -/
def threeUsers : MemoryStore :=
  run NewStore
    [(clockFrom 0, .createUser
        { ID := "user1", Name := "Alice", Email := "", CreatedAt := 0, UpdatedAt := 0 }),
     (clockFrom 2, .createUser
        { ID := "user2", Name := "Bob", Email := "", CreatedAt := 0, UpdatedAt := 0 }),
     (clockFrom 4, .createUser
        { ID := "user3", Name := "Carol", Email := "", CreatedAt := 0, UpdatedAt := 0 }),
     (clockFrom 10, .createMessage (MapOrder.asStored Bool) (helloMsg "m1"))]

/-- The request `POST /ack/delivered` of user2 for the message m1. -/
def ackDeliveredByBob : HandlerCall :=
  .ackDelivered (clockFrom 50) (MapOrder.asStored _) (MapOrder.backwards _) "user2"
    (some { UserID := "", MessageID := "m1" })

/-- The request `POST /ack/read` of user2 for the message m1. -/
def ackReadByBob : HandlerCall :=
  .ackRead (clockFrom 60) (MapOrder.backwards _) (MapOrder.asStored _) "user2"
    (some { UserID := "user2", MessageID := "m1" })

/-- The request `POST /sendMessage` of user1 with the text "Hi" for user2; the
text has no white space at its ends, so `strings.TrimSpace` returns it as it
is, and the generated id is m2. -/
def sendHiToBob : HandlerCall :=
  .sendMessage (fun t => t) "m2" (clockFrom 70) (MapOrder.asStored _) "user1"
    (some { SenderID := "", DestinationID := "user2", Message := utf8 "Hi" })

/-- The store after the single call `CreateMessage` of a message from "nobody"
to "ghost", neither of them a user or a group. -/
def ghostMessage : MemoryStore :=
  run NewStore
    [(clockFrom 10, .createMessage (MapOrder.asStored Bool)
      { helloMsg "m1" with SenderID := "nobody", DestinationID := "ghost" })]

/-- The calls by which user1 and user2 are made, user1 sends "Hi" to user2
through the handler and then tries to send it to "ghost", who is neither a
user nor a group. -/
def sendCalls : List Call :=
  [.op (clockFrom 0, .createUser
      { ID := "user1", Name := "Alice", Email := "", CreatedAt := 0, UpdatedAt := 0 }),
   .op (clockFrom 2, .createUser
      { ID := "user2", Name := "Bob", Email := "", CreatedAt := 0, UpdatedAt := 0 }),
   .request sendHiToBob,
   .request (.sendMessage (fun t => t) "m3" (clockFrom 80) (MapOrder.asStored _) "user1"
      (some { SenderID := "", DestinationID := "ghost", Message := utf8 "Hi" }))]

/-- The `i`-th of the messages of a to the group g. -/
def numbered (i : Nat) : Message :=
  { ID := "m" ++ toString i, SenderID := "a", DestinationID := "g",
    MessageText := utf8 "Hello team!", Status := StatusSent,
    ConversationType := ConversationTypeGroup, CreatedAt := 10 * i, UpdatedAt := 10 * i + 1 }

/-- A store in which the group g has the members a and u and holds 1001
messages of a, m0 to m1000, none of them read by u. -/
def crowdedGroup : MemoryStore :=
  { users := []
    groups := [("g", teamGroup)]
    groupMembers := [("g", [("a", true), ("u", true)])]
    messages := [("g", (List.range 1001).map numbered)]
    userConversations :=
      [("a", [{ ID := "uc_a_g", UserID := "a", DestinationID := "g",
                ConversationType := ConversationTypeGroup, CreatedAt := 2, UpdatedAt := 10002 }]),
       ("u", [{ ID := "uc_u_g", UserID := "u", DestinationID := "g",
                ConversationType := ConversationTypeGroup, CreatedAt := 4, UpdatedAt := 10003 }])]
    messageReads := [] }

/-- The store after `CreateMessage(m1)` and `CreateMessageRead(m1, user2)`. -/
def readOnce : MemoryStore :=
  run NewStore
    [(clockFrom 10, .createMessage (MapOrder.asStored Bool) (helloMsg "m1")),
     (clockFrom 20, .createMessageRead (MapOrder.asStored _) "m1" "user2")]

/-- The empty store; at the address 1 the message m1 "Hello Bob!" as a caller
has built it. -/
def emptyPointers : PointerStore :=
  { objects := fun _ => helloMsg "m1"
    slices := []
    others := NewStore }

/-- The store `readOnce` with its pointers: the pointer to m1, the address 1,
is in the slice of user2, where `CreateMessage` has put it, and m1 has the
status READ, which `CreateMessageRead` has written through it. -/
def heldRead : PointerStore :=
  { objects := fun _ =>
      { helloMsg "m1" with Status := StatusRead, CreatedAt := 10, UpdatedAt := 22 }
    slices := [("user2", [1])]
    others := readOnce }

/-- The store `oneMessage` with its pointers: m1 is at the address 1, which
the slice of user2 holds; at the address 2 a caller has built the message m2
with the status READ. -/
def twoPointers : PointerStore :=
  { objects := fun b =>
      if b = 1 then { helloMsg "m1" with CreatedAt := 10, UpdatedAt := 11 }
      else { helloMsg "m2" with Status := StatusRead }
    slices := [("user2", [1])]
    others := oneMessage }

/-- The store in which user1, user2 and user3 exist and user1 has sent user2
the message m1 with the text "ÄPFEL". -/
def apfelStore : MemoryStore :=
  run NewStore
    [(clockFrom 0, .createUser
        { ID := "user1", Name := "Alice", Email := "", CreatedAt := 0, UpdatedAt := 0 }),
     (clockFrom 2, .createUser
        { ID := "user2", Name := "Bob", Email := "", CreatedAt := 0, UpdatedAt := 0 }),
     (clockFrom 4, .createUser
        { ID := "user3", Name := "Carol", Email := "", CreatedAt := 0, UpdatedAt := 0 }),
     (clockFrom 10, .createMessage (MapOrder.asStored Bool)
        { helloMsg "m1" with MessageText := utf8 "ÄPFEL" })]

/-- The message m1 of `apfelStore` as it is stored. -/
def apfelMessage : Message :=
  { ID := "m1", SenderID := "user1", DestinationID := "user2", MessageText := utf8 "ÄPFEL",
    Status := StatusSent, ConversationType := ConversationTypeOneToOne,
    CreatedAt := 10, UpdatedAt := 11 }

/-- The store after user1 has sent m1 to user2 and user3 has sent m2 to
user1. -/
def crossTalk : MemoryStore :=
  run NewStore
    [(clockFrom 10, .createMessage (MapOrder.asStored Bool) (helloMsg "m1")),
     (clockFrom 20, .createMessage (MapOrder.asStored Bool)
        { helloMsg "m2" with SenderID := "user3", DestinationID := "user1" })]

/-- A text of 10001 bytes: 9999 times the letter a, a space and the letter
b. -/
def longText : List UInt8 := List.replicate 9999 0x61 ++ [0x20, 0x62]

/-- The request `POST /sendMessage` of user1 with the text `longText` for
user2; the generated id is m2. -/
def sendLongText : HandlerCall :=
  .sendMessage TrimSpace "m2" (clockFrom 70) (MapOrder.asStored _) "user1"
    (some { SenderID := "", DestinationID := "user2", Message := longText })

/-- The request `POST /sendMessage` of user1 with the text "  Hi" followed by a
space and a line feed, for user2; the generated id is m2. -/
def sendPaddedHi : HandlerCall :=
  .sendMessage TrimSpace "m2" (clockFrom 70) (MapOrder.asStored _) "user1"
    (some { SenderID := "user1", DestinationID := "user2", Message := utf8 "  Hi \n" })

/-! # Theorems -/

/-! ## Maps -/

theorem get?_set_self {V : Type} (m : List (String × V)) (k : String) (v : V) :
    get? (set m k v) k = some v := by
  induction m with
  | nil => simp [set, get?]
  | cons e rest ih =>
    obtain ⟨k', v'⟩ := e
    by_cases h : k' = k
    · simp [set, get?, h]
    · simp [set, get?, h, ih]

theorem get?_set_ne {V : Type} (m : List (String × V)) (k k' : String) (v : V) (h : k' ≠ k) :
    get? (set m k v) k' = get? m k' := by
  induction m with
  | nil =>
    have h' : k ≠ k' := fun e => h e.symm
    simp [set, get?, h']
  | cons e rest ih =>
    obtain ⟨k₀, v₀⟩ := e
    by_cases h0 : k₀ = k
    · subst h0
      have h' : k₀ ≠ k' := fun e => h e.symm
      simp [set, get?, h']
    · by_cases h1 : k₀ = k'
      · subst h1
        simp [set, get?, h0]
      · simp [set, get?, h0, h1, ih]

theorem mem_of_get? {V : Type} (m : List (String × V)) (k : String) (v : V)
    (h : get? m k = some v) : (k, v) ∈ m := by
  induction m with
  | nil => simp [get?] at h
  | cons e rest ih =>
    obtain ⟨k', v'⟩ := e
    by_cases hk : k' = k
    · simp [get?, hk] at h
      simp [hk, h]
    · simp [get?, hk] at h
      exact List.mem_cons_of_mem _ (ih h)

theorem mem_set {V : Type} (m : List (String × V)) (k : String) (v : V) (e : String × V)
    (h : e ∈ set m k v) : e ∈ m ∨ e = (k, v) := by
  induction m with
  | nil =>
    simp [set] at h
    exact Or.inr h
  | cons e' rest ih =>
    obtain ⟨k', v'⟩ := e'
    by_cases hk : k' = k
    · simp [set, hk] at h
      rcases h with h | h
      · exact Or.inr h
      · exact Or.inl (List.mem_cons_of_mem _ h)
    · simp [set, hk] at h
      rcases h with h | h
      · exact Or.inl (h ▸ List.mem_cons_self _ _)
      · rcases ih h with h' | h'
        · exact Or.inl (List.mem_cons_of_mem _ h')
        · exact Or.inr h'

theorem keys_set {V : Type} (l : List (String × V)) (k : String) (v : V) :
    (set l k v).map (fun e => e.1) =
      if k ∈ l.map (fun e => e.1) then l.map (fun e => e.1) else l.map (fun e => e.1) ++ [k] := by
  induction l with
  | nil => simp [set]
  | cons e rest ih =>
    obtain ⟨k', v'⟩ := e
    by_cases hk : k' = k
    · subst hk
      simp [set]
    · have hk' : ¬ k = k' := fun h => hk h.symm
      simp only [set, hk, if_false, List.map_cons, ih, List.mem_cons, hk', false_or]
      split <;> simp

theorem nodup_keys_set {V : Type} (l : List (String × V)) (k : String) (v : V)
    (h : (l.map (fun e => e.1)).Nodup) : ((set l k v).map (fun e => e.1)).Nodup := by
  rw [keys_set]
  split
  · exact h
  · rename_i hk
    exact List.Nodup.append h (List.nodup_singleton k) (by simpa using hk)

theorem keys_mem_of_get? {V : Type} (l : List (String × V)) (k : String) (v : V)
    (h : get? l k = some v) : k ∈ l.map (fun e => e.1) :=
  List.mem_map_of_mem (fun e => e.1) (mem_of_get? l k v h)

theorem countP_eq_one_of_nodup {α β : Type} [DecidableEq β] (f : α → β) (l : List α) (k : β)
    (hnd : (l.map f).Nodup) (hmem : ∃ x ∈ l, f x = k) :
    l.countP (fun x => f x = k) = 1 := by
  induction l with
  | nil => simp at hmem
  | cons a rest ih =>
    rw [List.map_cons, List.nodup_cons] at hnd
    by_cases ha : f a = k
    · have hzero : rest.countP (fun x => decide (f x = k)) = 0 := by
        rw [List.countP_eq_zero]
        intro x hx hk
        apply hnd.1
        rw [ha, ← of_decide_eq_true hk]
        exact List.mem_map_of_mem f hx
      simp [List.countP_cons, ha, hzero]
    · obtain ⟨x, hx, hk⟩ := hmem
      rcases List.mem_cons.mp hx with hx | hx
      · subst hx
        exact absurd hk ha
      · simp [List.countP_cons, ha, ih hnd.2 ⟨x, hx, hk⟩]

/-! ## Sequences of calls -/

theorem run_append (s : MemoryStore) (a b : List (Clock × Op)) :
    run s (a ++ b) = run (run s a) b := by
  simp [run, List.foldl_append]

theorem run_snoc (s : MemoryStore) (calls : List (Clock × Op)) (c : Clock × Op) :
    run s (calls ++ [c]) = step (run s calls) c := by
  simp [run, List.foldl_append]

theorem run_invariant (P : MemoryStore → Prop) (hstep : ∀ s c, P s → P (step s c))
    (s : MemoryStore) (calls : List (Clock × Op)) (h : P s) : P (run s calls) := by
  induction calls generalizing s with
  | nil => exact h
  | cons c rest ih => exact ih (step s c) (hstep s c h)

theorem Reachable.invariant (P : MemoryStore → Prop) (h0 : P NewStore)
    (hstep : ∀ s c, P s → P (step s c)) (s : MemoryStore) (hs : Reachable s) : P s := by
  obtain ⟨calls, rfl⟩ := hs
  exact run_invariant P hstep NewStore calls h0

/-! ## `GetMessages` and the pagination loop (C1, C2, C3) -/

theorem wrapInt_of_range (x : Int) (h0 : 0 ≤ x) (h1 : x ≤ maxInt) : wrapInt x = x := by
  unfold wrapInt maxInt at *
  omega

theorem cursorStart_of_not_mem (cursor : String) (l : List Message) (i : Nat)
    (h : ∀ m ∈ l, m.ID ≠ cursor) : cursorStart cursor l i = 0 := by
  induction l generalizing i with
  | nil => rfl
  | cons m rest ih =>
    have hm : m.ID ≠ cursor := h m (List.mem_cons_self _ _)
    simp only [cursorStart, hm, if_false]
    exact ih (i + 1) (fun x hx => h x (List.mem_cons_of_mem _ hx))

theorem cursorStart_of_get (cursor : String) (l : List Message) (i k : Nat) (m : Message)
    (hnd : (l.map (fun x => x.ID)).Nodup) (hk : l.get? k = some m) (hid : m.ID = cursor) :
    cursorStart cursor l i = i + k + 1 := by
  induction l generalizing i k with
  | nil => simp at hk
  | cons x rest ih =>
    cases k with
    | zero =>
      simp only [List.get?_cons_zero, Option.some.injEq] at hk
      subst hk
      simp [cursorStart, hid]
    | succ k =>
      simp only [List.get?_cons_succ] at hk
      rw [List.map_cons, List.nodup_cons] at hnd
      have hx : x.ID ≠ cursor := by
        intro hx
        apply hnd.1
        rw [hx, ← hid]
        exact List.mem_map_of_mem _ (List.get?_mem hk)
      simp only [cursorStart, hx, if_false]
      rw [ih (i + 1) k hnd.2 hk]
      omega

theorem cursorStart_le (cursor : String) (l : List Message) (i : Nat) :
    cursorStart cursor l i ≤ i + l.length := by
  induction l generalizing i with
  | nil => simp [cursorStart]
  | cons x rest ih =>
    simp only [cursorStart, List.length_cons]
    split
    · omega
    · have := ih (i + 1)
      omega

/-- The page and the next cursor of `GetMessages` whenever `limit` is not
negative and `startIdx + limit` does not exceed the largest `int`: the page is
the `limit` messages of the newest-first list from `startIdx` on, the next
cursor the id of the message right after them. -/
theorem GetMessages_of_no_overflow (s : MemoryStore) (dest cursor : String)
    (msgs : List Message) (n : Nat) (h : get? s.messages dest = some msgs)
    (hno : ((if cursor ≠ "" then cursorStart cursor msgs.reverse 0 else 0 : Nat) : Int) + n
      ≤ maxInt) :
    GetMessages s dest n cursor =
      some (((msgs.reverse.drop
          (if cursor ≠ "" then cursorStart cursor msgs.reverse 0 else 0)).take n),
        (match msgs.reverse.get?
            ((if cursor ≠ "" then cursorStart cursor msgs.reverse 0 else 0) + n) with
          | some m => m.ID
          | none => ""), none) := by
  generalize hst : (if cursor ≠ "" then cursorStart cursor msgs.reverse 0 else 0 : Nat) = start
    at hno
  have hle : start ≤ msgs.reverse.length := by
    rw [← hst]
    split
    · simpa using cursorStart_le cursor msgs.reverse 0
    · omega
  unfold GetMessages
  simp only [h, hst]
  rw [wrapInt_of_range _ (by omega) hno]
  by_cases hbig : ((start : Int) + n) > (msgs.reverse.length : Int)
  · simp only [hbig, if_true]
    have h1 : (start : Int) ≤ (msgs.reverse.length : Int) := by exact_mod_cast hle
    simp only [h1, if_true, lt_irrefl, if_false, Int.toNat_ofNat]
    have h2 : msgs.reverse.get? (start + n) = none := by
      apply List.get?_eq_none.mpr
      omega
    rw [h2]
    congr 2
    have hl : msgs.reverse.length = msgs.length := List.length_reverse msgs
    rw [List.take_of_length_le (by simp only [List.length_drop]; omega)]
    rw [List.take_of_length_le (by simp only [List.length_drop]; omega)]
  · simp only [hbig, if_false]
    have h1 : (start : Int) ≤ (start : Int) + n := by omega
    simp only [h1, if_true]
    have h3 : ((start : Int) + n).toNat = start + n := by omega
    rw [h3]
    have h4 : start + n - start = n := by omega
    rw [h4]
    by_cases hlt : ((start : Int) + n) < (msgs.reverse.length : Int)
    · simp only [hlt, if_true]
    · simp only [hlt, if_false]
      have h2 : msgs.reverse.get? (start + n) = none := by
        apply List.get?_eq_none.mpr
        omega
      rw [h2]

/-- The first page: with the empty cursor and a limit `n` within `int`, the
call returns the `n` newest messages, newest first, and as next cursor the id
of the message after them. -/
theorem GetMessages_first_page (s : MemoryStore) (dest : String) (msgs : List Message) (n : Nat)
    (h : get? s.messages dest = some msgs) (hn : (n : Int) ≤ maxInt) :
    GetMessages s dest n "" =
      some (msgs.reverse.take n,
        (match msgs.reverse.get? n with
          | some m => m.ID
          | none => ""), none) := by
  have := GetMessages_of_no_overflow s dest "" msgs n h (by simpa using hn)
  simpa using this

/-- The page after a cursor: when the ids of the destination's messages are
distinct, the cursor is the id of the message at index `k` of the newest-first
list and `k + 1 + n` does not exceed the largest `int`, the call returns the
`n` messages after index `k` and as next cursor the id of the message after
them. -/
theorem GetMessages_after_cursor (s : MemoryStore) (dest cursor : String) (msgs : List Message)
    (n k : Nat) (m : Message) (h : get? s.messages dest = some msgs)
    (hnd : (msgs.map (fun x => x.ID)).Nodup) (hc : cursor ≠ "")
    (hk : msgs.reverse.get? k = some m) (hid : m.ID = cursor)
    (hno : (k : Int) + 1 + n ≤ maxInt) :
    GetMessages s dest n cursor =
      some ((msgs.reverse.drop (k + 1)).take n,
        (match msgs.reverse.get? (k + 1 + n) with
          | some m => m.ID
          | none => ""), none) := by
  have hnd' : (msgs.reverse.map (fun x => x.ID)).Nodup := by
    rw [List.map_reverse]
    exact List.nodup_reverse.mpr hnd
  have hstart : cursorStart cursor msgs.reverse 0 = k + 1 := by
    rw [cursorStart_of_get cursor msgs.reverse 0 k m hnd' hk hid]
    omega
  have := GetMessages_of_no_overflow s dest cursor msgs n h (by
    simp only [ne_eq, hc, not_false_eq_true, if_true, hstart]
    push_cast
    omega)
  simpa [hc, hstart] using this

/-- The next cursor is empty exactly when nothing is beyond the page: for ids
that are not empty, the id read at `startIdx + limit` is empty if and only if
the list ends there or before. -/
theorem next_cursor_empty_iff (l : List Message) (i : Nat) (hne : ∀ m ∈ l, m.ID ≠ "") :
    (match l.get? i with
      | some m => m.ID
      | none => "") = "" ↔ l.length ≤ i := by
  cases hg : l.get? i with
  | none => simpa using List.get?_eq_none.mp hg
  | some m =>
    have hlt : i < l.length := by
      by_contra hcon
      rw [List.get?_eq_none.mpr (by omega)] at hg
      cases hg
    simp only
    constructor
    · intro hm
      exact absurd hm (hne m (List.get?_mem hg))
    · intro hle
      omega

/-- C1, evaluated on the code: with the messages m1, m2, m3 stored for user2
(newest first: m3, m2, m1), the pagination loop with limit 1 returns the pages
m3 and m1 and never m2, and with limit 2 returns m3, m2 and never m1.  The
next cursor is the id of the first message beyond the page, and the next call
starts after the message whose id is the cursor. -/
theorem fetchAllPages_omits_message :
    (get? threeMessages.messages "user2").map (fun l => l.reverse.map (fun m => m.ID))
        = some ["m3", "m2", "m1"]
      ∧ (GetMessages threeMessages "user2" 1 "").map (fun r => (r.1.map (fun m => m.ID), r.2.1))
        = some (["m3"], "m2")
      ∧ (GetMessages threeMessages "user2" 1 "m2").map (fun r => (r.1.map (fun m => m.ID), r.2.1))
        = some (["m1"], "")
      ∧ (fetchAllPages threeMessages "user2" 1 3 "").map (fun l => l.map (fun m => m.ID))
        = some ["m3", "m1"]
      ∧ (fetchAllPages threeMessages "user2" 2 3 "").map (fun l => l.map (fun m => m.ID))
        = some ["m3", "m2"] := by
  decide

/-- C2, on the code.  As long as `startIdx + limit` does not exceed the
largest `int` the page is the one claimed: with the empty cursor the first
`limit` messages of the newest-first list `R`; with the cursor the id of
`R[k]` (ids distinct) the `limit` messages after index `k`.  At the limit
`2^63 - 1` the claim fails: with m1, m2, m3 stored for user2 and the cursor m3
(index 0 of `R`), `startIdx + limit` wraps to `-2^63`, the slice expression
`reversed[1:endIdx]` panics and no page is returned, where the page m2, m1 is
due. -/
theorem GetMessages_page_until_overflow :
    (∀ (s : MemoryStore) (dest : String) (msgs : List Message) (limit : Nat),
      get? s.messages dest = some msgs → (limit : Int) ≤ maxInt →
      (GetMessages s dest limit "").map (fun r => r.1) = some (msgs.reverse.take limit)) ∧
    (∀ (s : MemoryStore) (dest cursor : String) (msgs : List Message) (limit k : Nat)
      (m : Message), get? s.messages dest = some msgs →
      (msgs.map (fun x => x.ID)).Nodup → cursor ≠ "" → msgs.reverse.get? k = some m →
      m.ID = cursor → (k : Int) + 1 + limit ≤ maxInt →
      (GetMessages s dest limit cursor).map (fun r => r.1)
        = some ((msgs.reverse.drop (k + 1)).take limit)) ∧
    (get? threeMessages.messages "user2").map (fun l => l.reverse.map (fun m => m.ID))
        = some ["m3", "m2", "m1"] ∧
    wrapInt (1 + maxInt) = -2 ^ 63 ∧
    GetMessages threeMessages "user2" maxInt "m3" = none := by
  refine ⟨?_, ?_, by decide, by decide, by decide⟩
  · intro s dest msgs limit h hn
    rw [GetMessages_first_page s dest msgs limit h hn]
    rfl
  · intro s dest cursor msgs limit k m h hnd hc hk hid hno
    rw [GetMessages_after_cursor s dest cursor msgs limit k m h hnd hc hk hid hno]
    rfl

/-- C3, on the code.  As long as `startIdx + limit` does not exceed the
largest `int` the next cursor is the one claimed: the id of the message of the
newest-first list `R` right after the page, at index `startIdx + limit`, and,
the ids being non-empty, the empty string exactly when `R` has no message
there.  At the limit `2^63 - 1` the claim fails: with m1, m2, m3 stored for
user2 and the cursor m2 the call panics and returns no next cursor, where the
page m1 with the empty next cursor is due (as the limit 1 returns it). -/
theorem GetMessages_next_cursor_until_overflow :
    (∀ (s : MemoryStore) (dest cursor : String) (msgs : List Message) (limit k : Nat)
      (m : Message), get? s.messages dest = some msgs →
      (msgs.map (fun x => x.ID)).Nodup → (∀ x ∈ msgs, x.ID ≠ "") → cursor ≠ "" →
      msgs.reverse.get? k = some m → m.ID = cursor → (k : Int) + 1 + limit ≤ maxInt →
      ∃ next, (GetMessages s dest limit cursor).map (fun r => r.2.1) = some next ∧
        (∀ x, msgs.reverse.get? (k + 1 + limit) = some x → next = x.ID) ∧
        (next = "" ↔ msgs.reverse.length ≤ k + 1 + limit)) ∧
    (∀ (s : MemoryStore) (dest : String) (msgs : List Message) (limit : Nat),
      get? s.messages dest = some msgs → (∀ x ∈ msgs, x.ID ≠ "") → (limit : Int) ≤ maxInt →
      ∃ next, (GetMessages s dest limit "").map (fun r => r.2.1) = some next ∧
        (∀ x, msgs.reverse.get? limit = some x → next = x.ID) ∧
        (next = "" ↔ msgs.reverse.length ≤ limit)) ∧
    GetMessages threeMessages "user2" maxInt "m2" = none ∧
    (GetMessages threeMessages "user2" 1 "m2").map
        (fun r => (r.1.map (fun m => m.ID), r.2.1)) = some (["m1"], "") := by
  refine ⟨?_, ?_, by decide, by decide⟩
  · intro s dest cursor msgs limit k m h hnd hne hc hk hid hno
    rw [GetMessages_after_cursor s dest cursor msgs limit k m h hnd hc hk hid hno]
    refine ⟨_, rfl, ?_, next_cursor_empty_iff msgs.reverse (k + 1 + limit)
      (fun x hx => hne x (List.mem_reverse.mp hx))⟩
    intro x hx
    rw [hx]
  · intro s dest msgs limit h hne hn
    rw [GetMessages_first_page s dest msgs limit h hn]
    refine ⟨_, rfl, ?_, next_cursor_empty_iff msgs.reverse limit
      (fun x hx => hne x (List.mem_reverse.mp hx))⟩
    intro x hx
    rw [hx]

/-- C2 within the range of `int`, at a concrete input: the first page of two
messages and the page of one message after the cursor m3. -/
theorem GetMessages_page_witness :
    user2Messages.map (fun m => m.ID) = ["m1", "m2", "m3"] ∧
    (GetMessages threeMessages "user2" (2 : Nat) "").map (fun r => r.1)
      = some (user2Messages.reverse.take 2) ∧
    (GetMessages threeMessages "user2" (1 : Nat) "m3").map (fun r => r.1)
      = some ((user2Messages.reverse.drop (0 + 1)).take 1) :=
  ⟨by decide,
    GetMessages_page_until_overflow.1 threeMessages "user2" user2Messages 2 (by decide)
      (by decide),
    GetMessages_page_until_overflow.2.1 threeMessages "user2" "m3" user2Messages 1 0
      (stampMessage (clockFrom 30) (helloMsg "m3")) (by decide) (by decide) (by decide)
      (by decide) (by decide) (by decide)⟩

/-- C3 within the range of `int`, at a concrete input: the next cursor after
the page of one message that follows the cursor m3 is m1, the id of the
message right after the page. -/
theorem GetMessages_next_cursor_witness :
    ∃ next, (GetMessages threeMessages "user2" (1 : Nat) "m3").map (fun r => r.2.1)
        = some next ∧
      (∀ x, user2Messages.reverse.get? (0 + 1 + 1) = some x → next = x.ID) ∧
      (next = "" ↔ user2Messages.reverse.length ≤ 0 + 1 + 1) :=
  GetMessages_next_cursor_until_overflow.1 threeMessages "user2" "m3" user2Messages 1 0
    (stampMessage (clockFrom 30) (helloMsg "m3")) (by decide) (by decide) (by decide)
    (by decide) (by decide) (by decide) (by decide)

/-! ## What an operation leaves untouched -/

theorem updateUserConversation_frame (s : MemoryStore) (clk : Clock) (k : Nat)
    (userID destinationID : String) (convType : ConversationType) :
    (updateUserConversation s clk k userID destinationID convType).1.users = s.users ∧
    (updateUserConversation s clk k userID destinationID convType).1.groups = s.groups ∧
    (updateUserConversation s clk k userID destinationID convType).1.groupMembers
      = s.groupMembers ∧
    (updateUserConversation s clk k userID destinationID convType).1.messages = s.messages ∧
    (updateUserConversation s clk k userID destinationID convType).1.messageReads
      = s.messageReads := by
  rcases h : bumpRow destinationID convType (clk k) ((get? s.userConversations userID).getD [])
    with _ | rows' <;> simp [updateUserConversation, h]

theorem fanOut_frame (clk : Clock) (senderID destinationID : String) (convType : ConversationType)
    (members : List (String × Bool)) (acc : MemoryStore × Nat) :
    (fanOut clk senderID destinationID convType members acc).1.users = acc.1.users ∧
    (fanOut clk senderID destinationID convType members acc).1.groups = acc.1.groups ∧
    (fanOut clk senderID destinationID convType members acc).1.groupMembers
      = acc.1.groupMembers ∧
    (fanOut clk senderID destinationID convType members acc).1.messages = acc.1.messages ∧
    (fanOut clk senderID destinationID convType members acc).1.messageReads
      = acc.1.messageReads := by
  induction members generalizing acc with
  | nil => simp [fanOut]
  | cons e rest ih =>
    obtain ⟨memberID, b⟩ := e
    simp only [fanOut]
    split
    · have h1 := ih (updateUserConversation acc.1 clk acc.2 memberID destinationID convType)
      have h2 := updateUserConversation_frame acc.1 clk acc.2 memberID destinationID convType
      refine ⟨h1.1.trans h2.1, h1.2.1.trans h2.2.1, h1.2.2.1.trans h2.2.2.1,
        h1.2.2.2.1.trans h2.2.2.2.1, h1.2.2.2.2.trans h2.2.2.2.2⟩
    · exact ih acc

theorem CreateMessage_frame (s : MemoryStore) (clk : Clock) (o : MapOrder Bool)
    (message : Message) :
    (CreateMessage s clk o message).1.users = s.users ∧
    (CreateMessage s clk o message).1.groups = s.groups ∧
    (CreateMessage s clk o message).1.groupMembers = s.groupMembers ∧
    (CreateMessage s clk o message).1.messages =
      set s.messages message.DestinationID
        ((get? s.messages message.DestinationID).getD [] ++ [stampMessage clk message]) ∧
    (CreateMessage s clk o message).1.messageReads = s.messageReads := by
  unfold CreateMessage
  simp only
  split
  · have h2 := updateUserConversation_frame
    simp [h2, stampMessage, appendMessage]
  · split
    · have h1 := fanOut_frame
      have h2 := updateUserConversation_frame
      simp [h1, h2, stampMessage, appendMessage]
    · have h2 := updateUserConversation_frame
      simp [h2, stampMessage, appendMessage]

theorem CreateMessage_err (s : MemoryStore) (clk : Clock) (o : MapOrder Bool) (message : Message) :
    (CreateMessage s clk o message).2 = none := by
  unfold CreateMessage
  simp only
  split
  · rfl
  · split <;> rfl

/-! ## `CreateMessageRead` (C4, C5, C6) -/

theorem CreateMessageRead_of_receipt (s : MemoryStore) (clk : Clock) (o : MapOrder (List Message))
    (m u : String) (reads : List (String × MessageRead)) (x : MessageRead)
    (h1 : get? s.messageReads m = some reads) (h2 : get? reads u = some x) :
    CreateMessageRead s clk o m u = (s, none) := by
  simp [CreateMessageRead, h1, h2]

theorem CreateMessageRead_messageReads (s : MemoryStore) (clk : Clock) (o : MapOrder (List Message))
    (m u : String) :
    (get? s.messageReads m = none ∧
      (CreateMessageRead s clk o m u).1.messageReads = set (set s.messageReads m []) m
        [(u, ⟨"mr_" ++ m ++ "_" ++ u, m, u, clk 0, clk 1⟩)]) ∨
    (∃ reads, get? s.messageReads m = some reads ∧ get? reads u = none ∧
      (CreateMessageRead s clk o m u).1.messageReads = set s.messageReads m
        (set reads u ⟨"mr_" ++ m ++ "_" ++ u, m, u, clk 0, clk 1⟩)) ∨
    (∃ reads x, get? s.messageReads m = some reads ∧ get? reads u = some x ∧
      (CreateMessageRead s clk o m u).1 = s) := by
  cases h1 : get? s.messageReads m with
  | none =>
    left
    refine ⟨rfl, ?_⟩
    simp only [CreateMessageRead, h1, Option.isNone_none, if_true, get?_set_self, Option.getD_some,
      get?]
    split <;> rfl
  | some reads =>
    right
    cases h2 : get? reads u with
    | none =>
      left
      refine ⟨reads, rfl, h2, ?_⟩
      simp only [CreateMessageRead, h1, Option.isNone_some, Bool.false_eq_true, if_false,
        Option.getD_some, h2]
      split <;> rfl
    | some x =>
      right
      exact ⟨reads, x, rfl, h2, by rw [CreateMessageRead_of_receipt s clk o m u reads x h1 h2]⟩

theorem CreateMessageRead_has_receipt (s : MemoryStore) (clk : Clock) (o : MapOrder (List Message))
    (m u : String) :
    ∃ reads x, get? (CreateMessageRead s clk o m u).1.messageReads m = some reads ∧
      get? reads u = some x := by
  rcases CreateMessageRead_messageReads s clk o m u with ⟨_, h⟩ | ⟨reads, _, _, h⟩ | ⟨reads, x, h1, h2, h⟩
  · rw [h]
    exact ⟨_, ⟨"mr_" ++ m ++ "_" ++ u, m, u, clk 0, clk 1⟩, get?_set_self _ _ _, by simp only [get?, if_true]⟩
  · rw [h]
    exact ⟨_, _, get?_set_self _ _ _, get?_set_self _ _ _⟩
  · rw [h]
    exact ⟨reads, x, h1, h2⟩

theorem CreateMessageRead_err (s : MemoryStore) (clk : Clock) (o : MapOrder (List Message))
    (m u : String) : (CreateMessageRead s clk o m u).2 = none := by
  unfold CreateMessageRead
  simp only
  split
  · rfl
  · split <;> rfl

theorem receipts_count (reads : List (String × MessageRead)) (u : String) (x : MessageRead)
    (hnd : (reads.map (fun r => r.1)).Nodup) (hk : ∀ r ∈ reads, r.2.UserID = r.1)
    (hu : get? reads u = some x) :
    (reads.map (fun r => r.2)).countP (fun r => r.UserID = u) = 1 := by
  rw [List.countP_map]
  have h1 : reads.countP ((fun r : MessageRead => decide (r.UserID = u)) ∘ fun r => r.2)
      = (reads.map (fun r => r.1)).count u := by
    rw [List.count, List.countP_map]
    apply List.countP_congr
    intro r hr
    simp [hk r hr]
  rw [h1]
  exact List.count_eq_one_of_mem hnd (keys_mem_of_get? reads u x hu)

theorem CreateMessageRead_ReceiptsKeyed (s : MemoryStore) (clk : Clock)
    (o : MapOrder (List Message)) (m u : String) (h : ReceiptsKeyed s) :
    ReceiptsKeyed (CreateMessageRead s clk o m u).1 := by
  intro e he
  rcases CreateMessageRead_messageReads s clk o m u with ⟨_, hr⟩ | ⟨reads, h1, _, hr⟩ |
    ⟨reads, x, _, _, hr⟩
  · rw [hr] at he
    rcases mem_set _ _ _ _ he with he | he
    · rcases mem_set _ _ _ _ he with he | he
      · exact h e he
      · subst he
        simp
    · subst he
      simp
  · rw [hr] at he
    rcases mem_set _ _ _ _ he with he | he
    · exact h e he
    · subst he
      have hreads := h (m, reads) (mem_of_get? _ _ _ h1)
      refine ⟨nodup_keys_set _ _ _ hreads.1, ?_⟩
      intro r hr'
      rcases mem_set _ _ _ _ hr' with hr' | hr'
      · exact hreads.2 r hr'
      · subst hr'
        rfl
  · rw [hr] at he
    exact h e he

theorem step_ReceiptsKeyed (s : MemoryStore) (c : Clock × Op) (h : ReceiptsKeyed s) :
    ReceiptsKeyed (step s c) := by
  obtain ⟨clk, op⟩ := c
  cases op with
  | createUser user =>
    simp only [step, CreateUser]
    split <;> exact h
  | createGroup group =>
    simp only [step, CreateGroup]
    split <;> exact h
  | addGroupMember g u =>
    simp only [step, AddGroupMember]
    split <;> exact h
  | createMessage o message =>
    intro e he
    simp only [step, (CreateMessage_frame s clk o message).2.2.2.2] at he
    exact h e he
  | updateMessageStatus o id st =>
    simp only [step, UpdateMessageStatus]
    split <;> exact h
  | createMessageRead o m u => exact CreateMessageRead_ReceiptsKeyed s clk o m u h

theorem Reachable.receiptsKeyed (s : MemoryStore) (hs : Reachable s) : ReceiptsKeyed s :=
  Reachable.invariant ReceiptsKeyed (by intro e he; simp [NewStore] at he) step_ReceiptsKeyed s hs

/-- C4: idempotent read receipts.  For every store, message id and user id,
the first `CreateMessageRead(m, u)` succeeds, and a second one, whatever its
clock and the order of its loop, succeeds and returns the very same store
(receipts, every message and its status, conversations, groups, users), so
that a status is written by the first call only.  In every state of the store
(one reached from `NewStore()` by its operations) `GetMessageReads(m)` after
the two calls holds exactly one receipt whose user id is `u`. -/
theorem CreateMessageRead_idempotent (s : MemoryStore) (clk₁ clk₂ : Clock)
    (o₁ o₂ : MapOrder (List Message)) (m u : String) :
    (CreateMessageRead s clk₁ o₁ m u).2 = none ∧
    CreateMessageRead (CreateMessageRead s clk₁ o₁ m u).1 clk₂ o₂ m u
      = ((CreateMessageRead s clk₁ o₁ m u).1, none) ∧
    (Reachable s → ∀ o : MapOrder MessageRead,
      (GetMessageReads
          (CreateMessageRead (CreateMessageRead s clk₁ o₁ m u).1 clk₂ o₂ m u).1 o m).countP
        (fun r => r.UserID = u) = 1) := by
  obtain ⟨reads, x, h1, h2⟩ := CreateMessageRead_has_receipt s clk₁ o₁ m u
  have hsecond := CreateMessageRead_of_receipt _ clk₂ o₂ m u reads x h1 h2
  refine ⟨CreateMessageRead_err s clk₁ o₁ m u, hsecond, ?_⟩
  · intro hs o
    rw [hsecond]
    have hk := CreateMessageRead_ReceiptsKeyed s clk₁ o₁ m u (Reachable.receiptsKeyed s hs)
    have hreads := hk (m, reads) (mem_of_get? _ _ _ h1)
    simp only [GetMessageReads, h1]
    rw [List.Perm.countP_eq _ (List.Perm.map _ (o.perm reads))]
    exact receipts_count reads u x hreads.1 hreads.2 h2

/-- C4 at a concrete input: user2 acknowledges twice the message m1 that user1
sent. -/
theorem CreateMessageRead_idempotent_witness :
    Reachable oneMessage ∧
    (CreateMessageRead oneMessage (clockFrom 40) (MapOrder.asStored _) "m1" "user2").2 = none ∧
    CreateMessageRead
        (CreateMessageRead oneMessage (clockFrom 40) (MapOrder.asStored _) "m1" "user2").1
        (clockFrom 50) (MapOrder.backwards _) "m1" "user2"
      = ((CreateMessageRead oneMessage (clockFrom 40) (MapOrder.asStored _) "m1" "user2").1,
          none) ∧
    (GetMessageReads
        (CreateMessageRead
          (CreateMessageRead oneMessage (clockFrom 40) (MapOrder.asStored _) "m1" "user2").1
          (clockFrom 50) (MapOrder.backwards _) "m1" "user2").1
        (MapOrder.backwards _) "m1").countP (fun r => r.UserID = "user2") = 1 :=
  ⟨⟨_, rfl⟩,
    (CreateMessageRead_idempotent oneMessage (clockFrom 40) (clockFrom 50) (MapOrder.asStored _)
      (MapOrder.backwards _) "m1" "user2").1,
    (CreateMessageRead_idempotent oneMessage (clockFrom 40) (clockFrom 50) (MapOrder.asStored _)
      (MapOrder.backwards _) "m1" "user2").2.1,
    (CreateMessageRead_idempotent oneMessage (clockFrom 40) (clockFrom 50) (MapOrder.asStored _)
      (MapOrder.backwards _) "m1" "user2").2.2 ⟨_, rfl⟩ (MapOrder.backwards _)⟩

theorem findKey_eq_none (m : String) (l : List (String × List Message))
    (h : ∀ e ∈ l, ∀ x ∈ e.2, x.ID ≠ m) : findKey m l = none := by
  induction l with
  | nil => rfl
  | cons e rest ih =>
    obtain ⟨k, msgs⟩ := e
    have h1 : msgs.any (fun msg => decide (msg.ID = m)) = false := by
      rw [List.any_eq_false]
      intro x hx
      simpa using h (k, msgs) (List.mem_cons_self _ _) x hx
    simp only [findKey, h1, Bool.false_eq_true, if_false]
    exact ih (fun e he => h e (List.mem_cons_of_mem _ he))

theorem findKey_some (m k : String) (l : List (String × List Message))
    (h : findKey m l = some k) : ∃ msgs, (k, msgs) ∈ l ∧ ∃ x ∈ msgs, x.ID = m := by
  induction l with
  | nil => simp [findKey] at h
  | cons e rest ih =>
    obtain ⟨k', msgs⟩ := e
    simp only [findKey] at h
    split at h
    · rename_i hany
      simp only [Option.some.injEq] at h
      subst h
      rw [List.any_eq_true] at hany
      obtain ⟨x, hx, hid⟩ := hany
      exact ⟨msgs, List.mem_cons_self _ _, x, hx, by simpa using hid⟩
    · obtain ⟨msgs', hmem, hx⟩ := ih h
      exact ⟨msgs', List.mem_cons_of_mem _ hmem, hx⟩

theorem findKey_isSome (m : String) (l : List (String × List Message))
    (h : ∃ e ∈ l, ∃ x ∈ e.2, x.ID = m) : ∃ k, findKey m l = some k := by
  cases hk : findKey m l with
  | some k => exact ⟨k, rfl⟩
  | none =>
    exfalso
    obtain ⟨e, he, x, hx, hid⟩ := h
    induction l with
    | nil => simp at he
    | cons e' rest ih =>
      obtain ⟨k', msgs⟩ := e'
      simp only [findKey] at hk
      split at hk
      · simp at hk
      · rename_i hany
        rcases List.mem_cons.mp he with he | he
        · subst he
          apply hany
          rw [List.any_eq_true]
          exact ⟨x, hx, by simpa using hid⟩
        · exact ih hk he

theorem findMessage_some (m : String) (l : List (String × List Message)) (x : Message)
    (h : findMessage m l = some x) : x.ID = m ∧ ∃ e ∈ l, x ∈ e.2 := by
  induction l with
  | nil => simp [findMessage] at h
  | cons e rest ih =>
    obtain ⟨k, msgs⟩ := e
    simp only [findMessage] at h
    split at h
    · rename_i msg hf
      simp only [Option.some.injEq] at h
      subst h
      exact ⟨by simpa using List.find?_some hf, (k, msgs), List.mem_cons_self _ _,
        List.mem_of_find?_eq_some hf⟩
    · obtain ⟨h1, e, he, hx⟩ := ih h
      exact ⟨h1, e, List.mem_cons_of_mem _ he, hx⟩

theorem findMessage_isSome (m : String) (l : List (String × List Message))
    (h : ∃ e ∈ l, ∃ x ∈ e.2, x.ID = m) : ∃ x, findMessage m l = some x := by
  obtain ⟨e, he, x, hx, hid⟩ := h
  induction l with
  | nil => simp at he
  | cons e' rest ih =>
    obtain ⟨k', msgs⟩ := e'
    simp only [findMessage]
    split
    · exact ⟨_, rfl⟩
    · rename_i hf
      rcases List.mem_cons.mp he with he | he
      · subst he
        rw [List.find?_eq_none] at hf
        exact absurd (by simpa using hid) (hf x hx)
      · exact ih he

theorem findMessage_eq_none (m : String) (l : List (String × List Message))
    (h : ∀ e ∈ l, ∀ x ∈ e.2, x.ID ≠ m) : findMessage m l = none := by
  cases hf : findMessage m l with
  | none => rfl
  | some x =>
    obtain ⟨hid, e, he, hx⟩ := findMessage_some m l x hf
    exact absurd hid (h e he x hx)

theorem setStatusIn_ids (m : String) (st : MessageStatus) (t : Nat) (l : List Message) :
    (setStatusIn m st t l).map (fun x => x.ID) = l.map (fun x => x.ID) := by
  induction l with
  | nil => rfl
  | cons a rest ih =>
    simp only [setStatusIn]
    split
    · simp
    · simp [ih]

theorem setStatusIn_status (m : String) (st : MessageStatus) (t : Nat) (l : List Message)
    (hnd : (l.map (fun x => x.ID)).Nodup) (x : Message) (hx : x ∈ setStatusIn m st t l)
    (hid : x.ID = m) : x.Status = st := by
  induction l with
  | nil => simp [setStatusIn] at hx
  | cons a rest ih =>
    rw [List.map_cons, List.nodup_cons] at hnd
    simp only [setStatusIn] at hx
    split at hx
    · rename_i ha
      rcases List.mem_cons.mp hx with hx | hx
      · subst hx
        rfl
      · exfalso
        apply hnd.1
        rw [ha, ← hid]
        exact List.mem_map_of_mem _ hx
    · rename_i ha
      rcases List.mem_cons.mp hx with hx | hx
      · subst hx
        exact absurd hid ha
      · exact ih hnd.2 hx

theorem CreateMessageRead_messages (s : MemoryStore) (clk : Clock) (o : MapOrder (List Message))
    (m u : String) (hnew : ∀ reads, get? s.messageReads m = some reads → get? reads u = none) :
    (CreateMessageRead s clk o m u).1.messages =
      match findKey m (o.visit s.messages) with
      | some k => writeStatus m StatusRead (clk 2) k s.messages
      | none => s.messages := by
  cases h1 : get? s.messageReads m with
  | none =>
    simp only [CreateMessageRead, h1, Option.isNone_none, if_true, get?_set_self, Option.getD_some,
      get?]
    split <;> rfl
  | some reads =>
    have h2 := hnew reads h1
    simp only [CreateMessageRead, h1, Option.isNone_some, Bool.false_eq_true, if_false,
      Option.getD_some, h2]
    split <;> rfl

theorem CreateMessageRead_messages_cases (s : MemoryStore) (clk : Clock)
    (o : MapOrder (List Message)) (m u : String) :
    (CreateMessageRead s clk o m u).1.messages = s.messages ∨
    ∃ k, (CreateMessageRead s clk o m u).1.messages
      = writeStatus m StatusRead (clk 2) k s.messages := by
  by_cases h : ∀ reads, get? s.messageReads m = some reads → get? reads u = none
  · rw [CreateMessageRead_messages s clk o m u h]
    cases findKey m (o.visit s.messages) with
    | none => exact Or.inl rfl
    | some k => exact Or.inr ⟨k, rfl⟩
  · left
    push_neg at h
    obtain ⟨reads, h1, h2⟩ := h
    cases h3 : get? reads u with
    | none => exact absurd h3 h2
    | some x => rw [CreateMessageRead_of_receipt s clk o m u reads x h1 h3]

theorem UniqueIDs.entry_nodup (s : MemoryStore) (h : UniqueIDs s) (e : String × List Message)
    (he : e ∈ s.messages) : (e.2.map (fun x => x.ID)).Nodup := by
  unfold UniqueIDs at h
  rw [List.map_flatMap, List.nodup_flatMap] at h
  exact h.1 e he

theorem UniqueIDs.same_entry (s : MemoryStore) (h : UniqueIDs s) (e₁ e₂ : String × List Message)
    (h₁ : e₁ ∈ s.messages) (h₂ : e₂ ∈ s.messages) (x y : Message) (hx : x ∈ e₁.2)
    (hy : y ∈ e₂.2) (hxy : x.ID = y.ID) : e₁ = e₂ := by
  unfold UniqueIDs at h
  rw [List.map_flatMap, List.nodup_flatMap] at h
  by_contra hne
  have hsymm : Symmetric (Function.onFun List.Disjoint
      (fun e : String × List Message => e.2.map (fun x => x.ID))) := by
    intro a b hab
    exact List.Disjoint.symm hab
  have hd := List.Pairwise.forall hsymm h.2 h₁ h₂ hne
  exact (List.disjoint_left.mp hd) (List.mem_map_of_mem (fun x => x.ID) hx)
    (hxy ▸ List.mem_map_of_mem (fun x => x.ID) hy)

/-- After the status of the message `m` has been written in the slice of key
`k`, which holds a message with that id, every stored message with the id has
the status. -/
theorem writeStatus_status (s : MemoryStore) (h : UniqueIDs s) (m k : String)
    (st : MessageStatus) (t : Nat) (msgs : List Message) (hk : (k, msgs) ∈ s.messages)
    (hm : ∃ x ∈ msgs, x.ID = m) (e : String × List Message)
    (he : e ∈ writeStatus m st t k s.messages) (x : Message) (hx : x ∈ e.2) (hid : x.ID = m) :
    x.Status = st := by
  simp only [writeStatus, List.mem_map] at he
  obtain ⟨e₀, he₀, rfl⟩ := he
  by_cases hk₀ : e₀.1 = k
  · simp only [hk₀, if_true] at hx
    exact setStatusIn_status m st t e₀.2 (h.entry_nodup s e₀ he₀) x hx hid
  · exfalso
    simp only [hk₀, if_false] at hx
    obtain ⟨y, hy, hyid⟩ := hm
    have := h.same_entry s e₀ (k, msgs) he₀ hk x y hx hy (hid.trans hyid.symm)
    exact hk₀ (by rw [this])

theorem writeStatus_stored (m k : String) (st : MessageStatus) (t : Nat)
    (l : List (String × List Message)) (h : ∃ e ∈ l, ∃ x ∈ e.2, x.ID = m) :
    ∃ e ∈ writeStatus m st t k l, ∃ x ∈ e.2, x.ID = m := by
  obtain ⟨e, he, x, hx, hid⟩ := h
  have hmem : x.ID ∈ e.2.map (fun x => x.ID) := List.mem_map_of_mem (fun x => x.ID) hx
  by_cases hk : e.1 = k
  · refine ⟨(e.1, setStatusIn m st t e.2), ?_, ?_⟩
    · simp only [writeStatus, List.mem_map]
      exact ⟨e, he, by simp [hk]⟩
    · rw [← setStatusIn_ids m st t e.2] at hmem
      obtain ⟨y, hy, hyid⟩ := List.mem_map.mp hmem
      exact ⟨y, hy, hyid.trans hid⟩
  · refine ⟨e, ?_, x, hx, hid⟩
    simp only [writeStatus, List.mem_map]
    exact ⟨e, he, by simp [hk]⟩

/-- C5, as amended: `CreateMessageRead` never returns an error, for a stored
message id as for one that is not stored; when no stored message has the id
it leaves every stored message as it was. -/
theorem CreateMessageRead_never_fails (s : MemoryStore) (clk : Clock)
    (o : MapOrder (List Message)) (m u : String) :
    (CreateMessageRead s clk o m u).2 = none ∧
    (¬ Stored s m → (CreateMessageRead s clk o m u).1.messages = s.messages) := by
  refine ⟨CreateMessageRead_err s clk o m u, ?_⟩
  intro hns
  have hnone : findKey m (o.visit s.messages) = none := by
    apply findKey_eq_none
    intro e he x hx hid
    exact hns ⟨e, (o.perm s.messages).mem_iff.mp he, x, hx, hid⟩
  rcases CreateMessageRead_messageReads s clk o m u with ⟨h1, _⟩ | ⟨reads, h1, h2, _⟩ |
    ⟨reads, x, _, _, hr⟩
  · rw [CreateMessageRead_messages s clk o m u (by intro r hr; rw [h1] at hr; cases hr), hnone]
  · rw [CreateMessageRead_messages s clk o m u
      (by intro r hr; rw [h1] at hr; cases hr; exact h2), hnone]
  · rw [hr]

/-- C5 as amended, at a concrete input: the unknown id m1 on the empty store. -/
theorem CreateMessageRead_never_fails_witness :
    ¬ Stored NewStore "m1" ∧
    (CreateMessageRead NewStore (clockFrom 0) (MapOrder.asStored _) "m1" "user2").2 = none ∧
    (CreateMessageRead NewStore (clockFrom 0) (MapOrder.asStored _) "m1" "user2").1.messages
      = NewStore.messages :=
  ⟨by simp [Stored, NewStore],
    (CreateMessageRead_never_fails NewStore (clockFrom 0) (MapOrder.asStored _) "m1" "user2").1,
    (CreateMessageRead_never_fails NewStore (clockFrom 0) (MapOrder.asStored _) "m1" "user2").2
      (by simp [Stored, NewStore])⟩

/-- C5 as stated fails: on the empty store, where no message has the id m1,
`CreateMessageRead("m1", "user2")` returns no error and records the receipt,
while `GetMessage("m1")` reports that the message is not found. -/
theorem CreateMessageRead_unknown_id_succeeds :
    ¬ Stored NewStore "m1" ∧
    GetMessage NewStore (MapOrder.asStored _) "m1" = (none, some "message not found") ∧
    (CreateMessageRead NewStore (clockFrom 0) (MapOrder.asStored _) "m1" "user2").2 = none ∧
    GetMessageReads
        (CreateMessageRead NewStore (clockFrom 0) (MapOrder.asStored _) "m1" "user2").1
        (MapOrder.asStored _) "m1"
      = [{ ID := "mr_m1_user2", MessageID := "m1", UserID := "user2",
           CreatedAt := 0, UpdatedAt := 1 }] := by
  refine ⟨by simp [Stored, NewStore], by decide, by decide, by decide⟩

/-- C6: the first receipt promotes to READ.  In a store whose message ids are
unique and that holds a message with id `m`, for a user `u` without a receipt
for `m`: after `CreateMessageRead(m, u)`, `GetMessage(m)` succeeds and returns
a message with id `m` and the status READ, whatever the status before, the
user, the clock and the orders in which the two calls visit the map. -/
theorem CreateMessageRead_promotes (s : MemoryStore) (clk : Clock)
    (o o' : MapOrder (List Message)) (m u : String) (hstored : Stored s m) (huniq : UniqueIDs s)
    (hnew : hasReceipt s m u = false) :
    ∃ msg, GetMessage (CreateMessageRead s clk o m u).1 o' m = (some msg, none) ∧
      msg.ID = m ∧ msg.Status = StatusRead := by
  have hmsgs := CreateMessageRead_messages s clk o m u (by
    intro reads hr
    simpa [hasReceipt, hr] using hnew)
  obtain ⟨k, hk⟩ := findKey_isSome m (o.visit s.messages) (by
    obtain ⟨e, he, hx⟩ := hstored
    exact ⟨e, (o.perm s.messages).mem_iff.mpr he, hx⟩)
  rw [hk] at hmsgs
  simp only at hmsgs
  obtain ⟨msgs, hmem, hm⟩ := findKey_some m k _ hk
  have hmem' : (k, msgs) ∈ s.messages := (o.perm s.messages).mem_iff.mp hmem
  have hex : ∃ e ∈ o'.visit (CreateMessageRead s clk o m u).1.messages, ∃ x ∈ e.2, x.ID = m := by
    obtain ⟨e, he, hx⟩ := writeStatus_stored m k StatusRead (clk 2) s.messages hstored
    exact ⟨e, (o'.perm _).mem_iff.mpr (hmsgs ▸ he), hx⟩
  obtain ⟨msg, hfind⟩ := findMessage_isSome m _ hex
  obtain ⟨hid, e, he, hx⟩ := findMessage_some m _ msg hfind
  refine ⟨msg, ?_, hid, ?_⟩
  · simp only [GetMessage, hfind]
  · have he' : e ∈ writeStatus m StatusRead (clk 2) k s.messages := by
      rw [← hmsgs]
      exact (o'.perm _).mem_iff.mp he
    exact writeStatus_status s huniq m k StatusRead (clk 2) msgs hmem' hm e he' msg hx hid

/-- C6 at the input of the scenario: m1, "Hello Bob!", from user1 to user2,
then `CreateMessageRead(m1, "user2")`; `GetMessage(m1)` has the status READ. -/
theorem CreateMessageRead_promotes_witness :
    Stored oneMessage "m1" ∧ UniqueIDs oneMessage ∧ hasReceipt oneMessage "m1" "user2" = false ∧
    (GetMessage oneMessage (MapOrder.asStored _) "m1").1.map (fun msg => msg.Status)
      = some StatusSent ∧
    ∃ msg, GetMessage
        (CreateMessageRead oneMessage (clockFrom 40) (MapOrder.asStored _) "m1" "user2").1
        (MapOrder.backwards _) "m1" = (some msg, none) ∧
      msg.ID = "m1" ∧ msg.Status = StatusRead :=
  ⟨by unfold Stored; decide, by unfold UniqueIDs; decide, by decide, by decide,
    CreateMessageRead_promotes oneMessage (clockFrom 40) (MapOrder.asStored _)
      (MapOrder.backwards _) "m1" "user2" (by unfold Stored; decide)
      (by unfold UniqueIDs; decide) (by decide)⟩

/-! ## `CreateMessage` (C7) -/

theorem updateUserConversation_messages (s : MemoryStore) (x : List (String × List Message))
    (clk : Clock) (k : Nat) (userID destinationID : String) (convType : ConversationType) :
    updateUserConversation { s with messages := x } clk k userID destinationID convType
      = ({ (updateUserConversation s clk k userID destinationID convType).1 with messages := x },
         (updateUserConversation s clk k userID destinationID convType).2) := by
  rcases h : bumpRow destinationID convType (clk k) ((get? s.userConversations userID).getD [])
    with _ | rows' <;> simp [updateUserConversation, h]

theorem fanOut_messages (clk : Clock) (senderID destinationID : String)
    (convType : ConversationType) (x : List (String × List Message))
    (members : List (String × Bool)) (acc : MemoryStore × Nat) :
    fanOut clk senderID destinationID convType members ({ acc.1 with messages := x }, acc.2)
      = ({ (fanOut clk senderID destinationID convType members acc).1 with messages := x },
         (fanOut clk senderID destinationID convType members acc).2) := by
  induction members generalizing acc with
  | nil => simp [fanOut]
  | cons e rest ih =>
    obtain ⟨memberID, b⟩ := e
    simp only [fanOut]
    split
    · rw [updateUserConversation_messages]
      exact ih _
    · exact ih acc

theorem get?_map_values {V W : Type} (f : V → W) (m : List (String × V)) (k : String) :
    get? (m.map (fun e => (e.1, f e.2))) k = (get? m k).map f := by
  induction m with
  | nil => rfl
  | cons e rest ih =>
    obtain ⟨k', v⟩ := e
    simp only [List.map_cons, get?]
    split
    · rfl
    · exact ih

theorem set_map_values {V W : Type} (f : V → W) (m : List (String × V)) (k : String) (v : V) :
    (set m k v).map (fun e => (e.1, f e.2)) = set (m.map (fun e => (e.1, f e.2))) k (f v) := by
  induction m with
  | nil => rfl
  | cons e rest ih =>
    obtain ⟨k', v'⟩ := e
    simp only [List.map_cons, set]
    split
    · rfl
    · simp only [List.map_cons, ih]

theorem appendMessage_view (p : PointerStore) (m : Message) :
    appendMessage p.view m = { p.others with messages := set p.view.messages m.DestinationID ((get? p.view.messages m.DestinationID).getD [] ++ [m]) } :=
  rfl

theorem view_eq (objects : Nat → Message) (slices : List (String × List Nat)) (s : MemoryStore) :
    PointerStore.view ⟨objects, slices, s⟩ = { s with messages := slices.map (fun e => (e.1, e.2.map objects)) } :=
  rfl

/-- For a pointer the store does not hold, `CreateMessage` on the pointers is
`CreateMessage` on the values: the store a reader finds afterwards is the one
the embedding by values gives. -/
theorem CreateMessage_view (p : PointerStore) (clk : Clock) (o : MapOrder Bool) (a : Nat)
    (hfresh : p.Fresh a) :
    (p.CreateMessage clk o a).1.view = (CreateMessage p.view clk o (p.objects a)).1 ∧
    (p.CreateMessage clk o a).2 = none := by
  have hobj : ∀ e ∈ p.slices,
      e.2.map (fun b => if b = a then stampMessage clk (p.objects a) else p.objects b)
        = e.2.map p.objects := by
    intro e he
    apply List.map_congr_left
    intro b hb
    rw [if_neg]
    intro h
    rw [h] at hb
    exact hfresh e he hb
  have hsl : (set p.slices (stampMessage clk (p.objects a)).DestinationID
        ((get? p.slices (stampMessage clk (p.objects a)).DestinationID).getD [] ++ [a])).map
        (fun e => (e.1, e.2.map
          (fun b => if b = a then stampMessage clk (p.objects a) else p.objects b)))
      = set p.view.messages (stampMessage clk (p.objects a)).DestinationID
          ((get? p.view.messages (stampMessage clk (p.objects a)).DestinationID).getD []
            ++ [stampMessage clk (p.objects a)]) := by
    show _ = set (p.slices.map (fun e => (e.1, e.2.map p.objects)))
          (stampMessage clk (p.objects a)).DestinationID
          ((get? (p.slices.map (fun e => (e.1, e.2.map p.objects)))
            (stampMessage clk (p.objects a)).DestinationID).getD []
            ++ [stampMessage clk (p.objects a)])
    rw [set_map_values (fun l : List Nat => l.map
      (fun b => if b = a then stampMessage clk (p.objects a) else p.objects b))]
    have h1 : p.slices.map (fun e => (e.1, e.2.map
          (fun b => if b = a then stampMessage clk (p.objects a) else p.objects b)))
        = p.slices.map (fun e => (e.1, e.2.map p.objects)) :=
      List.map_congr_left (fun e he => by rw [hobj e he])
    rw [h1, get?_map_values (fun l : List Nat => l.map p.objects)]
    congr 1
    rw [List.map_append, List.map_singleton, if_pos rfl]
    cases hg : get? p.slices (stampMessage clk (p.objects a)).DestinationID with
    | none => rfl
    | some l =>
      simp only [Option.getD_some, Option.map_some']
      rw [hobj (_, l) (mem_of_get? _ _ _ hg)]
  have happ := appendMessage_view p (stampMessage clk (p.objects a))
  unfold PointerStore.CreateMessage CreateMessage
  simp only [if_pos]
  rw [happ, updateUserConversation_messages]
  by_cases hk : (stampMessage clk (p.objects a)).ConversationType = ConversationTypeOneToOne
  · rw [if_pos hk, if_pos hk]
    refine ⟨?_, rfl⟩
    simp only [updateUserConversation_messages, view_eq, hsl]
  · rw [if_neg hk, if_neg hk]
    simp only [updateUserConversation_messages]
    cases hg : get? (updateUserConversation p.others clk 2
        (stampMessage clk (p.objects a)).SenderID (stampMessage clk (p.objects a)).DestinationID
        (stampMessage clk (p.objects a)).ConversationType).1.groupMembers
        (stampMessage clk (p.objects a)).DestinationID with
    | none =>
      refine ⟨?_, rfl⟩
      simp only [view_eq, hsl]
    | some members =>
      refine ⟨?_, rfl⟩
      have hf := fanOut_messages clk (stampMessage clk (p.objects a)).SenderID
        (stampMessage clk (p.objects a)).DestinationID
        (stampMessage clk (p.objects a)).ConversationType
        (set p.view.messages (stampMessage clk (p.objects a)).DestinationID
          ((get? p.view.messages (stampMessage clk (p.objects a)).DestinationID).getD []
            ++ [stampMessage clk (p.objects a)]))
        (o.visit members)
        (updateUserConversation p.others clk 2
          (stampMessage clk (p.objects a)).SenderID (stampMessage clk (p.objects a)).DestinationID
          (stampMessage clk (p.objects a)).ConversationType)
      simp only [view_eq, hsl, hf]

/-- The slices after `CreateMessage` in the embedding by values: the slice of
the destination is the one before followed by the message, every other slice
is the one before. -/
theorem CreateMessage_slices (s : MemoryStore) (clk : Clock) (o : MapOrder Bool)
    (msg : Message) :
    (CreateMessage s clk o msg).2 = none ∧
    get? (CreateMessage s clk o msg).1.messages msg.DestinationID =
      some ((get? s.messages msg.DestinationID).getD [] ++
        [{ ID := msg.ID, SenderID := msg.SenderID, DestinationID := msg.DestinationID,
           MessageText := msg.MessageText, Status := StatusSent,
           ConversationType := msg.ConversationType, CreatedAt := clk 0, UpdatedAt := clk 1 }]) ∧
    ∀ d, d ≠ msg.DestinationID →
      get? (CreateMessage s clk o msg).1.messages d = get? s.messages d := by
  refine ⟨CreateMessage_err s clk o msg, ?_, ?_⟩
  · rw [(CreateMessage_frame s clk o msg).2.2.2.1, get?_set_self]
    rfl
  · intro d hd
    rw [(CreateMessage_frame s clk o msg).2.2.2.1, get?_set_ne _ _ _ _ hd]

/-- C7 as stated fails for a message the store already holds.  `CreateMessage`
writes through the pointer it is given (lines 15-17) and stores the pointer
(line 23).  The address 1 is the pointer the first `CreateMessage(m1)` has put
in the slice of user2, and `heldRead` is the store after
`CreateMessageRead(m1, user2)`: the slice of user2 holds m1 with the status
READ and the times 10 and 22.  `CreateMessage` with the same pointer returns
no error, and the slice then holds the pointer twice: its earlier element is
no longer what it was, it has the status SENT and the times 30 and 31. -/
theorem CreateMessage_held_pointer :
    (emptyPointers.CreateMessage (clockFrom 10) (MapOrder.asStored _) 1).1.slices
      = heldRead.slices ∧
    heldRead.view = readOnce ∧
    (get? heldRead.view.messages "user2").map
      (fun l => l.map (fun m => (m.ID, m.Status, m.CreatedAt, m.UpdatedAt)))
      = some [("m1", StatusRead, 10, 22)] ∧
    (heldRead.CreateMessage (clockFrom 30) (MapOrder.asStored _) 1).2 = none ∧
    (get? (heldRead.CreateMessage (clockFrom 30) (MapOrder.asStored _) 1).1.view.messages
        "user2").map
      (fun l => l.map (fun m => (m.ID, m.Status, m.CreatedAt, m.UpdatedAt)))
      = some [("m1", StatusSent, 30, 31), ("m1", StatusSent, 30, 31)] := by
  refine ⟨by decide, by decide, by decide, by decide, by decide⟩

/-- C7 as amended: the postcondition of `CreateMessage` for a message the
store does not hold yet.  For every store, with the pointers to its messages,
and every pointer `a` that is in no slice of the store, the call returns no
error; a reader finds afterwards, in the slice of the message's destination,
the messages found there before (none when there was no slice), unchanged and
in the same order, followed by the message, with the status SENT whatever
status it came with, its id, sender, destination, text and kind as given, and
the times of the clock; in the slice of every other destination the reader
finds what was there before. -/
theorem CreateMessage_appends_fresh (p : PointerStore) (clk : Clock) (o : MapOrder Bool)
    (a : Nat) (hfresh : p.Fresh a) :
    (p.CreateMessage clk o a).2 = none ∧
    get? (p.CreateMessage clk o a).1.view.messages (p.objects a).DestinationID =
      some ((get? p.view.messages (p.objects a).DestinationID).getD [] ++
        [{ ID := (p.objects a).ID, SenderID := (p.objects a).SenderID,
           DestinationID := (p.objects a).DestinationID,
           MessageText := (p.objects a).MessageText, Status := StatusSent,
           ConversationType := (p.objects a).ConversationType,
           CreatedAt := clk 0, UpdatedAt := clk 1 }]) ∧
    ∀ d, d ≠ (p.objects a).DestinationID →
      get? (p.CreateMessage clk o a).1.view.messages d = get? p.view.messages d := by
  obtain ⟨hview, herr⟩ := CreateMessage_view p clk o a hfresh
  rw [hview]
  exact ⟨herr, (CreateMessage_slices p.view clk o (p.objects a)).2⟩

/-- C7 as amended, at a concrete input: the slice of user2 holds m1 at the
address 1; the message m2 at the address 2, handed over with the status READ,
is stored last with the status SENT, m1 stays as it was, and user1 has no
slice before or after. -/
theorem CreateMessage_appends_fresh_witness :
    twoPointers.Fresh 2 ∧
    ((twoPointers.CreateMessage (clockFrom 20) (MapOrder.asStored _) 2).2 = none ∧
    get? (twoPointers.CreateMessage (clockFrom 20) (MapOrder.asStored _) 2).1.view.messages
        (twoPointers.objects 2).DestinationID =
      some ((get? twoPointers.view.messages (twoPointers.objects 2).DestinationID).getD [] ++
        [{ ID := (twoPointers.objects 2).ID, SenderID := (twoPointers.objects 2).SenderID,
           DestinationID := (twoPointers.objects 2).DestinationID,
           MessageText := (twoPointers.objects 2).MessageText, Status := StatusSent,
           ConversationType := (twoPointers.objects 2).ConversationType,
           CreatedAt := clockFrom 20 0, UpdatedAt := clockFrom 20 1 }]) ∧
    ∀ d, d ≠ (twoPointers.objects 2).DestinationID →
      get? (twoPointers.CreateMessage (clockFrom 20) (MapOrder.asStored _) 2).1.view.messages d
        = get? twoPointers.view.messages d) ∧
    twoPointers.view = oneMessage ∧
    (get? (twoPointers.CreateMessage (clockFrom 20) (MapOrder.asStored _) 2).1.view.messages
        "user2").map
      (fun l => l.map (fun m => (m.ID, m.Status, m.CreatedAt, m.UpdatedAt)))
      = some [("m1", StatusSent, 10, 11), ("m2", StatusSent, 20, 21)] ∧
    get? (twoPointers.CreateMessage (clockFrom 20) (MapOrder.asStored _) 2).1.view.messages
        "user1" = none :=
  ⟨by unfold PointerStore.Fresh; decide,
    CreateMessage_appends_fresh twoPointers (clockFrom 20) (MapOrder.asStored _) 2
      (by unfold PointerStore.Fresh; decide),
    by decide, by decide, by decide⟩

/-! ## The conversation index (C8, C9) -/

theorem bumpRow_some (d : String) (c : ConversationType) (t : Nat) (rows rows' : List UserConversation)
    (h : bumpRow d c t rows = some rows') :
    rows'.map rowFixed = rows.map rowFixed ∧ ∃ uc ∈ rows, uc.DestinationID = d ∧ uc.ConversationType = c := by
  induction rows generalizing rows' with
  | nil => simp [bumpRow] at h
  | cons uc rest ih =>
    simp only [bumpRow] at h
    split at h
    · rename_i hm
      simp only [Option.some.injEq] at h
      subst h
      exact ⟨by simp [rowFixed], uc, List.mem_cons_self _ _, hm⟩
    · cases hb : bumpRow d c t rest with
      | none => simp [hb] at h
      | some r =>
        simp only [hb, Option.map_some', Option.some.injEq] at h
        subst h
        obtain ⟨h1, uc', hmem, hk⟩ := ih r hb
        exact ⟨by simp [h1], uc', List.mem_cons_of_mem _ hmem, hk⟩

theorem bumpRow_none (d : String) (c : ConversationType) (t : Nat) (rows : List UserConversation)
    (h : bumpRow d c t rows = none) :
    ∀ uc ∈ rows, ¬ (uc.DestinationID = d ∧ uc.ConversationType = c) := by
  induction rows with
  | nil => simp
  | cons uc rest ih =>
    simp only [bumpRow] at h
    split at h
    · simp at h
    · rename_i hm
      cases hb : bumpRow d c t rest with
      | some r => simp [hb] at h
      | none =>
        intro x hx
        rcases List.mem_cons.mp hx with hx | hx
        · subst hx
          exact hm
        · exact ih hb x hx

/-- The list of the user after `updateUserConversation`: the rows before, with
at most `UpdatedAt` changed, followed by at most one new row; a row of the
destination and kind is among them. -/
theorem updateUserConversation_self (s : MemoryStore) (clk : Clock) (k : Nat)
    (u d : String) (c : ConversationType) :
    (∃ extra, (conversationsOf (updateUserConversation s clk k u d c).1 u).map rowFixed
        = (conversationsOf s u).map rowFixed ++ extra ∧
        (extra = [] ∨ (extra = [("uc_" ++ u ++ "_" ++ d, u, d, c, clk k)] ∧
          ∀ uc ∈ conversationsOf s u, ¬ (uc.DestinationID = d ∧ uc.ConversationType = c)))) ∧
    hasRow (updateUserConversation s clk k u d c).1 u d c := by
  unfold hasRow conversationsOf
  rcases h : bumpRow d c (clk k) ((get? s.userConversations u).getD []) with _ | rows'
  · simp only [updateUserConversation, h, get?_set_self, Option.getD_some]
    refine ⟨⟨[("uc_" ++ u ++ "_" ++ d, u, d, c, clk k)], by simp [rowFixed], Or.inr ⟨rfl, ?_⟩⟩, ?_⟩
    · exact bumpRow_none d c (clk k) _ h
    · exact ⟨_, List.mem_append_right _ (List.mem_singleton_self _), rfl, rfl⟩
  · simp only [updateUserConversation, h, get?_set_self, Option.getD_some]
    obtain ⟨h1, uc, hmem, hk⟩ := bumpRow_some d c (clk k) _ rows' h
    refine ⟨⟨[], by simp [h1], Or.inl rfl⟩, ?_⟩
    have : rowFixed uc ∈ rows'.map rowFixed := by
      rw [h1]
      exact List.mem_map_of_mem _ hmem
    obtain ⟨x, hx, hxk⟩ := List.mem_map.mp this
    simp only [rowFixed, Prod.mk.injEq] at hxk
    exact ⟨x, hx, hxk.2.2.1.trans hk.1, hxk.2.2.2.1.trans hk.2⟩

theorem updateUserConversation_other (s : MemoryStore) (clk : Clock) (k : Nat)
    (u d : String) (c : ConversationType) (u' : String) (h : u' ≠ u) :
    conversationsOf (updateUserConversation s clk k u d c).1 u' = conversationsOf s u' := by
  unfold conversationsOf
  rcases hb : bumpRow d c (clk k) ((get? s.userConversations u).getD []) with _ | rows' <;>
    simp [updateUserConversation, hb, get?_set_ne _ _ _ _ h]

/-- Rows are kept by `updateUserConversation`, in every list. -/
theorem updateUserConversation_keeps (s : MemoryStore) (clk : Clock) (k : Nat)
    (u d : String) (c : ConversationType) (u' : String) :
    ∃ extra, (conversationsOf (updateUserConversation s clk k u d c).1 u').map rowFixed
      = (conversationsOf s u').map rowFixed ++ extra := by
  by_cases h : u' = u
  · subst h
    obtain ⟨⟨extra, he, _⟩, _⟩ := updateUserConversation_self s clk k u' d c
    exact ⟨extra, he⟩
  · exact ⟨[], by rw [updateUserConversation_other s clk k u d c u' h]; simp⟩

theorem hasRow_of_keeps (s s' : MemoryStore) (u d : String) (c : ConversationType)
    (hk : ∃ extra, (conversationsOf s' u).map rowFixed = (conversationsOf s u).map rowFixed ++ extra)
    (h : hasRow s u d c) : hasRow s' u d c := by
  obtain ⟨extra, he⟩ := hk
  obtain ⟨uc, hmem, hd, hc⟩ := h
  have : rowFixed uc ∈ (conversationsOf s' u).map rowFixed := by
    rw [he]
    exact List.mem_append_left _ (List.mem_map_of_mem _ hmem)
  obtain ⟨x, hx, hxk⟩ := List.mem_map.mp this
  simp only [rowFixed, Prod.mk.injEq] at hxk
  exact ⟨x, hx, hxk.2.2.1.trans hd, hxk.2.2.2.1.trans hc⟩

theorem RowsKept.refl (s : MemoryStore) : RowsKept s s := fun _ => ⟨[], by simp⟩

theorem RowsKept.of_eq (s s' : MemoryStore) (h : s'.userConversations = s.userConversations) :
    RowsKept s s' := fun _ => ⟨[], by simp [conversationsOf, h]⟩

theorem RowsKept.trans {s₁ s₂ s₃ : MemoryStore} (h₁ : RowsKept s₁ s₂) (h₂ : RowsKept s₂ s₃) :
    RowsKept s₁ s₃ := by
  intro u
  obtain ⟨e₁, he₁⟩ := h₁ u
  obtain ⟨e₂, he₂⟩ := h₂ u
  exact ⟨e₁ ++ e₂, by rw [he₂, he₁, List.append_assoc]⟩

theorem RowsKept.hasRow {s s' : MemoryStore} (hk : RowsKept s s') (u d : String)
    (c : ConversationType) (h : hasRow s u d c) : hasRow s' u d c :=
  hasRow_of_keeps s s' u d c (hk u) h

theorem updateUserConversation_rowsKept (s : MemoryStore) (clk : Clock) (k : Nat)
    (u d : String) (c : ConversationType) :
    RowsKept s (updateUserConversation s clk k u d c).1 :=
  fun u' => updateUserConversation_keeps s clk k u d c u'

theorem fanOut_rowsKept (clk : Clock) (sender d : String) (c : ConversationType)
    (members : List (String × Bool)) (acc : MemoryStore × Nat) :
    RowsKept acc.1 (fanOut clk sender d c members acc).1 := by
  induction members generalizing acc with
  | nil => exact RowsKept.refl _
  | cons e rest ih =>
    obtain ⟨memberID, b⟩ := e
    simp only [fanOut]
    split
    · exact (updateUserConversation_rowsKept acc.1 clk acc.2 memberID d c).trans (ih _)
    · exact ih acc

/-- The loop over the members leaves a row of the destination and kind in the
list of every member other than the sender. -/
theorem fanOut_covers (clk : Clock) (sender d : String) (c : ConversationType)
    (members : List (String × Bool)) (acc : MemoryStore × Nat) (e : String × Bool)
    (he : e ∈ members) (hne : e.1 ≠ sender) :
    hasRow (fanOut clk sender d c members acc).1 e.1 d c := by
  induction members generalizing acc with
  | nil => simp at he
  | cons e' rest ih =>
    obtain ⟨memberID, b⟩ := e'
    simp only [fanOut]
    rcases List.mem_cons.mp he with he | he
    · subst he
      simp only [ne_eq, hne, not_false_eq_true, if_true]
      exact (fanOut_rowsKept clk sender d c rest _).hasRow _ _ _
        (updateUserConversation_self acc.1 clk acc.2 memberID d c).2
    · split
      · exact ih _ he
      · exact ih acc he

theorem CreateMessage_rowsKept (s : MemoryStore) (clk : Clock) (o : MapOrder Bool)
    (msg : Message) : RowsKept s (CreateMessage s clk o msg).1 := by
  have h0 : ∀ m, RowsKept s (appendMessage s m) := fun m => RowsKept.of_eq _ _ rfl
  unfold CreateMessage
  simp only
  split
  · exact (h0 _).trans ((updateUserConversation_rowsKept _ _ _ _ _ _).trans
      (updateUserConversation_rowsKept _ _ _ _ _ _))
  · split
    · exact (h0 _).trans ((updateUserConversation_rowsKept _ _ _ _ _ _).trans
        (fanOut_rowsKept _ _ _ _ _ _))
    · exact (h0 _).trans (updateUserConversation_rowsKept _ _ _ _ _ _)

theorem step_rowsKept (s : MemoryStore) (c : Clock × Op) : RowsKept s (step s c) := by
  obtain ⟨clk, op⟩ := c
  cases op with
  | createUser user =>
    simp only [step, CreateUser]
    split <;> exact RowsKept.of_eq _ _ rfl
  | createGroup group =>
    simp only [step, CreateGroup]
    split <;> exact RowsKept.of_eq _ _ rfl
  | addGroupMember g u =>
    simp only [step, AddGroupMember]
    split <;> exact RowsKept.of_eq _ _ rfl
  | createMessage o message => exact CreateMessage_rowsKept s clk o message
  | updateMessageStatus o id st =>
    simp only [step, UpdateMessageStatus]
    split <;> exact RowsKept.of_eq _ _ rfl
  | createMessageRead o m u =>
    simp only [step, CreateMessageRead]
    split
    · split <;> exact RowsKept.of_eq _ _ rfl
    · split <;> split <;> exact RowsKept.of_eq _ _ rfl

theorem run_rowsKept (s : MemoryStore) (calls : List (Clock × Op)) : RowsKept s (run s calls) := by
  induction calls generalizing s with
  | nil => exact RowsKept.refl s
  | cons c rest ih => exact (step_rowsKept s c).trans (ih (step s c))

/-- The rows `CreateMessage` leaves: one for the sender; one for the recipient
of a one-to-one message; one for every member of the destination group
otherwise. -/
theorem CreateMessage_covers (s : MemoryStore) (clk : Clock) (o : MapOrder Bool) (msg : Message) :
    hasRow (CreateMessage s clk o msg).1 msg.SenderID msg.DestinationID msg.ConversationType ∧
    (msg.ConversationType = ConversationTypeOneToOne →
      hasRow (CreateMessage s clk o msg).1 msg.DestinationID msg.SenderID
        msg.ConversationType) ∧
    (msg.ConversationType ≠ ConversationTypeOneToOne → ∀ u,
      IsGroupMember s msg.DestinationID u = true →
      hasRow (CreateMessage s clk o msg).1 u msg.DestinationID msg.ConversationType) := by
  unfold CreateMessage
  have hgm : (appendMessage s (stampMessage clk msg)).groupMembers = s.groupMembers := rfl
  have e1 : (stampMessage clk msg).SenderID = msg.SenderID := rfl
  have e2 : (stampMessage clk msg).DestinationID = msg.DestinationID := rfl
  have e3 : (stampMessage clk msg).ConversationType = msg.ConversationType := rfl
  simp only [e1, e2, e3]
  generalize appendMessage s (stampMessage clk msg) = s1 at hgm
  have hsender := (updateUserConversation_self s1 clk 2 msg.SenderID msg.DestinationID
    msg.ConversationType).2
  have hframe := (updateUserConversation_frame s1 clk 2 msg.SenderID msg.DestinationID
    msg.ConversationType).2.2.1
  generalize updateUserConversation s1 clk 2 msg.SenderID msg.DestinationID
    msg.ConversationType = r at hsender hframe
  by_cases hkind : msg.ConversationType = ConversationTypeOneToOne
  · simp only [hkind, if_true]
    rw [hkind] at hsender
    refine ⟨?_, fun _ => ?_, fun h => absurd rfl h⟩
    · exact (updateUserConversation_rowsKept r.1 clk r.2 _ _ _).hasRow _ _ _ hsender
    · exact (updateUserConversation_self r.1 clk r.2 _ _ _).2
  · simp only [hkind, if_false]
    rw [hframe, hgm]
    cases hm : get? s.groupMembers msg.DestinationID with
    | none =>
      refine ⟨hsender, fun h => h.elim, fun _ u hu => ?_⟩
      simp [IsGroupMember, hm] at hu
    | some members =>
      simp only
      have hs := (fanOut_rowsKept clk msg.SenderID msg.DestinationID msg.ConversationType
        (o.visit members) r).hasRow _ _ _ hsender
      refine ⟨hs, fun h => h.elim, fun _ u hu => ?_⟩
      by_cases hus : u = msg.SenderID
      · rw [hus]
        exact hs
      · simp only [IsGroupMember, hm] at hu
        cases hg : get? members u with
        | none => simp [hg] at hu
        | some b =>
          have hmem : (u, b) ∈ o.visit members :=
            (o.perm members).mem_iff.mpr (mem_of_get? members u b hg)
          exact fanOut_covers clk msg.SenderID msg.DestinationID msg.ConversationType
            (o.visit members) r (u, b) hmem hus

theorem setStatusIn_mem_fixed (m : String) (st : MessageStatus) (t : Nat) (l : List Message)
    (x : Message) (hx : x ∈ setStatusIn m st t l) : ∃ x₀ ∈ l, msgFixed x₀ = msgFixed x := by
  induction l with
  | nil => simp [setStatusIn] at hx
  | cons a rest ih =>
    simp only [setStatusIn] at hx
    split at hx
    · rcases List.mem_cons.mp hx with hx | hx
      · subst hx
        exact ⟨a, List.mem_cons_self _ _, rfl⟩
      · exact ⟨x, List.mem_cons_of_mem _ hx, rfl⟩
    · rcases List.mem_cons.mp hx with hx | hx
      · subst hx
        exact ⟨x, List.mem_cons_self _ _, rfl⟩
      · obtain ⟨x₀, h₀, hf⟩ := ih hx
        exact ⟨x₀, List.mem_cons_of_mem _ h₀, hf⟩

theorem writeStatus_mem_fixed (m k : String) (st : MessageStatus) (t : Nat)
    (l : List (String × List Message)) (e : String × List Message)
    (he : e ∈ writeStatus m st t k l) (x : Message) (hx : x ∈ e.2) :
    ∃ e₀ ∈ l, ∃ x₀ ∈ e₀.2, msgFixed x₀ = msgFixed x := by
  simp only [writeStatus, List.mem_map] at he
  obtain ⟨e₀, he₀, rfl⟩ := he
  by_cases hk : e₀.1 = k
  · simp only [hk, if_true] at hx
    obtain ⟨x₀, h₀, hf⟩ := setStatusIn_mem_fixed m st t e₀.2 x hx
    exact ⟨e₀, he₀, x₀, h₀, hf⟩
  · simp only [hk, if_false] at hx
    exact ⟨e₀, he₀, x, hx, rfl⟩

/-- A message stored after a call either was stored before the call, up to
`Status` and `UpdatedAt`, or is the message the call created. -/
theorem step_messages_mem (s : MemoryStore) (c : Clock × Op) (e : String × List Message)
    (he : e ∈ (step s c).messages) (x : Message) (hx : x ∈ e.2) :
    (∃ e₀ ∈ s.messages, ∃ x₀ ∈ e₀.2, msgFixed x₀ = msgFixed x) ∨
    (∃ o msg, c.2 = Op.createMessage o msg ∧ x = stampMessage c.1 msg) := by
  obtain ⟨clk, op⟩ := c
  cases op with
  | createUser user =>
    left
    simp only [step, CreateUser] at he
    split at he <;> exact ⟨e, he, x, hx, rfl⟩
  | createGroup group =>
    left
    simp only [step, CreateGroup] at he
    split at he <;> exact ⟨e, he, x, hx, rfl⟩
  | addGroupMember g u =>
    left
    simp only [step, AddGroupMember] at he
    split at he <;> exact ⟨e, he, x, hx, rfl⟩
  | createMessage o msg =>
    simp only [step, (CreateMessage_frame s clk o msg).2.2.2.1] at he
    rcases mem_set _ _ _ _ he with he | he
    · exact Or.inl ⟨e, he, x, hx, rfl⟩
    · subst he
      rcases List.mem_append.mp hx with hx | hx
      · left
        cases hg : get? s.messages msg.DestinationID with
        | none => simp [hg] at hx
        | some old =>
          simp only [hg, Option.getD_some] at hx
          exact ⟨(msg.DestinationID, old), mem_of_get? _ _ _ hg, x, hx, rfl⟩
      · right
        exact ⟨o, msg, rfl, List.mem_singleton.mp hx⟩
  | updateMessageStatus o id st =>
    left
    simp only [step, UpdateMessageStatus] at he
    split at he
    · exact writeStatus_mem_fixed _ _ _ _ _ e he x hx
    · exact ⟨e, he, x, hx, rfl⟩
  | createMessageRead o m u =>
    left
    simp only [step] at he
    rcases CreateMessageRead_messages_cases s clk o m u with h | ⟨k, h⟩
    · rw [h] at he
      exact ⟨e, he, x, hx, rfl⟩
    · rw [h] at he
      exact writeStatus_mem_fixed _ _ _ _ _ e he x hx

/-- C8: conversation coverage.  In the store reached from `NewStore()` by any
sequence of calls, every stored message was made by one `CreateMessage` call
of the sequence (same id, sender, destination, text and kind), and the store
holds a row of the message's destination and kind in the sender's list; for a
one-to-one message a row in the recipient's list (it names the sender); for
any other kind, the group messages among them, a row of the destination in the
list of every user who was a member of the destination group in the state
`CreateMessage` was called in. -/
theorem conversation_coverage (calls : List (Clock × Op)) (e : String × List Message)
    (he : e ∈ (run NewStore calls).messages) (x : Message) (hx : x ∈ e.2) :
    ∃ pre clk o msg post, calls = pre ++ (clk, Op.createMessage o msg) :: post ∧
      msgFixed x = msgFixed (stampMessage clk msg) ∧
      hasRow (run NewStore calls) x.SenderID x.DestinationID x.ConversationType ∧
      (x.ConversationType = ConversationTypeOneToOne →
        hasRow (run NewStore calls) x.DestinationID x.SenderID x.ConversationType) ∧
      (x.ConversationType ≠ ConversationTypeOneToOne → ∀ u,
        IsGroupMember (run NewStore pre) x.DestinationID u = true →
        hasRow (run NewStore calls) u x.DestinationID x.ConversationType) := by
  induction calls using List.reverseRecOn generalizing e x with
  | nil => simp [run, NewStore] at he
  | append_singleton init c ih =>
    rw [run_snoc] at he ⊢
    have hkept := step_rowsKept (run NewStore init) c
    rcases step_messages_mem (run NewStore init) c e he x hx with
      ⟨e₀, he₀, x₀, hx₀, hf⟩ | ⟨o, msg, hc, hxs⟩
    · obtain ⟨pre, clk, o, msg, post, hcalls, hfix, hr1, hr2, hr3⟩ := ih e₀ he₀ x₀ hx₀
      have hf' := hf
      simp only [msgFixed, Prod.mk.injEq] at hf'
      obtain ⟨-, hS, hD, -, hC, -⟩ := hf'
      rw [hS, hD, hC] at hr1 hr2
      rw [hD, hC] at hr3
      refine ⟨pre, clk, o, msg, post ++ [c], by rw [hcalls]; simp, hf.symm.trans hfix,
        hkept.hasRow _ _ _ hr1, fun h => hkept.hasRow _ _ _ (hr2 h),
        fun h u hu => hkept.hasRow _ _ _ (hr3 h u hu)⟩
    · obtain ⟨clk, op⟩ := c
      simp only at hc hxs
      subst hc
      subst hxs
      have hcov := CreateMessage_covers (run NewStore init) clk o msg
      exact ⟨init, clk, o, msg, [], rfl, rfl, hcov.1, hcov.2.1, hcov.2.2⟩

/-- C8 at the input of the claim: the group g with the members a, b and c, and
a message from a; rows for g exist in the lists of a, b and c. -/
theorem conversation_coverage_witness :
    ("g", [groupChatMessage]) ∈ (run NewStore groupChatCalls).messages ∧
    ((conversationsOf (run NewStore groupChatCalls) "a").map (fun uc => uc.DestinationID),
      (conversationsOf (run NewStore groupChatCalls) "b").map (fun uc => uc.DestinationID),
      (conversationsOf (run NewStore groupChatCalls) "c").map (fun uc => uc.DestinationID))
      = (["g"], ["g"], ["g"]) ∧
    ∃ pre clk o msg post, groupChatCalls = pre ++ (clk, Op.createMessage o msg) :: post ∧
      msgFixed groupChatMessage = msgFixed (stampMessage clk msg) ∧
      hasRow (run NewStore groupChatCalls) groupChatMessage.SenderID
        groupChatMessage.DestinationID groupChatMessage.ConversationType ∧
      (groupChatMessage.ConversationType = ConversationTypeOneToOne →
        hasRow (run NewStore groupChatCalls) groupChatMessage.DestinationID
          groupChatMessage.SenderID groupChatMessage.ConversationType) ∧
      (groupChatMessage.ConversationType ≠ ConversationTypeOneToOne → ∀ u,
        IsGroupMember (run NewStore pre) groupChatMessage.DestinationID u = true →
        hasRow (run NewStore groupChatCalls) u groupChatMessage.DestinationID
          groupChatMessage.ConversationType) :=
  ⟨by decide, by decide,
    conversation_coverage groupChatCalls ("g", [groupChatMessage]) (by decide)
      groupChatMessage (List.mem_singleton_self _)⟩

theorem updateUserConversation_userConversations (s : MemoryStore) (clk : Clock) (k : Nat)
    (u d : String) (c : ConversationType) :
    (updateUserConversation s clk k u d c).1.userConversations =
      set s.userConversations u (conversationsOf (updateUserConversation s clk k u d c).1 u) := by
  unfold conversationsOf
  rcases h : bumpRow d c (clk k) ((get? s.userConversations u).getD []) with _ | rows' <;>
    simp [updateUserConversation, h, get?_set_self]

theorem RowsUnique.conversationsOf (s : MemoryStore) (h : RowsUnique s) (u : String) :
    ((conversationsOf s u).map (fun uc => (uc.DestinationID, uc.ConversationType))).Nodup := by
  unfold ChatApp.conversationsOf
  cases hg : get? s.userConversations u with
  | none => simp
  | some rows => exact h (u, rows) (mem_of_get? _ _ _ hg)

theorem rowKeys_eq (rows : List UserConversation) :
    rows.map (fun uc => (uc.DestinationID, uc.ConversationType))
      = (rows.map rowFixed).map (fun p => (p.2.2.1, p.2.2.2.1)) := by
  simp [rowFixed]

theorem updateUserConversation_rowsUnique (s : MemoryStore) (clk : Clock) (k : Nat)
    (u d : String) (c : ConversationType) (h : RowsUnique s) :
    RowsUnique (updateUserConversation s clk k u d c).1 := by
  intro e he
  rw [updateUserConversation_userConversations] at he
  rcases mem_set _ _ _ _ he with he | he
  · exact h e he
  · subst he
    obtain ⟨⟨extra, hmap, hextra⟩, _⟩ := updateUserConversation_self s clk k u d c
    have hold := h.conversationsOf s u
    simp only
    rw [rowKeys_eq, hmap]
    rcases hextra with hextra | ⟨hextra, hnone⟩
    · rw [hextra, List.append_nil, ← rowKeys_eq]
      exact hold
    · rw [hextra, List.map_append, ← rowKeys_eq]
      refine List.Nodup.append hold (List.nodup_singleton _) ?_
      simp only [List.map_cons, List.map_nil, List.disjoint_singleton]
      intro hmem
      obtain ⟨uc, huc, hk⟩ := List.mem_map.mp hmem
      simp only [Prod.mk.injEq] at hk
      exact hnone uc huc hk

theorem fanOut_rowsUnique (clk : Clock) (sender d : String) (c : ConversationType)
    (members : List (String × Bool)) (acc : MemoryStore × Nat) (h : RowsUnique acc.1) :
    RowsUnique (fanOut clk sender d c members acc).1 := by
  induction members generalizing acc with
  | nil => exact h
  | cons e rest ih =>
    obtain ⟨memberID, b⟩ := e
    simp only [fanOut]
    split
    · exact ih _ (updateUserConversation_rowsUnique acc.1 clk acc.2 memberID d c h)
    · exact ih acc h

theorem CreateMessage_rowsUnique (s : MemoryStore) (clk : Clock) (o : MapOrder Bool)
    (msg : Message) (h : RowsUnique s) : RowsUnique (CreateMessage s clk o msg).1 := by
  have h0 : RowsUnique (appendMessage s (stampMessage clk msg)) := h
  unfold CreateMessage
  simp only
  split
  · exact updateUserConversation_rowsUnique _ _ _ _ _ _
      (updateUserConversation_rowsUnique _ _ _ _ _ _ h0)
  · split
    · exact fanOut_rowsUnique _ _ _ _ _ _ (updateUserConversation_rowsUnique _ _ _ _ _ _ h0)
    · exact updateUserConversation_rowsUnique _ _ _ _ _ _ h0

theorem step_rowsUnique (s : MemoryStore) (c : Clock × Op) (h : RowsUnique s) :
    RowsUnique (step s c) := by
  obtain ⟨clk, op⟩ := c
  cases op with
  | createUser user =>
    simp only [step, CreateUser]
    split <;> exact h
  | createGroup group =>
    simp only [step, CreateGroup]
    split <;> exact h
  | addGroupMember g u =>
    simp only [step, AddGroupMember]
    split <;> exact h
  | createMessage o message => exact CreateMessage_rowsUnique s clk o message h
  | updateMessageStatus o id st =>
    simp only [step, UpdateMessageStatus]
    split <;> exact h
  | createMessageRead o m u =>
    simp only [step, CreateMessageRead]
    split
    · split <;> exact h
    · split <;> split <;> exact h

theorem run_rowsUnique (calls : List (Clock × Op)) : RowsUnique (run NewStore calls) :=
  run_invariant RowsUnique step_rowsUnique NewStore calls
    (by intro e he; simp [NewStore] at he)

/-- C9: conversation upsert uniqueness.  In the store reached from
`NewStore()` by any sequence of calls, no user's list has two rows of the same
destination and kind; further calls of any operations remove and move no row
(`RowsKept`: each list is the list before, up to `UpdatedAt`, followed by new
rows); and when the sequence holds a `CreateMessage` call, hence after any
number N >= 1 of them for the same sender, destination and kind, the sender's
list has exactly one row of that destination and kind. -/
theorem conversation_rows_unique (calls : List (Clock × Op)) :
    (∀ u, ((conversationsOf (run NewStore calls) u).map
      (fun uc => (uc.DestinationID, uc.ConversationType))).Nodup) ∧
    (∀ more, RowsKept (run NewStore calls) (run NewStore (calls ++ more))) ∧
    (∀ pre clk o msg post, calls = pre ++ (clk, Op.createMessage o msg) :: post →
      (conversationsOf (run NewStore calls) msg.SenderID).countP
        (fun uc => uc.DestinationID = msg.DestinationID ∧
          uc.ConversationType = msg.ConversationType) = 1) := by
  have huniq := run_rowsUnique calls
  refine ⟨huniq.conversationsOf _, fun more => by rw [run_append]; exact run_rowsKept _ more,
    ?_⟩
  intro pre clk o msg post hcalls
  have hrow : hasRow (run NewStore calls) msg.SenderID msg.DestinationID
      msg.ConversationType := by
    rw [hcalls, run_append]
    exact (run_rowsKept _ post).hasRow _ _ _
      (CreateMessage_covers (run NewStore pre) clk o msg).1
  obtain ⟨uc, hmem, hd, hc⟩ := hrow
  have hnd := huniq.conversationsOf _ msg.SenderID
  have hone := countP_eq_one_of_nodup (fun uc : UserConversation =>
    (uc.DestinationID, uc.ConversationType)) _ (msg.DestinationID, msg.ConversationType) hnd
    ⟨uc, hmem, by simp only [hd, hc]⟩
  rw [← hone]
  apply List.countP_congr
  intro r _
  simp [Prod.ext_iff]

/-- C9 at a concrete input: after the three messages from user1 to user2 the
list of user1 has one row for user2. -/
theorem conversation_rows_unique_witness :
    (conversationsOf threeMessages "user1").countP
      (fun uc => uc.DestinationID = "user2" ∧
        uc.ConversationType = ConversationTypeOneToOne) = 1 :=
  (conversation_rows_unique
    [(clockFrom 10, .createMessage (MapOrder.asStored Bool) (helloMsg "m1")),
     (clockFrom 20, .createMessage (MapOrder.asStored Bool) (helloMsg "m2")),
     (clockFrom 30, .createMessage (MapOrder.asStored Bool) (helloMsg "m3"))]).2.2
    [(clockFrom 10, .createMessage (MapOrder.asStored Bool) (helloMsg "m1"))]
    (clockFrom 20) (MapOrder.asStored Bool) (helloMsg "m2")
    [(clockFrom 30, .createMessage (MapOrder.asStored Bool) (helloMsg "m3"))] rfl

/-! ## `GetUserConversations` (C10) -/

theorem sweep_perm (x : UserConversation) (l : List UserConversation) :
    ((sweep x l).1 :: (sweep x l).2).Perm (x :: l) := by
  induction l generalizing x with
  | nil => simp [sweep]
  | cons y rest ih =>
    simp only [sweep]
    split
    · exact (List.Perm.swap _ _ _).trans ((ih y).cons x)
    · exact ((List.Perm.swap _ _ _).trans ((ih x).cons y)).trans (List.Perm.swap _ _ _)

theorem sweep_length (x : UserConversation) (l : List UserConversation) :
    (sweep x l).2.length = l.length := by
  induction l generalizing x with
  | nil => simp [sweep]
  | cons y rest ih =>
    simp only [sweep]
    split <;> simp [ih]

theorem sweep_ge (x : UserConversation) (l : List UserConversation) :
    x.UpdatedAt ≤ (sweep x l).1.UpdatedAt ∧
    ∀ y ∈ (sweep x l).2, y.UpdatedAt ≤ (sweep x l).1.UpdatedAt := by
  induction l generalizing x with
  | nil => simp [sweep]
  | cons y rest ih =>
    simp only [sweep]
    split
    all_goals dsimp only
    · rename_i hlt
      have h := ih y
      refine ⟨by omega, ?_⟩
      intro z hz
      rcases List.mem_cons.mp hz with hz | hz
      · subst hz
        omega
      · exact h.2 z hz
    · rename_i hlt
      have h := ih x
      refine ⟨h.1, ?_⟩
      intro z hz
      rcases List.mem_cons.mp hz with hz | hz
      · subst hz
        omega
      · exact h.2 z hz

theorem sortLoop_perm (n : Nat) (l : List UserConversation) : (sortLoop n l).Perm l := by
  induction n generalizing l with
  | zero => simp [sortLoop]
  | succ n ih =>
    cases l with
    | nil => simp [sortLoop]
    | cons x rest =>
      simp only [sortLoop]
      exact ((ih (sweep x rest).2).cons _).trans (sweep_perm x rest)

theorem sortLoop_sorted (n : Nat) (l : List UserConversation) (h : l.length ≤ n + 1) :
    (sortLoop n l).Pairwise (fun a b => b.UpdatedAt ≤ a.UpdatedAt) := by
  induction n generalizing l with
  | zero =>
    simp only [sortLoop]
    match l, h with
    | [], _ => exact List.Pairwise.nil
    | [a], _ => exact List.pairwise_singleton _ a
  | succ n ih =>
    cases l with
    | nil => simp [sortLoop]
    | cons x rest =>
      simp only [sortLoop]
      refine List.Pairwise.cons ?_ (ih _ ?_)
      · intro y hy
        exact (sweep_ge x rest).2 y ((sortLoop_perm n _).mem_iff.mp hy)
      · rw [sweep_length]
        simpa using h

/-- C10: the ordering of `GetUserConversations`.  For every store and user the
call returns no error and a permutation of the user's stored list (the empty
list when the user has none) in which every row comes before the rows whose
`UpdatedAt` is less or equal: `UpdatedAt` is non-increasing from first to
last.  The call is a function of the store that returns no store: the loops
run on the copy of lines 81-82, the stored list stays as it is. -/
theorem GetUserConversations_sorted (s : MemoryStore) (userID : String) :
    (GetUserConversations s userID).2 = none ∧
    (GetUserConversations s userID).1.Perm ((get? s.userConversations userID).getD []) ∧
    (GetUserConversations s userID).1.Pairwise (fun a b => b.UpdatedAt ≤ a.UpdatedAt) := by
  unfold GetUserConversations
  cases h : get? s.userConversations userID with
  | none => simp
  | some conversations =>
    refine ⟨rfl, sortLoop_perm _ _, sortLoop_sorted _ _ ?_⟩
    omega

/-- C10 at a concrete input: user1 wrote to user2 and then to user3; the
stored list has user2 first, the returned list user3. -/
theorem GetUserConversations_sorted_witness :
    (conversationsOf (run NewStore twoChatsCalls) "user1").map
        (fun uc => (uc.DestinationID, uc.UpdatedAt)) = [("user2", 13), ("user3", 23)] ∧
    (GetUserConversations (run NewStore twoChatsCalls) "user1").1.map
        (fun uc => (uc.DestinationID, uc.UpdatedAt)) = [("user3", 23), ("user2", 13)] ∧
    (GetUserConversations (run NewStore twoChatsCalls) "user1").2 = none ∧
    (GetUserConversations (run NewStore twoChatsCalls) "user1").1.Perm
      ((get? (run NewStore twoChatsCalls).userConversations "user1").getD []) ∧
    (GetUserConversations (run NewStore twoChatsCalls) "user1").1.Pairwise
      (fun a b => b.UpdatedAt ≤ a.UpdatedAt) :=
  ⟨by decide, by decide, GetUserConversations_sorted (run NewStore twoChatsCalls) "user1"⟩

/-! ## Search (C11) -/

theorem matchFrom_eq (text substr : List UInt8) (i : Nat)
    (hin : i + substr.length ≤ text.length) :
    ∀ fuel j, substr.length - j < fuel → j ≤ substr.length →
      matchFrom text substr i fuel j
        = some (decide ((text.drop (i + j)).take (substr.length - j) = substr.drop j)) := by
  intro fuel
  induction fuel with
  | zero => intro j h; omega
  | succ fuel ih =>
    intro j hf hj
    unfold matchFrom
    by_cases hlt : j < substr.length
    · simp only [hlt, if_true]
      have h1 : i + j < text.length := by omega
      rw [List.get?_eq_get h1, List.get?_eq_get hlt]
      simp only
      have hd1 : text.drop (i + j) = text.get ⟨i + j, h1⟩ :: text.drop (i + j + 1) :=
        List.drop_eq_getElem_cons h1
      have hd2 : substr.drop j = substr.get ⟨j, hlt⟩ :: substr.drop (j + 1) :=
        List.drop_eq_getElem_cons hlt
      have hn : substr.length - j = (substr.length - (j + 1)) + 1 := by omega
      rw [hd1, hd2, hn, List.take_succ_cons]
      by_cases hab : text.get ⟨i + j, h1⟩ = substr.get ⟨j, hlt⟩
      · rw [if_neg (not_not.mpr hab), ih (j + 1) (by omega) (by omega), hab]
        simp only [List.cons.injEq, true_and, Nat.add_assoc]
      · rw [if_pos hab]
        simp only [List.cons.injEq, hab, false_and, decide_False]
    · have hj' : j = substr.length := by omega
      simp [hlt, hj']

theorem searchFrom_eq (text substr : List UInt8) (hle : substr.length ≤ text.length) :
    ∀ fuel i, text.length - substr.length + 1 - i < fuel →
      ∃ b, searchFrom text substr fuel i = some b ∧
        (b = true ↔ ∃ k, i ≤ k ∧ k ≤ text.length - substr.length ∧
          (text.drop k).take substr.length = substr) := by
  intro fuel
  induction fuel with
  | zero => intro i h; omega
  | succ fuel ih =>
    intro i hf
    unfold searchFrom
    by_cases hi : i ≤ text.length - substr.length
    · simp only [hi, if_true]
      rw [matchFrom_eq text substr i (by omega) _ 0 (by omega) (by omega)]
      simp only [Nat.add_zero, Nat.sub_zero, List.drop_zero]
      by_cases hm : (text.drop i).take substr.length = substr
      · simp only [hm, decide_True]
        exact ⟨true, rfl, fun _ => ⟨i, le_refl _, hi, hm⟩, fun _ => rfl⟩
      · simp only [hm, decide_False]
        obtain ⟨b, hb, hiff⟩ := ih (i + 1) (by omega)
        refine ⟨b, hb, hiff.trans ⟨?_, ?_⟩⟩
        · rintro ⟨k, hk1, hk2, hk3⟩
          exact ⟨k, by omega, hk2, hk3⟩
        · rintro ⟨k, hk1, hk2, hk3⟩
          have hne : k ≠ i := fun h => hm (h ▸ hk3)
          exact ⟨k, by omega, hk2, hk3⟩
    · simp only [hi, if_false]
      refine ⟨false, rfl, ⟨fun h => (by cases h), ?_⟩⟩
      rintro ⟨k, hk1, hk2, _⟩
      omega

theorem occurs_iff (text substr : List UInt8) :
    (∃ k, k ≤ text.length - substr.length ∧ substr.length ≤ text.length ∧
      (text.drop k).take substr.length = substr) ↔
    ∃ pre post, text = pre ++ substr ++ post := by
  constructor
  · rintro ⟨k, _, _, hk⟩
    refine ⟨text.take k, (text.drop k).drop substr.length, ?_⟩
    conv_lhs => rw [← List.take_append_drop k text]
    rw [List.append_assoc]
    congr 1
    conv_lhs => rw [← List.take_append_drop substr.length (text.drop k)]
    rw [hk]
  · rintro ⟨pre, post, rfl⟩
    refine ⟨pre.length, ?_, ?_, ?_⟩
    · simp only [List.length_append]; omega
    · simp only [List.length_append]; omega
    · simp [List.append_assoc]

/-- `containsSubstring` never panics and tells whether `substr` occurs in
`text` as a run of consecutive bytes. -/
theorem containsSubstring_eq (text substr : List UInt8) :
    ∃ b, containsSubstring text substr = some b ∧
      (b = true ↔ ∃ pre post, text = pre ++ substr ++ post) := by
  unfold containsSubstring
  by_cases hlen : substr.length > text.length
  · simp only [hlen, if_true]
    refine ⟨false, rfl, ⟨fun h => (by cases h), ?_⟩⟩
    rintro ⟨pre, post, rfl⟩
    simp only [List.length_append] at hlen
    omega
  · simp only [hlen, if_false]
    obtain ⟨b, hb, hiff⟩ := searchFrom_eq text substr (by omega)
      (text.length - substr.length + 2) 0 (by omega)
    refine ⟨b, hb, hiff.trans (Iff.trans ⟨?_, ?_⟩ (occurs_iff text substr))⟩
    · rintro ⟨k, _, hk2, hk3⟩
      exact ⟨k, hk2, by omega, hk3⟩
    · rintro ⟨k, hk1, _, hk3⟩
      exact ⟨k, Nat.zero_le _, hk1, hk3⟩

theorem toNat_toUInt8 (n : Nat) : (n.toUInt8).toNat = n % 256 := by
  simp [Nat.toUInt8, UInt8.ofNat, UInt8.toNat, BitVec.toNat_ofNat]

theorem u8_lt (a b : UInt8) : a < b ↔ a.toNat < b.toNat := by
  rw [UInt8.lt_def, BitVec.lt_def]
  rfl

theorem u8_le (a b : UInt8) : a ≤ b ↔ a.toNat ≤ b.toNat := by
  rw [UInt8.le_def, BitVec.le_def]
  rfl

theorem isCont_iff (b : UInt8) : isCont b = true ↔ 128 ≤ b.toNat ∧ b.toNat ≤ 191 := by
  unfold isCont
  rw [decide_eq_true_iff, u8_le, u8_le]
  rfl

theorem decodeRune_encodeRune (r : Nat) (hv : r.isValidChar) (rest : List UInt8) :
    decodeRune (encodeRune r ++ rest) = (r, (encodeRune r).length) := by
  unfold Nat.isValidChar at hv
  unfold encodeRune
  by_cases h1 : r ≤ 0x7F
  · simp only [h1, if_true, List.singleton_append, List.length_singleton]
    unfold decodeRune
    have : r.toUInt8 < 0x80 := by
      rw [u8_lt, toNat_toUInt8]
      show r % 256 < 128
      omega
    simp only [this, if_true, toNat_toUInt8]
    congr 1
    omega
  · have hs : UInt8.size = 256 := rfl
    by_cases h2 : r ≤ 0x7FF
    · simp only [h1, h2, if_true, if_false, List.cons_append, List.nil_append, List.length_cons,
        List.length_nil]
      unfold decodeRune
      simp only [u8_lt, u8_le, isCont_iff, toNat_toUInt8, UInt8.toNat_ofNat, hs]
      rw [if_neg (by omega), if_pos (by omega), if_pos (by omega)]
      simp only [Prod.mk.injEq, and_true]
      omega
    · have h3 : ¬ (0x10FFFF < r ∨ (0xD800 ≤ r ∧ r ≤ 0xDFFF)) := by omega
      by_cases h4 : r ≤ 0xFFFF
      · simp only [h1, h2, h3, h4, if_true, if_false, List.cons_append, List.nil_append,
          List.length_cons, List.length_nil]
        unfold decodeRune
        simp only [u8_lt, u8_le, isCont_iff, toNat_toUInt8, UInt8.toNat_ofNat, hs]
        rw [if_neg (by omega), if_neg (by omega), if_pos (by omega), if_pos (by omega)]
        simp only [Prod.mk.injEq, and_true]
        omega
      · simp only [h1, h2, h3, h4, if_true, if_false, List.cons_append, List.nil_append,
          List.length_cons, List.length_nil]
        unfold decodeRune
        simp only [u8_lt, u8_le, isCont_iff, toNat_toUInt8, UInt8.toNat_ofNat, hs]
        rw [if_neg (by omega), if_neg (by omega), if_neg (by omega), if_pos (by omega),
          if_pos (by omega)]
        simp only [Prod.mk.injEq, and_true]
        omega


theorem encodeRune_shape (r : Nat) :
    ∃ b tl, encodeRune r = b :: tl ∧ isCont b = false ∧ ∀ c ∈ tl, isCont c = true := by
  have hs : UInt8.size = 256 := rfl
  have hnc : ∀ b : UInt8, isCont b = false ↔ ¬ (128 ≤ b.toNat ∧ b.toNat ≤ 191) := by
    intro b
    rw [← isCont_iff]
    simp
  unfold encodeRune
  by_cases h1 : r ≤ 0x7F
  · simp only [h1, if_true]
    refine ⟨_, _, rfl, ?_, by simp⟩
    rw [hnc, toNat_toUInt8]
    omega
  · by_cases h2 : r ≤ 0x7FF
    · simp only [h1, h2, if_true, if_false]
      refine ⟨_, _, rfl, ?_, ?_⟩
      · rw [hnc, toNat_toUInt8]
        omega
      · intro c hc
        simp only [List.mem_singleton] at hc
        rw [hc, isCont_iff, toNat_toUInt8]
        omega
    · by_cases h3 : 0x10FFFF < r ∨ (0xD800 ≤ r ∧ r ≤ 0xDFFF)
      · simp only [h1, h2, h3, if_true, if_false]
        refine ⟨_, _, rfl, by decide, ?_⟩
        intro c hc
        simp only [List.mem_cons, List.mem_singleton, List.not_mem_nil, or_false] at hc
        rcases hc with hc | hc <;> rw [hc] <;> decide
      · by_cases h4 : r ≤ 0xFFFF
        · simp only [h1, h2, h3, h4, if_true, if_false]
          refine ⟨_, _, rfl, ?_, ?_⟩
          · rw [hnc, toNat_toUInt8]
            omega
          · intro c hc
            simp only [List.mem_cons, List.mem_singleton, List.not_mem_nil, or_false] at hc
            rcases hc with hc | hc <;> rw [hc, isCont_iff, toNat_toUInt8] <;> omega
        · simp only [h1, h2, h3, h4, if_true, if_false]
          refine ⟨_, _, rfl, ?_, ?_⟩
          · rw [hnc, toNat_toUInt8]
            omega
          · intro c hc
            simp only [List.mem_cons, List.mem_singleton, List.not_mem_nil, or_false] at hc
            rcases hc with hc | hc | hc <;> rw [hc, isCont_iff, toNat_toUInt8] <;> omega

theorem decodeRune_valid (s : List UInt8) : (decodeRune s).1.isValidChar := by
  have hs : UInt8.size = 256 := rfl
  have hfffd : Nat.isValidChar 0xFFFD := by decide
  unfold decodeRune
  split
  · exact hfffd
  · rename_i b0 rest
    split
    · rename_i h
      rw [u8_lt] at h
      simp only [UInt8.toNat_ofNat, hs] at h
      left
      show b0.toNat < 55296
      omega
    · split
      · split
        · rename_i b1 tl
          dsimp only
          split
          · left
            show b0.toNat % 32 * 64 + b1.toNat % 64 < 55296
            omega
          · exact hfffd
        · exact hfffd
      · split
        · split
          · rename_i b1 b2 tl
            dsimp only
            split
            · rename_i h
              obtain ⟨_, _, _, h⟩ := h
              show Nat.isValidChar (b0.toNat % 16 * 4096 + b1.toNat % 64 * 64 + b2.toNat % 64)
              unfold Nat.isValidChar
              omega
            · exact hfffd
          · exact hfffd
        · split
          · split
            · rename_i b1 b2 b3 tl
              dsimp only
              split
              · rename_i h
                obtain ⟨_, _, _, h1, h2⟩ := h
                show Nat.isValidChar (b0.toNat % 8 * 262144 + b1.toNat % 64 * 4096
                  + b2.toNat % 64 * 64 + b3.toNat % 64)
                unfold Nat.isValidChar
                omega
              · exact hfffd
            · exact hfffd
          · exact hfffd

theorem decodeRunes_valid : ∀ (fuel : Nat) (s : List UInt8), ∀ r ∈ decodeRunes fuel s,
    r.isValidChar := by
  intro fuel
  induction fuel with
  | zero => intro s r hr; simp [decodeRunes] at hr
  | succ fuel ih =>
    intro s r hr
    cases s with
    | nil => simp [decodeRunes] at hr
    | cons b rest =>
      simp only [decodeRunes, List.mem_cons] at hr
      rcases hr with hr | hr
      · rw [hr]
        exact decodeRune_valid _
      · exact ih _ r hr

theorem decodeRunes_ne_nil (s : List UInt8) (h : s ≠ []) : decodeRunes s.length s ≠ [] := by
  cases s with
  | nil => exact absurd rfl h
  | cons b rest => simp [decodeRunes]

theorem toNat_ofNat_valid (n : Nat) (h : n.isValidChar) : (Char.ofNat n).toNat = n := by
  unfold Char.ofNat
  rw [dif_pos h]
  rfl

theorem toLower_ofNat (n : Nat) (h : n.isValidChar) :
    (Char.ofNat n).toLower
      = Char.ofNat (if 0x41 ≤ n ∧ n ≤ 0x5A then n + 0x61 - 0x41 else n) := by
  unfold Char.toLower
  simp only [toNat_ofNat_valid n h, ge_iff_le]
  split <;> rfl

theorem lower_valid (n : Nat) (h : n.isValidChar) :
    (if 0x41 ≤ n ∧ n ≤ 0x5A then n + 0x61 - 0x41 else n).isValidChar := by
  unfold Nat.isValidChar at *
  split <;> omega

/-- The lower-cased runes of a string, as `toLowerString` collects them in
`result`. -/
theorem lowered_valid (s : List UInt8) :
    ∀ r ∈ (decodeRunes s.length s).map
        (fun r => if 0x41 ≤ r ∧ r ≤ 0x5A then r + 0x61 - 0x41 else r),
      r.isValidChar := by
  intro r hr
  obtain ⟨r', hr', rfl⟩ := List.mem_map.mp hr
  exact lower_valid r' (decodeRunes_valid _ _ r' hr')

theorem encoded_prefix : ∀ (q t : List Nat) (x : List UInt8),
    (∀ r ∈ q, r.isValidChar) → (∀ r ∈ t, r.isValidChar) →
    q.flatMap encodeRune ++ x = t.flatMap encodeRune → ∃ t2, t = q ++ t2 := by
  intro q
  induction q with
  | nil => intro t _ _ _ _; exact ⟨t, rfl⟩
  | cons a q ih =>
    intro t x hq ht h
    cases t with
    | nil =>
      obtain ⟨b, tl, hb, _⟩ := encodeRune_shape a
      simp [List.flatMap_cons, hb] at h
    | cons c t =>
      simp only [List.flatMap_cons, List.append_assoc] at h
      have ha := decodeRune_encodeRune a (hq a (List.mem_cons_self _ _))
        (q.flatMap encodeRune ++ x)
      have hc := decodeRune_encodeRune c (ht c (List.mem_cons_self _ _)) (t.flatMap encodeRune)
      rw [h, hc] at ha
      have hac : c = a := (Prod.mk.inj ha).1
      subst hac
      have h' := List.append_cancel_left h
      obtain ⟨t2, ht2⟩ := ih t x (fun r hr => hq r (List.mem_cons_of_mem _ hr))
        (fun r hr => ht r (List.mem_cons_of_mem _ hr)) h'
      exact ⟨t2, by rw [ht2]; rfl⟩

theorem cont_tail_split : ∀ (tl pre rest R : List UInt8) (lead : UInt8),
    (∀ c ∈ tl, isCont c = true) → isCont lead = false →
    tl ++ R = pre ++ lead :: rest → ∃ pre2, pre = tl ++ pre2 ∧ R = pre2 ++ lead :: rest := by
  intro tl
  induction tl with
  | nil => intro pre rest R lead _ _ h; exact ⟨pre, rfl, h⟩
  | cons c tl ih =>
    intro pre rest R lead hc hl h
    cases pre with
    | nil =>
      simp only [List.cons_append, List.nil_append, List.cons.injEq] at h
      have := hc c (List.mem_cons_self _ _)
      rw [h.1, hl] at this
      cases this
    | cons p pre =>
      simp only [List.cons_append, List.cons.injEq] at h
      obtain ⟨pre2, h1, h2⟩ := ih pre rest R lead
        (fun c hc' => hc c (List.mem_cons_of_mem _ hc')) hl h.2
      exact ⟨pre2, by rw [h.1, h1]; rfl, h2⟩

/-- UTF-8 is self-synchronising: where the bytes of the runes `q` (at least
one) stand in the bytes of the runes `t`, the runes `q` stand in `t`. -/
theorem encoded_occurs : ∀ (t q : List Nat) (pre post : List UInt8),
    q ≠ [] → (∀ r ∈ q, r.isValidChar) → (∀ r ∈ t, r.isValidChar) →
    t.flatMap encodeRune = pre ++ q.flatMap encodeRune ++ post →
    ∃ t1 t2, t = t1 ++ q ++ t2 := by
  intro t
  induction t with
  | nil =>
    intro q pre post hne _ _ h
    cases q with
    | nil => exact absurd rfl hne
    | cons a q =>
      obtain ⟨b, tl, hb, _⟩ := encodeRune_shape a
      simp [List.flatMap_cons, hb] at h
  | cons c t ih =>
    intro q pre post hne hq ht h
    cases pre with
    | nil =>
      obtain ⟨t2, ht2⟩ := encoded_prefix q (c :: t) post hq ht (by simpa using h.symm)
      exact ⟨[], t2, by simpa using ht2⟩
    | cons p pre =>
      cases q with
      | nil => exact absurd rfl hne
      | cons a q =>
        obtain ⟨b, tl, hb, hbl, htl⟩ := encodeRune_shape c
        obtain ⟨lead, tl', hlead, hl, _⟩ := encodeRune_shape a
        simp only [List.flatMap_cons, hb, hlead, List.cons_append, List.append_assoc,
          List.cons.injEq] at h
        obtain ⟨pre2, _, h2⟩ := cont_tail_split tl pre _ _ lead htl hl h.2
        obtain ⟨t1, t2, h12⟩ := ih (a :: q) pre2 post hne hq
          (fun r hr => ht r (List.mem_cons_of_mem _ hr))
          (by simp only [List.flatMap_cons, hlead, List.cons_append, List.append_assoc]
              exact h2)
        exact ⟨c :: t1, t2, by rw [h12]; rfl⟩

theorem map_inj_on {α β : Type} (f : α → β) : ∀ (l1 l2 : List α),
    (∀ a ∈ l1, ∀ b ∈ l2, f a = f b → a = b) → l1.map f = l2.map f → l1 = l2 := by
  intro l1
  induction l1 with
  | nil =>
    intro l2 _ h
    cases l2 with
    | nil => rfl
    | cons b l2 => simp at h
  | cons a l1 ih =>
    intro l2 hinj h
    cases l2 with
    | nil => simp at h
    | cons b l2 =>
      simp only [List.map_cons, List.cons.injEq] at h
      have hab := hinj a (List.mem_cons_self _ _) b (List.mem_cons_self _ _) h.1
      rw [hab, ih l2 (fun a ha b hb => hinj a (List.mem_cons_of_mem _ ha) b
        (List.mem_cons_of_mem _ hb)) h.2]

theorem occurs_map_iff {α β : Type} (f : α → β) (t q : List α)
    (hinj : ∀ a ∈ t, ∀ b ∈ q, f a = f b → a = b) :
    (∃ pre post, t.map f = pre ++ q.map f ++ post) ↔ ∃ t1 t2, t = t1 ++ q ++ t2 := by
  constructor
  · rintro ⟨pre, post, h⟩
    obtain ⟨l12, l3, ht, h12, _⟩ := List.map_eq_append_iff.mp h
    obtain ⟨l1, l2, ht', _, h2⟩ := List.map_eq_append_iff.mp h12
    have : l2 = q := by
      apply map_inj_on f l2 q _ h2
      intro a ha b hb
      apply hinj a _ b hb
      rw [ht, ht']
      simp [ha]
    exact ⟨l1, l3, by rw [ht, ht', this]⟩
  · rintro ⟨t1, t2, rfl⟩
    exact ⟨t1.map f, t2.map f, by simp⟩

/-- `ContainsString` never panics, and for a query that is not empty it tells
whether the lower-cased runes of the query stand one after the other among the
lower-cased runes of the text; the runes are those a `range` over the string
visits, and only the runes `A` to `Z` are changed. -/
theorem ContainsString_runes (text query : List UInt8) :
    ∃ b, ContainsString text query = some b ∧
      (b = true ↔ query ≠ [] ∧ ∃ pre post,
        (decodeRunes text.length text).map
            (fun r => if 0x41 ≤ r ∧ r ≤ 0x5A then r + 0x61 - 0x41 else r)
          = pre ++ (decodeRunes query.length query).map
            (fun r => if 0x41 ≤ r ∧ r ≤ 0x5A then r + 0x61 - 0x41 else r) ++ post) := by
  unfold ContainsString
  by_cases hq : query = []
  · subst hq
    exact ⟨false, by simp, by simp⟩
  · have hlen : ¬ query.length = 0 := fun h => hq (List.length_eq_zero.mp h)
    simp only [hlen, if_false]
    obtain ⟨b, hb, hiff⟩ := containsSubstring_eq (toLowerString text) (toLowerString query)
    refine ⟨b, hb, hiff.trans ?_⟩
    have hvt := lowered_valid text
    have hvq := lowered_valid query
    have hne : (decodeRunes query.length query).map
        (fun r => if 0x41 ≤ r ∧ r ≤ 0x5A then r + 0x61 - 0x41 else r) ≠ [] := by
      intro h
      exact decodeRunes_ne_nil query hq (List.map_eq_nil_iff.mp h)
    unfold toLowerString
    constructor
    · rintro ⟨pre, post, h⟩
      exact ⟨hq, encoded_occurs _ _ pre post hne hvq hvt h⟩
    · rintro ⟨_, t1, t2, h⟩
      exact ⟨t1.flatMap encodeRune, t2.flatMap encodeRune, by
        rw [h, List.flatMap_append, List.flatMap_append]⟩

/-- A `range` over the encoding of valid runes visits these runes. -/
theorem decodeRunes_encoded : ∀ (rs : List Nat) (fuel : Nat), (∀ r ∈ rs, r.isValidChar) →
    (rs.flatMap encodeRune).length ≤ fuel → decodeRunes fuel (rs.flatMap encodeRune) = rs := by
  intro rs
  induction rs with
  | nil =>
    intro fuel _ _
    cases fuel <;> rfl
  | cons r rs ih =>
    intro fuel hv hlen
    obtain ⟨b, tl, hb, _⟩ := encodeRune_shape r
    have hdec := decodeRune_encodeRune r (hv r (List.mem_cons_self _ _)) (rs.flatMap encodeRune)
    rw [List.flatMap_cons] at hlen ⊢
    rw [List.length_append] at hlen
    cases fuel with
    | zero =>
      rw [hb] at hlen
      simp at hlen
    | succ fuel =>
      rw [hb] at hdec hlen ⊢
      rw [List.cons_append] at hdec ⊢
      unfold decodeRunes
      rw [hdec]
      simp only [List.length_cons] at hlen ⊢
      have hdrop : (b :: (tl ++ rs.flatMap encodeRune)).drop (tl.length + 1)
          = rs.flatMap encodeRune := by
        rw [List.drop_succ_cons, List.drop_left]
      rw [hdrop, ih fuel (fun x hx => hv x (List.mem_cons_of_mem _ hx)) (by omega)]

theorem utf8_eq (t : String) : utf8 t = (t.data.map Char.toNat).flatMap encodeRune := by
  unfold utf8
  induction t.data with
  | nil => rfl
  | cons c l ih => simp [List.flatMap_cons, ih]

/-- A `range` over the bytes of a text visits the characters of the text. -/
theorem decodeRunes_utf8 (t : String) :
    decodeRunes (utf8 t).length (utf8 t) = t.data.map Char.toNat := by
  rw [utf8_eq]
  apply decodeRunes_encoded _ _ _ (le_refl _)
  intro r hr
  obtain ⟨c, _, rfl⟩ := List.mem_map.mp hr
  exact c.valid

theorem utf8_eq_nil (t : String) : utf8 t = [] ↔ t.data = [] := by
  constructor
  · intro h
    cases hd : t.data with
    | nil => rfl
    | cons c l =>
      unfold utf8 at h
      rw [hd, List.flatMap_cons] at h
      obtain ⟨b, tl, hb, _⟩ := encodeRune_shape c.toNat
      rw [hb] at h
      simp at h
  · intro h
    unfold utf8
    rw [h]
    rfl

theorem char_toNat_inj (a b : Char) (h : a.toNat = b.toNat) : a = b := by
  have := congrArg Char.ofNat h
  rwa [Char.ofNat_toNat, Char.ofNat_toNat] at this

theorem toLower_toNat (c : Char) :
    c.toLower.toNat = if 0x41 ≤ c.toNat ∧ c.toNat ≤ 0x5A then c.toNat + 0x61 - 0x41 else c.toNat := by
  have h := toLower_ofNat c.toNat c.valid
  rw [Char.ofNat_toNat] at h
  rw [h, toNat_ofNat_valid _ (lower_valid c.toNat c.valid)]

/-- On the bytes of two texts `ContainsString` is true exactly when the query
is not empty and its characters, `A` to `Z` put in lower case and every other
character as it is, stand one after the other in the text treated alike. -/
theorem ContainsString_utf8 (t q : String) :
    ContainsString (utf8 t) (utf8 q) = some true ↔
      q.data ≠ [] ∧ ∃ pre post,
        t.data.map Char.toLower = pre ++ q.data.map Char.toLower ++ post := by
  obtain ⟨b, hb, hiff⟩ := ContainsString_runes (utf8 t) (utf8 q)
  have hl : ∀ l : List Char, (l.map Char.toNat).map
      (fun r => if 0x41 ≤ r ∧ r ≤ 0x5A then r + 0x61 - 0x41 else r)
      = (l.map Char.toLower).map Char.toNat := by
    intro l
    rw [List.map_map, List.map_map]
    apply List.map_congr_left
    intro c _
    exact (toLower_toNat c).symm
  rw [decodeRunes_utf8, decodeRunes_utf8, hl, hl,
    occurs_map_iff Char.toNat _ _ (fun a _ b _ h => char_toNat_inj a b h)] at hiff
  rw [hb, Option.some.injEq, hiff, Ne, utf8_eq_nil]

/-- For characters of ASCII, to stand in the text after `A` to `Z` are put in
lower case is to be a substring of the text ignoring case, whatever case
folding is taken for the other characters. -/
theorem ascii_substring_iff (fold : Char → Char) (hfold : FoldsAscii fold) (t q : List Char)
    (ht : ∀ c ∈ t, c.toNat < 128) (hq : ∀ c ∈ q, c.toNat < 128) :
    (∃ pre post, t.map Char.toLower = pre ++ q.map Char.toLower ++ post) ↔
      CaseInsensitiveSubstring fold t q := by
  have hcongr : ∀ l : List Char, (∀ c ∈ l, c.toNat < 128) → l.map fold = l.map Char.toLower :=
    fun l hl => List.map_congr_left (fun c hc => hfold c (hl c hc))
  constructor
  · rintro ⟨pre, post, h⟩
    obtain ⟨l12, l3, ht', h12, _⟩ := List.map_eq_append_iff.mp h
    obtain ⟨l1, l2, ht'', _, h2⟩ := List.map_eq_append_iff.mp h12
    refine ⟨l1, l2, l3, by rw [ht', ht''], ?_⟩
    rw [hcongr l2 (fun c hc => ht c (by rw [ht', ht'']; simp [hc])), hcongr q hq, h2]
  · rintro ⟨pre, mid, post, h, hm⟩
    refine ⟨pre.map Char.toLower, post.map Char.toLower, ?_⟩
    rw [hcongr mid (fun c hc => ht c (by rw [h]; simp [hc])), hcongr q hq] at hm
    rw [h, List.map_append, List.map_append, hm]

/-- Whatever case folding treats Ä and ä as one letter, "äpfel" is a substring
of "ÄPFEL" ignoring case. -/
theorem apfel_ignoring_case (fold : Char → Char) (hfold : FoldsAscii fold)
    (h : fold 'Ä' = fold 'ä') :
    CaseInsensitiveSubstring fold "ÄPFEL".data "äpfel".data := by
  refine ⟨[], "ÄPFEL".data, [], rfl, ?_⟩
  show [fold 'Ä', fold 'P', fold 'F', fold 'E', fold 'L']
    = [fold 'ä', fold 'p', fold 'f', fold 'e', fold 'l']
  rw [h, hfold 'P' (by decide), hfold 'F' (by decide), hfold 'E' (by decide),
    hfold 'L' (by decide), hfold 'p' (by decide), hfold 'f' (by decide),
    hfold 'e' (by decide), hfold 'l' (by decide)]
  rfl

theorem foldLatin1_ascii : FoldsAscii foldLatin1 := by
  intro c hc
  unfold foldLatin1
  rw [if_neg (by omega)]

theorem isParticipant_iff (s : MemoryStore) (u : String) (m : Message) :
    isParticipant s u m = true ↔
      (m.SenderID = u ∨ (m.ConversationType = ConversationTypeOneToOne ∧ m.DestinationID = u) ∨
        (m.ConversationType = ConversationTypeGroup ∧
          IsGroupMember s m.DestinationID u = true)) := by
  unfold isParticipant
  by_cases h1 : m.SenderID = u
  · simp [h1]
  · by_cases h2 : m.ConversationType = ConversationTypeOneToOne ∧ m.DestinationID = u
    · simp [h1, h2]
    · by_cases h3 : m.ConversationType = ConversationTypeGroup
      · rw [if_neg h1, if_neg h2, if_pos h3]
        constructor
        · exact fun h => Or.inr (Or.inr ⟨h3, h⟩)
        · rintro (h | h | h)
          · exact absurd h h1
          · exact absurd h h2
          · exact h.2
      · rw [if_neg h1, if_neg h2, if_neg h3]
        constructor
        · exact fun h => (by cases h)
        · rintro (h | h | h)
          · exact absurd h h1
          · exact absurd h h2
          · exact absurd h.1 h3

theorem searchSlice_eq (s : MemoryStore) (u : String) (q : List UInt8) :
    ∀ l : List Message, ∃ res, searchSlice s u q l = some res ∧
      ∀ m, m ∈ res ↔ m ∈ l ∧ isParticipant s u m = true ∧
        ContainsString m.MessageText q = some true := by
  intro l
  induction l with
  | nil => exact ⟨[], rfl, by simp⟩
  | cons a l ih =>
    obtain ⟨res, hres, hmem⟩ := ih
    unfold searchSlice
    by_cases hp : isParticipant s u a = true
    · obtain ⟨b, hb, _⟩ := ContainsString_runes a.MessageText q
      simp only [hp, if_true, hb, hres, Option.map_some']
      cases b with
      | true =>
        refine ⟨a :: res, rfl, fun m => ?_⟩
        simp only [List.mem_cons, hmem m]
        constructor
        · rintro (h | h)
          · rw [h]
            exact ⟨Or.inl rfl, hp, hb⟩
          · exact ⟨Or.inr h.1, h.2⟩
        · rintro ⟨h | h, h2⟩
          · exact Or.inl h
          · exact Or.inr ⟨h, h2⟩
      | false =>
        refine ⟨res, rfl, fun m => ?_⟩
        have hcis : ¬ ContainsString a.MessageText q = some true := by
          rw [hb]
          simp
        simp only [List.mem_cons, hmem m]
        constructor
        · rintro ⟨h, h2⟩
          exact ⟨Or.inr h, h2⟩
        · rintro ⟨h | h, h2⟩
          · rw [h] at h2
            exact absurd h2.2 hcis
          · exact ⟨h, h2⟩
    · simp only [hp, if_false, hres]
      refine ⟨res, rfl, fun m => ?_⟩
      simp only [List.mem_cons, hmem m]
      constructor
      · rintro ⟨h, h2⟩
        exact ⟨Or.inr h, h2⟩
      · rintro ⟨h | h, h2⟩
        · rw [h] at h2
          exact absurd h2.1 hp
        · exact ⟨h, h2⟩

theorem searchSlices_eq (s : MemoryStore) (u : String) (q : List UInt8) :
    ∀ entries : List (String × List Message), ∃ res, searchSlices s u q entries = some res ∧
      ∀ m, m ∈ res ↔ (∃ e ∈ entries, m ∈ e.2) ∧ isParticipant s u m = true ∧
        ContainsString m.MessageText q = some true := by
  intro entries
  induction entries with
  | nil => exact ⟨[], rfl, by simp⟩
  | cons e entries ih =>
    obtain ⟨k, msgs⟩ := e
    obtain ⟨res, hres, hmem⟩ := ih
    obtain ⟨r, hr, hrm⟩ := searchSlice_eq s u q msgs
    refine ⟨r ++ res, by simp only [searchSlices, hr, hres, Option.map_some'], fun m => ?_⟩
    simp only [List.mem_append, hrm m, hmem m, List.mem_cons, exists_eq_or_imp]
    constructor
    · rintro (⟨h, h2⟩ | ⟨h, h2⟩)
      · exact ⟨Or.inl h, h2⟩
      · exact ⟨Or.inr h, h2⟩
    · rintro ⟨h | h, h2⟩
      · exact Or.inl ⟨h, h2⟩
      · exact Or.inr ⟨h, h2⟩

/-- `SearchMessages` returns a list and no error; a message is in the list
exactly when it is stored, the user is part of its conversation and
`ContainsString` finds the query in its text. -/
theorem SearchMessages_eq (s : MemoryStore) (o : MapOrder (List Message)) (u : String)
    (q : List UInt8) :
    ∃ res, SearchMessages s o u q = some (res, none) ∧
      ∀ m, m ∈ res ↔
        (∃ e ∈ s.messages, m ∈ e.2) ∧
        (m.SenderID = u ∨
          (m.ConversationType = ConversationTypeOneToOne ∧ m.DestinationID = u) ∨
          (m.ConversationType = ConversationTypeGroup ∧
            IsGroupMember s m.DestinationID u = true)) ∧
        ContainsString m.MessageText q = some true := by
  obtain ⟨res, hres, hmem⟩ := searchSlices_eq s u q (o.visit s.messages)
  have hst : ∀ m, (∃ e ∈ o.visit s.messages, m ∈ e.2) ↔ ∃ e ∈ s.messages, m ∈ e.2 := by
    intro m
    constructor
    · rintro ⟨e, he, hm⟩
      exact ⟨e, (o.perm _).mem_iff.mp he, hm⟩
    · rintro ⟨e, he, hm⟩
      exact ⟨e, (o.perm _).mem_iff.mpr he, hm⟩
  refine ⟨res, by simp only [SearchMessages, hres, Option.map_some'], fun m => ?_⟩
  rw [hmem m, hst m, isParticipant_iff]

/-- C11, on the code.  Let `fold` be a case folding that treats ASCII as ASCII
does.  For every store, order of the map, user `u` and query, `SearchMessages`
returns a list and no error, the list is empty for the empty query, and a
message is in the list exactly when it is stored, `u` is its sender or it is
one-to-one with the destination `u` or it is of the group kind and `u` is in
the membership set of its destination, and `ContainsString` finds the query in
its text; so a stored one-to-one message in whose text `ContainsString` finds
the query is returned exactly to its sender and to its destination.  For a
query and a text of ASCII characters `ContainsString` finds the query exactly
when the text contains it as a case-insensitive substring, and the claim
holds.  It fails beyond ASCII: user1 has sent user2 the message "ÄPFEL"; the
text contains "äpfel" ignoring case whenever Ä and ä are one letter, and the
search of user1, and of user2, for "äpfel" returns nothing. -/
theorem SearchMessages_ascii_letters_only (fold : Char → Char) (hfold : FoldsAscii fold) :
    (∀ (s : MemoryStore) (o : MapOrder (List Message)) (u : String) (q : List UInt8),
      ∃ res, SearchMessages s o u q = some (res, none) ∧
        (q = [] → res = []) ∧
        (∀ m, m ∈ res ↔
          (∃ e ∈ s.messages, m ∈ e.2) ∧
          (m.SenderID = u ∨
            (m.ConversationType = ConversationTypeOneToOne ∧ m.DestinationID = u) ∨
            (m.ConversationType = ConversationTypeGroup ∧
              IsGroupMember s m.DestinationID u = true)) ∧
          ContainsString m.MessageText q = some true) ∧
        (∀ m, (∃ e ∈ s.messages, m ∈ e.2) →
          m.ConversationType = ConversationTypeOneToOne →
          ContainsString m.MessageText q = some true →
          (m ∈ res ↔ u = m.SenderID ∨ u = m.DestinationID))) ∧
    (∀ (s : MemoryStore) (o : MapOrder (List Message)) (u : String) (q : String),
      IsAscii q → q.data ≠ [] →
      ∃ res, SearchMessages s o u (utf8 q) = some (res, none) ∧
        ∀ (m : Message) (t : String), m.MessageText = utf8 t → IsAscii t →
          (m ∈ res ↔
            (∃ e ∈ s.messages, m ∈ e.2) ∧
            (m.SenderID = u ∨
              (m.ConversationType = ConversationTypeOneToOne ∧ m.DestinationID = u) ∨
              (m.ConversationType = ConversationTypeGroup ∧
                IsGroupMember s m.DestinationID u = true)) ∧
            CaseInsensitiveSubstring fold t.data q.data)) ∧
    apfelStore.messages = [("user2", [apfelMessage])] ∧
    (fold 'Ä' = fold 'ä' → CaseInsensitiveSubstring fold "ÄPFEL".data "äpfel".data) ∧
    (∀ o, SearchMessages apfelStore o "user1" (utf8 "äpfel") = some ([], none)) ∧
    (∀ o, SearchMessages apfelStore o "user2" (utf8 "äpfel") = some ([], none)) := by
  have hnone : ∀ o u, SearchMessages apfelStore o u (utf8 "äpfel") = some ([], none) := by
    intro o u
    obtain ⟨res, hres, hmem⟩ := SearchMessages_eq apfelStore o u (utf8 "äpfel")
    cases hr : res with
    | nil => rw [hres, hr]
    | cons a rest =>
      obtain ⟨⟨e, he, ha⟩, _, hc⟩ := (hmem a).mp (by rw [hr]; exact List.mem_cons_self _ _)
      have hst : apfelStore.messages = [("user2", [apfelMessage])] := by decide
      rw [hst] at he
      simp only [List.mem_singleton] at he
      subst he
      simp only [List.mem_singleton] at ha
      subst ha
      have hf : ContainsString (utf8 "ÄPFEL") (utf8 "äpfel") = some false := by decide
      have hc' : ContainsString (utf8 "ÄPFEL") (utf8 "äpfel") = some true := hc
      rw [hf] at hc'
      cases hc'
  refine ⟨?_, ?_, by decide, apfel_ignoring_case fold hfold, fun o => hnone o _,
    fun o => hnone o _⟩
  · intro s o u q
    obtain ⟨res, hres, hmem⟩ := SearchMessages_eq s o u q
    refine ⟨res, hres, ?_, hmem, ?_⟩
    · intro hq
      cases hr : res with
      | nil => rfl
      | cons a rest =>
        have := (hmem a).mp (by rw [hr]; exact List.mem_cons_self _ _)
        rw [hq] at this
        simp [ContainsString] at this
    · intro m hstored hkind hfound
      rw [hmem m]
      constructor
      · rintro ⟨_, h | h | h, _⟩
        · exact Or.inl h.symm
        · exact Or.inr h.2.symm
        · rw [hkind] at h
          exact absurd h.1 (by decide)
      · rintro (h | h)
        · exact ⟨hstored, Or.inl h.symm, hfound⟩
        · exact ⟨hstored, Or.inr (Or.inl ⟨hkind, h.symm⟩), hfound⟩
  · intro s o u q hq hne
    obtain ⟨res, hres, hmem⟩ := SearchMessages_eq s o u (utf8 q)
    refine ⟨res, hres, fun m t htext ht => ?_⟩
    rw [hmem m, htext, ContainsString_utf8,
      ascii_substring_iff fold hfold t.data q.data ht hq]
    constructor
    · rintro ⟨h1, h2, _, h3⟩
      exact ⟨h1, h2, h3⟩
    · rintro ⟨h1, h2, h3⟩
      exact ⟨h1, h2, hne, h3⟩

/-- C11 at the inputs of the scenario, with the case folding `foldLatin1`:
user1, user2 and user3 exist, m1 "Hello Bob!" is one-to-one from user1 to
user2.  The query "hello" returns m1 to user1 and to user2 and nothing to
user3; the empty query returns nothing.  In the store with the message
"ÄPFEL" the query "äpfel" returns nothing to user1, although Ä and ä are one
letter for `foldLatin1` and the text contains the query ignoring case. -/
theorem SearchMessages_ascii_letters_only_witness :
    FoldsAscii foldLatin1 ∧
    (∃ res, SearchMessages threeUsers (MapOrder.backwards _) "user3" (utf8 "hello")
        = some (res, none) ∧
      ∀ (m : Message) (t : String), m.MessageText = utf8 t → IsAscii t →
        (m ∈ res ↔
          (∃ e ∈ threeUsers.messages, m ∈ e.2) ∧
          (m.SenderID = "user3" ∨
            (m.ConversationType = ConversationTypeOneToOne ∧ m.DestinationID = "user3") ∨
            (m.ConversationType = ConversationTypeGroup ∧
              IsGroupMember threeUsers m.DestinationID "user3" = true)) ∧
          CaseInsensitiveSubstring foldLatin1 t.data "hello".data)) ∧
    CaseInsensitiveSubstring foldLatin1 "Hello Bob!".data "hello".data ∧
    (SearchMessages threeUsers (MapOrder.asStored _) "user1" (utf8 "hello")).map
      (fun r => (r.1.map (fun m => m.ID), r.2)) = some (["m1"], none) ∧
    (SearchMessages threeUsers (MapOrder.asStored _) "user2" (utf8 "hello")).map
      (fun r => (r.1.map (fun m => m.ID), r.2)) = some (["m1"], none) ∧
    SearchMessages threeUsers (MapOrder.asStored _) "user3" (utf8 "hello") = some ([], none) ∧
    SearchMessages threeUsers (MapOrder.asStored _) "user1" [] = some ([], none) ∧
    foldLatin1 'Ä' = foldLatin1 'ä' ∧
    CaseInsensitiveSubstring foldLatin1 "ÄPFEL".data "äpfel".data ∧
    SearchMessages apfelStore (MapOrder.asStored _) "user1" (utf8 "äpfel") = some ([], none) :=
  ⟨foldLatin1_ascii,
    (SearchMessages_ascii_letters_only foldLatin1 foldLatin1_ascii).2.1 threeUsers
      (MapOrder.backwards _) "user3" "hello" (by unfold IsAscii; decide) (by decide),
    ⟨[], "Hello".data, " Bob!".data, rfl, by decide⟩, by decide, by decide, by decide,
    by decide, by decide,
    (SearchMessages_ascii_letters_only foldLatin1 foldLatin1_ascii).2.2.2.1 (by decide),
    by decide⟩

/-! ## The handlers and the order of the statuses (C12) -/

theorem get?_writeStatus (m k : String) (st : MessageStatus) (t : Nat)
    (ms : List (String × List Message)) (d : String) :
    get? (writeStatus m st t k ms) d
      = (get? ms d).map (fun l => if d = k then setStatusIn m st t l else l) := by
  induction ms with
  | nil => rfl
  | cons e ms ih =>
    obtain ⟨k', l⟩ := e
    have hw : writeStatus m st t k ((k', l) :: ms)
        = (if k' = k then (k', setStatusIn m st t l) else (k', l)) :: writeStatus m st t k ms :=
      rfl
    rw [hw]
    by_cases hk : k' = k
    · rw [if_pos hk]
      by_cases hd : k' = d
      · simp only [get?, hd, if_true, Option.map_some']
        rw [if_pos (hd.symm.trans hk)]
      · simp only [get?, hd, if_false]
        exact ih
    · rw [if_neg hk]
      by_cases hd : k' = d
      · simp only [get?, hd, if_true, Option.map_some']
        rw [if_neg (fun h => hk (hd.trans h))]
      · simp only [get?, hd, if_false]
        exact ih

theorem setStatusIn_get? (m : String) (st : MessageStatus) (t : Nat) :
    ∀ (l : List Message) (i : Nat) (x : Message), l.get? i = some x →
      (setStatusIn m st t l).get? i = some x ∨
      (x.ID = m ∧ (setStatusIn m st t l).get? i = some { x with Status := st, UpdatedAt := t }) := by
  intro l
  induction l with
  | nil => intro i x h; simp at h
  | cons a l ih =>
    intro i x h
    simp only [setStatusIn]
    by_cases ha : a.ID = m
    · rw [if_pos ha]
      cases i with
      | zero =>
        simp only [List.get?_cons_zero, Option.some.injEq] at h
        subst h
        exact Or.inr ⟨ha, rfl⟩
      | succ i => exact Or.inl (by simpa using h)
    · rw [if_neg ha]
      cases i with
      | zero => exact Or.inl (by simpa using h)
      | succ i =>
        simp only [List.get?_cons_succ] at h ⊢
        exact ih i x h

theorem messageAt_writeStatus (s s' : MemoryStore) (m k : String) (st : MessageStatus) (t : Nat)
    (hs : s'.messages = writeStatus m st t k s.messages) (d : String) (i : Nat) (x : Message)
    (h : messageAt s d i = some x) :
    messageAt s' d i = some x ∨
    (x.ID = m ∧ messageAt s' d i = some { x with Status := st, UpdatedAt := t }) := by
  unfold messageAt at *
  rw [hs, get?_writeStatus]
  cases hg : get? s.messages d with
  | none => simp [hg] at h
  | some l =>
    rw [hg] at h
    simp only [Option.getD_some] at h
    simp only [Option.map_some', Option.getD_some]
    by_cases hd : d = k
    · simp only [hd, if_true]
      exact setStatusIn_get? m st t l i x h
    · simp only [hd, if_false]
      exact Or.inl h

theorem messageAt_append (s s' : MemoryStore) (dest : String) (msg : Message)
    (hs : s'.messages = set s.messages dest ((get? s.messages dest).getD [] ++ [msg]))
    (d : String) (i : Nat) (x : Message) (h : messageAt s d i = some x) :
    messageAt s' d i = some x := by
  unfold messageAt at *
  rw [hs]
  by_cases hd : d = dest
  · subst hd
    rw [get?_set_self]
    simp only [Option.getD_some]
    have hi : i < ((get? s.messages d).getD []).length := by
      by_contra hge
      rw [List.get?_eq_none.mpr (by omega)] at h
      cases h
    rw [List.get?_eq_getElem?] at h ⊢
    rw [List.getElem?_append_left hi]
    exact h
  · rw [get?_set_ne _ _ _ _ hd]
    exact h

theorem messageAt_stored (s : MemoryStore) (d : String) (i : Nat) (x : Message)
    (h : messageAt s d i = some x) : ∃ e ∈ s.messages, x ∈ e.2 := by
  unfold messageAt at h
  cases hg : get? s.messages d with
  | none => simp [hg] at h
  | some l =>
    rw [hg] at h
    exact ⟨(d, l), mem_of_get? _ _ _ hg, List.get?_mem h⟩

theorem UniqueIDs.eq_of_id (s : MemoryStore) (h : UniqueIDs s) (e₁ e₂ : String × List Message)
    (h₁ : e₁ ∈ s.messages) (h₂ : e₂ ∈ s.messages) (x y : Message) (hx : x ∈ e₁.2)
    (hy : y ∈ e₂.2) (hxy : x.ID = y.ID) : x = y := by
  have he := h.same_entry s e₁ e₂ h₁ h₂ x y hx hy hxy
  subst he
  exact List.inj_on_of_nodup_map (h.entry_nodup s e₁ h₁) hx hy hxy

theorem statusRank_le_two (st : MessageStatus) : statusRank st ≤ statusRank StatusRead := by
  unfold statusRank
  split
  · exact le_refl _
  · split <;> simp [StatusRead]

theorem sendStored_store (s : MemoryStore) (trimSpace : List UInt8 → List UInt8)
    (newID : String) (clk : Clock) (o : MapOrder Bool) (senderID : String)
    (req : SendMessageRequest) (convType : ConversationType) :
    (sendStored s trimSpace newID clk o senderID req convType).1
      = (CreateMessage s clk o (newMessage trimSpace newID senderID req convType)).1 := by
  unfold sendStored
  simp only
  split <;> rename_i h <;> rw [h]

theorem SendMessage_store (s : MemoryStore) (trimSpace : List UInt8 → List UInt8)
    (newID : String) (clk : Clock) (o : MapOrder Bool) (auth : String)
    (body : Option SendMessageRequest) :
    (Handler.SendMessage s trimSpace newID clk o auth body).1 = s ∨
    ∃ message, (Handler.SendMessage s trimSpace newID clk o auth body).1
      = (CreateMessage s clk o message).1 := by
  unfold Handler.SendMessage
  by_cases hauth : auth = ""
  · rw [if_pos hauth]
    exact Or.inl rfl
  rw [if_neg hauth]
  cases body with
  | none => exact Or.inl rfl
  | some req =>
    simp only
    by_cases hempty : IsEmpty trimSpace req.Message = true
    · rw [if_pos hempty]
      exact Or.inl rfl
    rw [if_neg hempty]
    by_cases hforb : req.SenderID ≠ "" ∧ req.SenderID ≠ auth
    · rw [if_pos hforb]
      exact Or.inl rfl
    rw [if_neg hforb]
    generalize (if req.SenderID ≠ "" then req.SenderID else auth) = senderID
    cases (GetUser s senderID).2 with
    | some _ => exact Or.inl rfl
    | none =>
      simp only
      cases (GetGroup s req.DestinationID).2 with
      | none =>
        simp only
        by_cases hmem : ¬ IsGroupMember s req.DestinationID senderID = true
        · rw [if_pos hmem]
          exact Or.inl rfl
        · rw [if_neg hmem]
          exact Or.inr ⟨_, sendStored_store _ _ _ _ _ _ _ _⟩
      | some _ =>
        simp only
        cases (GetUser s req.DestinationID).2 with
        | some _ => exact Or.inl rfl
        | none => exact Or.inr ⟨_, sendStored_store _ _ _ _ _ _ _ _⟩

theorem AckDelivered_store (s : MemoryStore) (clk : Clock) (o o' : MapOrder (List Message))
    (auth : String) (body : Option AckDeliveredRequest) :
    (Handler.AckDelivered s clk o o' auth body).1 = s ∨
    ∃ req message, body = some req ∧ GetMessage s o req.MessageID = (some message, none) ∧
      message.Status = StatusSent ∧
      (Handler.AckDelivered s clk o o' auth body).1
        = (UpdateMessageStatus s clk o' req.MessageID StatusDelivered).1 := by
  unfold Handler.AckDelivered
  by_cases hauth : auth = ""
  · rw [if_pos hauth]
    exact Or.inl rfl
  rw [if_neg hauth]
  cases body with
  | none => exact Or.inl rfl
  | some req =>
    simp only
    by_cases hforb : req.UserID ≠ "" ∧ req.UserID ≠ auth
    · rw [if_pos hforb]
      exact Or.inl rfl
    rw [if_neg hforb]
    generalize (if req.UserID ≠ "" then req.UserID else auth) = userID
    cases hget : GetMessage s o req.MessageID with
    | mk fst snd =>
      cases fst with
      | none => exact Or.inl rfl
      | some message =>
        cases snd with
        | some _ => exact Or.inl rfl
        | none =>
          simp only
          by_cases hrec : ¬ isRecipient s message userID = true
          · rw [if_pos hrec]
            exact Or.inl rfl
          rw [if_neg hrec]
          by_cases hsent : message.Status = StatusSent
          · rw [if_pos hsent]
            refine Or.inr ⟨req, message, rfl, hget, hsent, ?_⟩
            split <;> rename_i h <;> rw [h]
          · rw [if_neg hsent]
            exact Or.inl rfl

theorem AckRead_store (s : MemoryStore) (clk : Clock) (o o' : MapOrder (List Message))
    (auth : String) (body : Option AckReadRequest) :
    (Handler.AckRead s clk o o' auth body).1 = s ∨
    ∃ m u, (Handler.AckRead s clk o o' auth body).1 = (CreateMessageRead s clk o' m u).1 := by
  unfold Handler.AckRead
  by_cases hauth : auth = ""
  · rw [if_pos hauth]
    exact Or.inl rfl
  rw [if_neg hauth]
  cases body with
  | none => exact Or.inl rfl
  | some req =>
    simp only
    by_cases hforb : req.UserID ≠ "" ∧ req.UserID ≠ auth
    · rw [if_pos hforb]
      exact Or.inl rfl
    rw [if_neg hforb]
    generalize (if req.UserID ≠ "" then req.UserID else auth) = userID
    cases hget : GetMessage s o req.MessageID with
    | mk fst snd =>
      cases fst with
      | none => exact Or.inl rfl
      | some message =>
        cases snd with
        | some _ => exact Or.inl rfl
        | none =>
          simp only
          by_cases hrec : ¬ isRecipient s message userID = true
          · rw [if_pos hrec]
            exact Or.inl rfl
          rw [if_neg hrec]
          refine Or.inr ⟨req.MessageID, userID, ?_⟩
          split <;> rename_i h <;> rw [h]

theorem handle_status (s : MemoryStore) (huniq : UniqueIDs s) (c : HandlerCall)
    (d : String) (i : Nat) (x : Message) (hx : messageAt s d i = some x) :
    ∃ x', messageAt (handle s c) d i = some x' ∧ msgFixed x' = msgFixed x ∧
      statusRank x.Status ≤ statusRank x'.Status := by
  have hsame : ∀ s' : MemoryStore, s' = s →
      ∃ x', messageAt s' d i = some x' ∧ msgFixed x' = msgFixed x ∧
        statusRank x.Status ≤ statusRank x'.Status := by
    intro s' hs'
    rw [hs']
    exact ⟨x, hx, rfl, le_refl _⟩
  cases c with
  | sendMessage trimSpace newID clk o auth body =>
    rcases SendMessage_store s trimSpace newID clk o auth body with h | ⟨message, h⟩
    · exact hsame _ h
    · refine ⟨x, ?_, rfl, le_refl _⟩
      simp only [handle, h]
      exact messageAt_append s _ message.DestinationID (stampMessage clk message)
        (CreateMessage_frame s clk o message).2.2.2.1 d i x hx
  | ackDelivered clk o o' auth body =>
    rcases AckDelivered_store s clk o o' auth body with h | ⟨req, message, _, hget, hsent, h⟩
    · exact hsame _ h
    · simp only [handle, h]
      cases hk : findKey req.MessageID (o'.visit s.messages) with
      | none =>
        apply hsame
        simp only [UpdateMessageStatus, hk]
      | some k =>
        have hmsgs : (UpdateMessageStatus s clk o' req.MessageID StatusDelivered).1.messages
            = writeStatus req.MessageID StatusDelivered (clk 0) k s.messages := by
          simp only [UpdateMessageStatus, hk]
        rcases messageAt_writeStatus s _ _ k _ _ hmsgs d i x hx with h1 | ⟨hid, h1⟩
        · exact ⟨x, h1, rfl, le_refl _⟩
        · refine ⟨_, h1, rfl, ?_⟩
          have hfind : findMessage req.MessageID (o.visit s.messages) = some message := by
            unfold GetMessage at hget
            split at hget
            · rename_i msg hf
              simp only [Prod.mk.injEq, Option.some.injEq, and_true] at hget
              rw [hf, hget]
            · simp at hget
          obtain ⟨hmid, e, he, hme⟩ := findMessage_some req.MessageID _ message hfind
          obtain ⟨e', he', hxe⟩ := messageAt_stored s d i x hx
          have hxm : x = message :=
            huniq.eq_of_id s e' e he' ((o.perm _).mem_iff.mp he) x message hxe hme
              (hid.trans hmid.symm)
          rw [hxm, hsent]
          show statusRank StatusSent ≤ statusRank StatusDelivered
          decide
  | ackRead clk o o' auth body =>
    rcases AckRead_store s clk o o' auth body with h | ⟨m, u, h⟩
    · exact hsame _ h
    · simp only [handle, h]
      rcases CreateMessageRead_messages_cases s clk o' m u with hm | ⟨k, hm⟩
      · refine ⟨x, ?_, rfl, le_refl _⟩
        unfold messageAt at hx ⊢
        rw [hm]
        exact hx
      · rcases messageAt_writeStatus s _ _ k _ _ hm d i x hx with h1 | ⟨_, h1⟩
        · exact ⟨x, h1, rfl, le_refl _⟩
        · exact ⟨_, h1, rfl, statusRank_le_two _⟩

/-- C12.  Status never moves backward through the handlers.  In a store with
unique message ids, one request to `SendMessage`, `AckDelivered` or `AckRead`
(whatever its arguments, its clock and the orders of the maps) leaves every
stored message at its place in the slice of its destination, with its id,
sender, destination, text, kind and creation time, and with a status whose
rank in SENT < DELIVERED < READ is at least the rank before.  In particular
`AckDelivered` for a message that is DELIVERED or READ leaves the store, and so
the status, as it was. -/
theorem status_never_backward (s : MemoryStore) (huniq : UniqueIDs s) :
    (statusRank StatusSent < statusRank StatusDelivered ∧
      statusRank StatusDelivered < statusRank StatusRead) ∧
    (∀ (c : HandlerCall) (d : String) (i : Nat) (x : Message), messageAt s d i = some x →
      ∃ x', messageAt (handle s c) d i = some x' ∧ msgFixed x' = msgFixed x ∧
        statusRank x.Status ≤ statusRank x'.Status) ∧
    (∀ (clk : Clock) (o o' : MapOrder (List Message)) (auth : String)
      (req : AckDeliveredRequest),
      (∀ e ∈ s.messages, ∀ x ∈ e.2, x.ID = req.MessageID →
        x.Status = StatusDelivered ∨ x.Status = StatusRead) →
      handle s (.ackDelivered clk o o' auth (some req)) = s) := by
  refine ⟨by decide, fun c d i x hx => handle_status s huniq c d i x hx, ?_⟩
  intro clk o o' auth req hall
  rcases AckDelivered_store s clk o o' auth (some req) with h | ⟨req', message, hreq, hget, hsent, _⟩
  · exact h
  · exfalso
    simp only [Option.some.injEq] at hreq
    subst hreq
    have hfind : findMessage req.MessageID (o.visit s.messages) = some message := by
      unfold GetMessage at hget
      split at hget
      · rename_i msg hf
        simp only [Prod.mk.injEq, Option.some.injEq, and_true] at hget
        rw [hf, hget]
      · simp at hget
    obtain ⟨hmid, e, he, hme⟩ := findMessage_some req.MessageID _ message hfind
    rcases hall e ((o.perm _).mem_iff.mp he) message hme hmid with h | h
    · rw [hsent] at h
      exact absurd h (by decide)
    · rw [hsent] at h
      exact absurd h (by decide)

/-- C12 at the input of the scenario: m1 from user1 to user2 is SENT; the
delivery acknowledgement of user2 makes it DELIVERED, the read acknowledgement
READ, and a second delivery acknowledgement leaves it READ; a new message of
user1 leaves m1 as it is. -/
theorem status_never_backward_witness :
    UniqueIDs threeUsers ∧
    (∃ x', messageAt (handle threeUsers ackDeliveredByBob) "user2" 0 = some x' ∧
      msgFixed x' = msgFixed (stampMessage (clockFrom 10) (helloMsg "m1")) ∧
      statusRank (stampMessage (clockFrom 10) (helloMsg "m1")).Status ≤ statusRank x'.Status) ∧
    (messageAt threeUsers "user2" 0).map (fun x => x.Status) = some StatusSent ∧
    (messageAt (handle threeUsers ackDeliveredByBob) "user2" 0).map (fun x => x.Status)
      = some StatusDelivered ∧
    (messageAt (handle (handle threeUsers ackDeliveredByBob) ackReadByBob) "user2" 0).map
      (fun x => x.Status) = some StatusRead ∧
    (messageAt (handle (handle (handle threeUsers ackDeliveredByBob) ackReadByBob)
      ackDeliveredByBob) "user2" 0).map (fun x => x.Status) = some StatusRead ∧
    ((get? (handle (handle threeUsers ackDeliveredByBob) sendHiToBob).messages "user2").getD
      []).map (fun x => (x.ID, x.Status)) = [("m1", StatusDelivered), ("m2", StatusSent)] :=
  ⟨by unfold UniqueIDs; decide,
    (status_never_backward threeUsers (by unfold UniqueIDs; decide)).2.1 ackDeliveredByBob
      "user2" 0 (stampMessage (clockFrom 10) (helloMsg "m1")) (by decide),
    by decide, by decide, by decide, by decide, by decide⟩

/-! ## Unknown cursors and the limit of `GetMessages` (C13, C14, C15) -/

/-- C13.  A non-empty cursor that is the id of no message of the destination's
list falls back to the first page: `GetMessages` returns what it returns for
the empty cursor, for every limit, and for every limit greater than zero that
is an `int` this is a normal return without error, with the same messages and
the same next cursor. -/
theorem GetMessages_unknown_cursor (s : MemoryStore) (dest cursor : String) (limit : Int)
    (hc : cursor ≠ "") (hunknown : ∀ m ∈ (get? s.messages dest).getD [], m.ID ≠ cursor) :
    GetMessages s dest limit cursor = GetMessages s dest limit "" ∧
    (0 < limit → limit ≤ maxInt →
      ∃ page next, GetMessages s dest limit cursor = some (page, next, none) ∧
        GetMessages s dest limit "" = some (page, next, none)) := by
  have heq : GetMessages s dest limit cursor = GetMessages s dest limit "" := by
    cases h : get? s.messages dest with
    | none => simp [GetMessages, h]
    | some msgs =>
      have hstart : cursorStart cursor msgs.reverse 0 = 0 := by
        apply cursorStart_of_not_mem
        intro m hm
        exact hunknown m (by simpa [h] using hm)
      simp [GetMessages, h, hc, hstart]
  refine ⟨heq, ?_⟩
  intro hpos hmax
  rw [heq]
  cases h : get? s.messages dest with
  | none => exact ⟨[], "", by simp [GetMessages, h]⟩
  | some msgs =>
    have hn : ((limit.toNat : Nat) : Int) = limit := Int.toNat_of_nonneg (le_of_lt hpos)
    have := GetMessages_first_page s dest msgs limit.toNat h (by rw [hn]; exact hmax)
    rw [hn] at this
    exact ⟨_, _, this, this⟩

/-- C13 at a concrete input: with m1, m2, m3 stored for user2, the cursor
"m9" names no message, and the page of two messages is the first page, m3 and
m2 with next cursor m1. -/
theorem GetMessages_unknown_cursor_witness :
    (GetMessages threeMessages "user2" 2 "m9" = GetMessages threeMessages "user2" 2 "" ∧
      (0 < (2 : Int) → (2 : Int) ≤ maxInt →
        ∃ page next, GetMessages threeMessages "user2" 2 "m9" = some (page, next, none) ∧
          GetMessages threeMessages "user2" 2 "" = some (page, next, none))) ∧
    (GetMessages threeMessages "user2" 2 "m9").map
        (fun r => (r.1.map (fun m => m.ID), r.2.1)) = some (["m3", "m2"], "m1") :=
  ⟨GetMessages_unknown_cursor threeMessages "user2" "m9" 2 (by decide) (by decide),
    by decide⟩

/-- C14, on the code.  As long as `startIdx + limit` does not exceed the
largest `int`, `GetMessages` returns normally, without error, and the page has
at most `limit` messages.  At the limit `2^63 - 1` the claim fails: with the
one message m1 stored for user2 and the cursor m1, `startIdx` is 1,
`startIdx + limit` wraps to `-2^63`, and the slice expression
`reversed[1:endIdx]` panics.  The handler passes this limit on: the query
parameter `limit=9223372036854775807` is positive, so it is taken as it is. -/
theorem GetMessages_page_bound_until_overflow :
    (∀ (s : MemoryStore) (dest cursor : String) (limit : Nat),
      ((if cursor ≠ "" then cursorStart cursor ((get? s.messages dest).getD []).reverse 0
        else 0 : Nat) : Int) + limit ≤ maxInt →
      ∃ page next, GetMessages s dest limit cursor = some (page, next, none) ∧
        page.length ≤ limit) ∧
    (get? oneMessage.messages "user2").map (fun l => l.map (fun m => m.ID)) = some ["m1"] ∧
    wrapInt (1 + maxInt) = -2 ^ 63 ∧
    GetMessages oneMessage "user2" maxInt "m1" = none ∧
    requestLimit "9223372036854775807" (some maxInt) = maxInt ∧
    Handler.GetMessages oneMessage "user2" "m1" "9223372036854775807" (some maxInt) = none := by
  refine ⟨?_, by decide, by decide, by decide, by decide, by decide⟩
  intro s dest cursor limit hno
  cases h : get? s.messages dest with
  | none => exact ⟨[], "", by simp [GetMessages, h], Nat.zero_le _⟩
  | some msgs =>
    rw [h] at hno
    refine ⟨_, _, GetMessages_of_no_overflow s dest cursor msgs limit h hno, ?_⟩
    simp [List.length_take]

/-- C15 as stated fails: with m1, m2, m3 stored for user2, `GetMessages` with
the limit `-1` panics at the slice expression `reversed[startIdx:endIdx]`
(`endIdx = startIdx - 1`), with the empty cursor and with the cursor m3. -/
theorem GetMessages_negative_limit_panics :
    (get? threeMessages.messages "user2").map (fun l => l.map (fun m => m.ID))
      = some ["m1", "m2", "m3"] ∧
    GetMessages threeMessages "user2" (-1) "" = none ∧
    GetMessages threeMessages "user2" (-1) "m3" = none := by
  decide

/-- C15 as amended.  For every store whose list for the destination is not
longer than the largest `int`, and every cursor: `GetMessages` with the limit
zero returns normally, an empty page and no error; with any limit it returns
normally, the empty page, when the destination has no list; with a negative
limit and a list stored for the destination, empty or not, the slice expression
panics.  The handler never passes a limit that is not positive: it replaces it
by 50. -/
theorem GetMessages_zero_limit (s : MemoryStore) (dest cursor : String)
    (hlen : (((get? s.messages dest).getD []).length : Int) ≤ maxInt) :
    (∃ next, GetMessages s dest 0 cursor = some ([], next, none)) ∧
    (∀ limit, get? s.messages dest = none →
      GetMessages s dest limit cursor = some ([], "", none)) ∧
    (∀ limit, -2 ^ 63 ≤ limit → limit < 0 → get? s.messages dest ≠ none →
      GetMessages s dest limit cursor = none) ∧
    (∀ limitStr atoi, 0 < requestLimit limitStr atoi) := by
  refine ⟨?_, ?_, ?_, ?_⟩
  · cases h : get? s.messages dest with
    | none => exact ⟨"", by simp [GetMessages, h]⟩
    | some msgs =>
      rw [h] at hlen
      have hle := cursorStart_le cursor msgs.reverse 0
      have := GetMessages_of_no_overflow s dest cursor msgs 0 h (by
        simp only [Option.getD_some, List.length_reverse] at hlen hle ⊢
        split
        · push_cast
          omega
        · simp [maxInt])
      simp only [Nat.cast_zero, List.take_zero] at this
      exact ⟨_, this⟩
  · intro limit h
    simp [GetMessages, h]
  · intro limit hmin hneg hsome
    cases h : get? s.messages dest with
    | none => exact absurd h hsome
    | some msgs =>
      rw [h] at hlen
      simp only [Option.getD_some] at hlen
      have hle := cursorStart_le cursor msgs.reverse 0
      simp only [List.length_reverse] at hle
      unfold GetMessages
      simp only [h]
      generalize hst : (if cursor ≠ "" then cursorStart cursor msgs.reverse 0 else 0 : Nat)
        = start
      have hstart : start ≤ msgs.length := by
        rw [← hst]
        split
        · omega
        · omega
      have hw : wrapInt ((start : Int) + limit) = (start : Int) + limit := by
        unfold wrapInt
        unfold maxInt at hlen
        omega
      rw [hw]
      have h1 : ¬ ((start : Int) + limit > (msgs.reverse.length : Int)) := by
        rw [List.length_reverse]
        omega
      simp only [h1, if_false]
      have h2 : ¬ ((start : Int) ≤ (start : Int) + limit) := by omega
      simp only [h2, if_false]
  · intro limitStr atoi
    unfold requestLimit
    split
    · split
      · split
        · assumption
        · decide
      · decide
    · decide

/-- C15 as amended, at a concrete input: with m1, m2, m3 stored for user2 the
limit zero gives the empty page with next cursor m3, and the limit `-5`
panics; for user9, who has no list, the limit `-5` gives the empty page. -/
theorem GetMessages_zero_limit_witness :
    ((∃ next, GetMessages threeMessages "user2" 0 "" = some ([], next, none)) ∧
      (∀ limit, get? threeMessages.messages "user2" = none →
        GetMessages threeMessages "user2" limit "" = some ([], "", none)) ∧
      (∀ limit, -2 ^ 63 ≤ limit → limit < 0 → get? threeMessages.messages "user2" ≠ none →
        GetMessages threeMessages "user2" limit "" = none) ∧
      (∀ limitStr atoi, 0 < requestLimit limitStr atoi)) ∧
    GetMessages threeMessages "user2" 0 "" = some ([], "m3", none) ∧
    GetMessages threeMessages "user2" (-5) "" = none ∧
    GetMessages threeMessages "user9" (-5) "" = some ([], "", none) :=
  ⟨GetMessages_zero_limit threeMessages "user2" "" (by decide), by decide, by decide,
    by decide⟩

/-! ## `GetMessageReads` (C16) -/

theorem get?_isSome_of_mem {V : Type} (m : List (String × V)) (k : String) (v : V)
    (h : (k, v) ∈ m) : ∃ v', get? m k = some v' := by
  induction m with
  | nil => simp at h
  | cons e rest ih =>
    obtain ⟨k', v'⟩ := e
    by_cases hk : k' = k
    · exact ⟨v', by simp [get?, hk]⟩
    · rcases List.mem_cons.mp h with h | h
      · simp only [Prod.mk.injEq] at h
        exact absurd h.1.symm hk
      · obtain ⟨v'', hv⟩ := ih h
        exact ⟨v'', by simp [get?, hk, hv]⟩

theorem step_messageReads (s : MemoryStore) (c : Clock × Op)
    (hc : ∀ o m u, c.2 ≠ Op.createMessageRead o m u) :
    (step s c).messageReads = s.messageReads := by
  obtain ⟨clk, op⟩ := c
  cases op with
  | createUser user =>
    simp only [step, CreateUser]
    split <;> rfl
  | createGroup group =>
    simp only [step, CreateGroup]
    split <;> rfl
  | addGroupMember g u =>
    simp only [step, AddGroupMember]
    split <;> rfl
  | createMessage o message => exact (CreateMessage_frame s clk o message).2.2.2.2
  | updateMessageStatus o id st =>
    simp only [step, UpdateMessageStatus]
    split <;> rfl
  | createMessageRead o m u => exact absurd rfl (hc o m u)

theorem CreateMessageRead_hasReceipt (s : MemoryStore) (clk : Clock)
    (o : MapOrder (List Message)) (m₀ u₀ m u : String) :
    hasReceipt (CreateMessageRead s clk o m₀ u₀).1 m u = true ↔
      hasReceipt s m u = true ∨ (m = m₀ ∧ u = u₀) := by
  unfold hasReceipt
  rcases CreateMessageRead_messageReads s clk o m₀ u₀ with ⟨h1, hr⟩ | ⟨reads, h1, h2, hr⟩ |
    ⟨reads, x, h1, h2, hr⟩
  · rw [hr]
    by_cases hm : m = m₀
    · subst hm
      rw [get?_set_self, h1]
      by_cases hu : u₀ = u
      · simp [get?, hu]
      · have hu' : ¬ u = u₀ := fun h => hu h.symm
        simp [get?, hu, hu']
    · rw [get?_set_ne _ _ _ _ hm, get?_set_ne _ _ _ _ hm]
      simp [hm]
  · rw [hr]
    by_cases hm : m = m₀
    · subst hm
      rw [get?_set_self, h1]
      by_cases hu : u = u₀
      · subst hu
        simp [get?_set_self]
      · simp [get?_set_ne _ _ _ _ hu, hu]
    · rw [get?_set_ne _ _ _ _ hm]
      simp [hm]
  · rw [hr]
    constructor
    · exact fun h => Or.inl h
    · rintro (h | ⟨hm, hu⟩)
      · exact h
      · subst hm
        subst hu
        simp [h1, h2]

theorem CreateMessageRead_receiptsNamed (s : MemoryStore) (clk : Clock)
    (o : MapOrder (List Message)) (m u : String) (h : ReceiptsNamed s) :
    ReceiptsNamed (CreateMessageRead s clk o m u).1 := by
  intro e he
  rcases CreateMessageRead_messageReads s clk o m u with ⟨_, hr⟩ | ⟨reads, h1, _, hr⟩ |
    ⟨reads, x, _, _, hr⟩
  · rw [hr] at he
    rcases mem_set _ _ _ _ he with he | he
    · rcases mem_set _ _ _ _ he with he | he
      · exact h e he
      · subst he
        simp
    · subst he
      simp
  · rw [hr] at he
    rcases mem_set _ _ _ _ he with he | he
    · exact h e he
    · subst he
      have hreads := h (m, reads) (mem_of_get? _ _ _ h1)
      intro r hr'
      rcases mem_set _ _ _ _ hr' with hr' | hr'
      · exact hreads r hr'
      · subst hr'
        exact ⟨rfl, rfl⟩
  · rw [hr] at he
    exact h e he

theorem step_receiptsNamed (s : MemoryStore) (c : Clock × Op) (h : ReceiptsNamed s) :
    ReceiptsNamed (step s c) := by
  by_cases hc : ∀ o m u, c.2 ≠ Op.createMessageRead o m u
  · intro e he
    rw [step_messageReads s c hc] at he
    exact h e he
  · push_neg at hc
    obtain ⟨o, m, u, hc⟩ := hc
    obtain ⟨clk, op⟩ := c
    simp only at hc
    subst hc
    exact CreateMessageRead_receiptsNamed s clk o m u h

theorem run_hasReceipt (calls : List (Clock × Op)) (m u : String) :
    hasReceipt (run NewStore calls) m u = true ↔
      ∃ c ∈ calls, ∃ o, c.2 = Op.createMessageRead o m u := by
  induction calls using List.reverseRecOn with
  | nil => simp [run, NewStore, hasReceipt, get?]
  | append_singleton init c ih =>
    rw [run_snoc]
    by_cases hc : ∀ o m u, c.2 ≠ Op.createMessageRead o m u
    · have hsame : hasReceipt (step (run NewStore init) c) m u
          = hasReceipt (run NewStore init) m u := by
        unfold hasReceipt
        rw [step_messageReads _ c hc]
      rw [hsame, ih]
      constructor
      · rintro ⟨c', hc', h⟩
        exact ⟨c', List.mem_append_left _ hc', h⟩
      · rintro ⟨c', hc', o, h⟩
        rcases List.mem_append.mp hc' with hc' | hc'
        · exact ⟨c', hc', o, h⟩
        · rw [List.mem_singleton.mp hc'] at h
          exact absurd h (hc o m u)
    · push_neg at hc
      obtain ⟨o, m₀, u₀, hc⟩ := hc
      obtain ⟨clk, op⟩ := c
      simp only at hc
      subst hc
      simp only [step]
      rw [CreateMessageRead_hasReceipt, ih]
      constructor
      · rintro (⟨c', hc', h⟩ | ⟨hm, hu⟩)
        · exact ⟨c', List.mem_append_left _ hc', h⟩
        · exact ⟨_, List.mem_append_right _ (List.mem_singleton_self _), o, by rw [hm, hu]⟩
      · rintro ⟨c', hc', o', h⟩
        rcases List.mem_append.mp hc' with hc' | hc'
        · exact Or.inl ⟨c', hc', o', h⟩
        · rw [List.mem_singleton.mp hc'] at h
          simp only [Op.createMessageRead.injEq] at h
          exact Or.inr ⟨h.2.1.symm, h.2.2.symm⟩

/-- A user has a receipt among those `GetMessageReads` returns exactly when the
test of `CreateMessageRead` finds one, in a store whose receipts are keyed by
their users. -/
theorem GetMessageReads_user_iff (s : MemoryStore) (hk : ReceiptsKeyed s)
    (o : MapOrder MessageRead) (m u : String) :
    (∃ r ∈ GetMessageReads s o m, r.UserID = u) ↔ hasReceipt s m u = true := by
  unfold GetMessageReads hasReceipt
  cases h : get? s.messageReads m with
  | none => simp
  | some reads =>
    have hreads := hk (m, reads) (mem_of_get? _ _ _ h)
    simp only [List.mem_map]
    constructor
    · rintro ⟨r, ⟨e, he, rfl⟩, hu⟩
      have he' : e ∈ reads := (o.perm reads).mem_iff.mp he
      have hkey : e.1 = u := (hreads.2 e he').symm.trans hu
      obtain ⟨v, hv⟩ := get?_isSome_of_mem reads e.1 e.2 he'
      rw [← hkey, hv]
      rfl
    · intro hsome
      cases hg : get? reads u with
      | none => simp [hg] at hsome
      | some x =>
        have hmem := mem_of_get? reads u x hg
        exact ⟨x, ⟨(u, x), (o.perm reads).mem_iff.mpr hmem, rfl⟩, hreads.2 (u, x) hmem⟩

theorem run_receiptsKeyed (calls : List (Clock × Op)) : ReceiptsKeyed (run NewStore calls) :=
  Reachable.receiptsKeyed _ ⟨calls, rfl⟩

theorem run_receiptsNamed (calls : List (Clock × Op)) : ReceiptsNamed (run NewStore calls) :=
  run_invariant ReceiptsNamed step_receiptsNamed NewStore calls
    (by intro e he; simp [NewStore] at he)

/-- C16 as stated fails: after the single call `CreateMessageRead("m1",
"user2")` on the empty store no stored message has the id m1, and
`GetMessageReads("m1")` returns the receipt of user2, not the empty list. -/
theorem GetMessageReads_unknown_message :
    ¬ Stored (run NewStore [(clockFrom 0, .createMessageRead (MapOrder.asStored _) "m1" "user2")])
      "m1" ∧
    (GetMessageReads
      (run NewStore [(clockFrom 0, .createMessageRead (MapOrder.asStored _) "m1" "user2")])
      (MapOrder.asStored _) "m1").map (fun r => (r.ID, r.MessageID, r.UserID))
      = [("mr_m1_user2", "m1", "user2")] := by
  refine ⟨by unfold Stored; decide, by decide⟩

/-- C16 as amended.  In the store reached from the empty store by any sequence
of calls of the store's operations, `GetMessageReads(m)` returns exactly the
receipts recorded for `m`: no two of them are of the same user, each carries
the message id `m` and the id `mr_<m>_<user>`, and a user has a receipt in the
list exactly when `CreateMessageRead(m, user)` is among the calls, whether a
message of the id `m` is stored or not.  The list is empty when no
`CreateMessageRead` call named `m`.  The operation has no error result. -/
theorem GetMessageReads_recorded (calls : List (Clock × Op)) (o : MapOrder MessageRead)
    (m : String) :
    ((GetMessageReads (run NewStore calls) o m).map (fun r => r.UserID)).Nodup ∧
    (∀ r ∈ GetMessageReads (run NewStore calls) o m,
      r.MessageID = m ∧ r.ID = "mr_" ++ m ++ "_" ++ r.UserID) ∧
    (∀ u, (∃ r ∈ GetMessageReads (run NewStore calls) o m, r.UserID = u) ↔
      ∃ c ∈ calls, ∃ o', c.2 = Op.createMessageRead o' m u) ∧
    ((∀ c ∈ calls, ∀ o' u, c.2 ≠ Op.createMessageRead o' m u) →
      GetMessageReads (run NewStore calls) o m = []) := by
  have hk := run_receiptsKeyed calls
  have hn := run_receiptsNamed calls
  have hiff : ∀ u, (∃ r ∈ GetMessageReads (run NewStore calls) o m, r.UserID = u) ↔
      ∃ c ∈ calls, ∃ o', c.2 = Op.createMessageRead o' m u := fun u =>
    (GetMessageReads_user_iff _ hk o m u).trans (run_hasReceipt calls m u)
  refine ⟨?_, ?_, hiff, ?_⟩
  · unfold GetMessageReads
    cases h : get? (run NewStore calls).messageReads m with
    | none => simp
    | some reads =>
      have hreads := hk (m, reads) (mem_of_get? _ _ _ h)
      have hperm : ((o.visit reads).map (fun e => e.2)).map (fun r => r.UserID)
          = (o.visit reads).map (fun e => e.1) := by
        rw [List.map_map]
        apply List.map_congr_left
        intro e he
        exact hreads.2 e ((o.perm reads).mem_iff.mp he)
      simp only
      rw [hperm]
      exact ((o.perm reads).map _).nodup_iff.mpr hreads.1
  · unfold GetMessageReads
    cases h : get? (run NewStore calls).messageReads m with
    | none => simp
    | some reads =>
      have hmem := mem_of_get? _ _ _ h
      have hreads := hk (m, reads) hmem
      intro r hr
      simp only [List.mem_map] at hr
      obtain ⟨e, he, rfl⟩ := hr
      have he' := (o.perm reads).mem_iff.mp he
      have := hn (m, reads) hmem e he'
      rw [hreads.2 e he']
      exact this
  · intro hnone
    cases hl : GetMessageReads (run NewStore calls) o m with
    | nil => rfl
    | cons r rest =>
      exfalso
      obtain ⟨c, hc, o', h⟩ := (hiff r.UserID).mp ⟨r, by rw [hl]; exact List.mem_cons_self _ _, rfl⟩
      exact hnone c hc o' r.UserID h

/-- C16 as amended, at a concrete sequence: m1 is sent, user2 reads it twice
and user3 once; `GetMessageReads("m1")` has the two receipts, and none for
m2. -/
theorem GetMessageReads_recorded_witness :
    (((GetMessageReads (run NewStore readCalls) (MapOrder.backwards _) "m1").map
        (fun r => r.UserID)).Nodup ∧
      (∀ r ∈ GetMessageReads (run NewStore readCalls) (MapOrder.backwards _) "m1",
        r.MessageID = "m1" ∧ r.ID = "mr_" ++ "m1" ++ "_" ++ r.UserID) ∧
      (∀ u, (∃ r ∈ GetMessageReads (run NewStore readCalls) (MapOrder.backwards _) "m1",
          r.UserID = u) ↔
        ∃ c ∈ readCalls, ∃ o', c.2 = Op.createMessageRead o' "m1" u) ∧
      ((∀ c ∈ readCalls, ∀ o' u, c.2 ≠ Op.createMessageRead o' "m1" u) →
        GetMessageReads (run NewStore readCalls) (MapOrder.backwards _) "m1" = [])) ∧
    (GetMessageReads (run NewStore readCalls) (MapOrder.backwards _) "m1").map
      (fun r => r.ID) = ["mr_m1_user3", "mr_m1_user2"] ∧
    GetMessageReads (run NewStore readCalls) (MapOrder.backwards _) "m2" = [] :=
  ⟨GetMessageReads_recorded readCalls (MapOrder.backwards _) "m1", by decide, by decide⟩

/-! ## Error contracts of the store (C17, C18, C19, C20) -/

theorem set_of_get? {V : Type} (m : List (String × V)) (k : String) (v : V)
    (h : get? m k = some v) : set m k v = m := by
  induction m with
  | nil => simp [get?] at h
  | cons e rest ih =>
    obtain ⟨k', v'⟩ := e
    by_cases hk : k' = k
    · simp only [get?, hk, if_true, Option.some.injEq] at h
      simp [set, hk, h]
    · simp only [get?, hk, if_false] at h
      simp [set, hk, ih h]

theorem findKey_eq_none_iff (m : String) (s : MemoryStore) (o : MapOrder (List Message)) :
    findKey m (o.visit s.messages) = none ↔ ¬ Stored s m := by
  constructor
  · intro h hs
    obtain ⟨e, he, hx⟩ := hs
    obtain ⟨k, hk⟩ := findKey_isSome m (o.visit s.messages)
      ⟨e, (o.perm s.messages).mem_iff.mpr he, hx⟩
    rw [h] at hk
    cases hk
  · intro hns
    apply findKey_eq_none
    intro e he x hx hid
    exact hns ⟨e, (o.perm s.messages).mem_iff.mp he, x, hx, hid⟩

theorem setStatusIn_has (m : String) (st : MessageStatus) (t : Nat) (l : List Message)
    (h : ∃ x ∈ l, x.ID = m) : ∃ x ∈ setStatusIn m st t l, x.ID = m ∧ x.Status = st := by
  induction l with
  | nil => simp at h
  | cons a rest ih =>
    simp only [setStatusIn]
    split
    · rename_i ha
      exact ⟨_, List.mem_cons_self _ _, ha, rfl⟩
    · rename_i ha
      obtain ⟨x, hx, hid⟩ := h
      rcases List.mem_cons.mp hx with hx | hx
      · subst hx
        exact absurd hid ha
      · obtain ⟨y, hy, hy'⟩ := ih ⟨x, hx, hid⟩
        exact ⟨y, List.mem_cons_of_mem _ hy, hy'⟩

theorem writeStatus_has (m k : String) (st : MessageStatus) (t : Nat)
    (ms : List (String × List Message)) (msgs : List Message) (hk : (k, msgs) ∈ ms)
    (hm : ∃ x ∈ msgs, x.ID = m) :
    ∃ e ∈ writeStatus m st t k ms, ∃ x ∈ e.2, x.ID = m ∧ x.Status = st := by
  refine ⟨(k, setStatusIn m st t msgs), ?_, setStatusIn_has m st t msgs hm⟩
  simp only [writeStatus, List.mem_map]
  exact ⟨(k, msgs), hk, by simp⟩

/-- C17.  `UpdateMessageStatus(id, st)` returns the error "message not found"
exactly when no stored message has the id, and leaves the store as it was
then; otherwise it returns no error and a stored message of that id has the
status `st` afterwards, whatever `st` is (there is no test of the old status).
Where the ids are unique, every stored message of that id has the status `st`
and `GetMessage(id)` returns a message with it. -/
theorem UpdateMessageStatus_contract (s : MemoryStore) (clk : Clock)
    (o : MapOrder (List Message)) (id : String) (st : MessageStatus) :
    ((UpdateMessageStatus s clk o id st).2 = some "message not found" ↔ ¬ Stored s id) ∧
    ((UpdateMessageStatus s clk o id st).2 = none ↔ Stored s id) ∧
    (¬ Stored s id → (UpdateMessageStatus s clk o id st).1 = s) ∧
    (Stored s id →
      (∃ e ∈ (UpdateMessageStatus s clk o id st).1.messages, ∃ x ∈ e.2,
        x.ID = id ∧ x.Status = st) ∧
      (UniqueIDs s →
        (∀ e ∈ (UpdateMessageStatus s clk o id st).1.messages, ∀ x ∈ e.2,
          x.ID = id → x.Status = st) ∧
        ∀ o' : MapOrder (List Message), ∃ msg,
          GetMessage (UpdateMessageStatus s clk o id st).1 o' id = (some msg, none) ∧
          msg.ID = id ∧ msg.Status = st)) := by
  have hiff := findKey_eq_none_iff id s o
  cases hk : findKey id (o.visit s.messages) with
  | none =>
    have hns : ¬ Stored s id := hiff.mp hk
    have hU : UpdateMessageStatus s clk o id st = (s, some "message not found") := by
      simp only [UpdateMessageStatus, hk]
    rw [hU]
    exact ⟨⟨fun _ => hns, fun _ => rfl⟩, ⟨fun h => (by cases h), fun h => absurd h hns⟩,
      fun _ => rfl, fun h => absurd h hns⟩
  | some k =>
    have hs : Stored s id := by
      by_contra hns
      rw [hiff.mpr hns] at hk
      cases hk
    obtain ⟨msgs, hmem, hm⟩ := findKey_some id k _ hk
    have hmem' : (k, msgs) ∈ s.messages := (o.perm s.messages).mem_iff.mp hmem
    have hU : UpdateMessageStatus s clk o id st
        = ({ s with messages := writeStatus id st (clk 0) k s.messages }, none) := by
      simp only [UpdateMessageStatus, hk]
    rw [hU]
    refine ⟨⟨fun h => (by cases h), fun h => absurd hs h⟩, ⟨fun _ => hs, fun _ => rfl⟩,
      fun h => absurd hs h, fun _ => ⟨writeStatus_has id k st (clk 0) s.messages msgs hmem' hm,
        fun huniq => ?_⟩⟩
    have hall : ∀ e ∈ writeStatus id st (clk 0) k s.messages, ∀ x ∈ e.2,
        x.ID = id → x.Status = st :=
      fun e he x hx hid =>
        writeStatus_status s huniq id k st (clk 0) msgs hmem' hm e he x hx hid
    refine ⟨hall, fun o' => ?_⟩
    obtain ⟨e, he, hx⟩ := writeStatus_stored id k st (clk 0) s.messages hs
    obtain ⟨msg, hfind⟩ := findMessage_isSome id
      (o'.visit (writeStatus id st (clk 0) k s.messages))
      ⟨e, (o'.perm _).mem_iff.mpr he, hx⟩
    obtain ⟨hid, e', he', hx'⟩ := findMessage_some id _ msg hfind
    refine ⟨msg, by simp only [GetMessage, hfind], hid, ?_⟩
    exact hall e' ((o'.perm _).mem_iff.mp he') msg hx' hid

/-- C18.  `GetMessage(id)` returns, without error, a message that is stored in
the list of some destination and whose id is `id` whenever such a message is
stored; it returns the error "message not found", and no message, exactly when
no stored message has the id.  The operation only reads: the store is not part
of what it returns. -/
theorem GetMessage_lookup (s : MemoryStore) (o : MapOrder (List Message)) (id : String) :
    (Stored s id → ∃ msg, GetMessage s o id = (some msg, none) ∧ msg.ID = id ∧
      ∃ e ∈ s.messages, msg ∈ e.2) ∧
    (¬ Stored s id → GetMessage s o id = (none, some "message not found")) ∧
    ((GetMessage s o id).2 = some "message not found" ↔ ¬ Stored s id) := by
  have h1 : Stored s id → ∃ msg, GetMessage s o id = (some msg, none) ∧ msg.ID = id ∧
      ∃ e ∈ s.messages, msg ∈ e.2 := by
    intro hs
    obtain ⟨e, he, hx⟩ := hs
    obtain ⟨msg, hfind⟩ := findMessage_isSome id (o.visit s.messages)
      ⟨e, (o.perm s.messages).mem_iff.mpr he, hx⟩
    obtain ⟨hid, e', he', hx'⟩ := findMessage_some id _ msg hfind
    exact ⟨msg, by simp only [GetMessage, hfind], hid, e', (o.perm _).mem_iff.mp he', hx'⟩
  have h2 : ¬ Stored s id → GetMessage s o id = (none, some "message not found") := by
    intro hns
    have : findMessage id (o.visit s.messages) = none := by
      apply findMessage_eq_none
      intro e he x hx hid
      exact hns ⟨e, (o.perm s.messages).mem_iff.mp he, x, hx, hid⟩
    simp only [GetMessage, this]
  refine ⟨h1, h2, ?_, fun hns => (by rw [h2 hns])⟩
  intro herr
  intro hs
  obtain ⟨msg, hg, _⟩ := h1 hs
  rw [hg] at herr
  cases herr

/-- C19.  `CreateGroup(g)` returns the error "group already exists" exactly
when a group of the id of `g` is stored, and leaves the store, the membership
sets included, as it was then; otherwise it returns no error, stores the group
(stamped with the clock) under its id, and the membership set of the group is
empty: `IsGroupMember(g.ID, u)` is false for every user `u`. -/
theorem CreateGroup_contract (s : MemoryStore) (clk : Clock) (g : Group) :
    ((CreateGroup s clk g).2 = some "group already exists" ↔ get? s.groups g.ID ≠ none) ∧
    (get? s.groups g.ID ≠ none → (CreateGroup s clk g).1 = s) ∧
    (get? s.groups g.ID = none →
      (CreateGroup s clk g).2 = none ∧
      get? (CreateGroup s clk g).1.groups g.ID
        = some { g with CreatedAt := clk 0, UpdatedAt := clk 1 } ∧
      get? (CreateGroup s clk g).1.groupMembers g.ID = some [] ∧
      ∀ u, IsGroupMember (CreateGroup s clk g).1 g.ID u = false) := by
  cases h : get? s.groups g.ID with
  | some g' => simp [CreateGroup, h]
  | none => simp [CreateGroup, h, get?_set_self, IsGroupMember, get?]

/-- C20.  `AddGroupMember(g, u)` returns the error "group not found" exactly
when no group of the id `g` is stored, and leaves the store as it was then;
otherwise it returns no error, `IsGroupMember(g, u)` is true afterwards,
`IsGroupMember` of every other pair of a group and a user is what it was, and
a second call with the same arguments returns no error and the store the first
call left. -/
theorem AddGroupMember_contract (s : MemoryStore) (g u : String) :
    ((AddGroupMember s g u).2 = some "group not found" ↔ get? s.groups g = none) ∧
    (get? s.groups g = none → (AddGroupMember s g u).1 = s) ∧
    (get? s.groups g ≠ none →
      (AddGroupMember s g u).2 = none ∧
      IsGroupMember (AddGroupMember s g u).1 g u = true ∧
      (∀ g' u', (g', u') ≠ (g, u) →
        IsGroupMember (AddGroupMember s g u).1 g' u' = IsGroupMember s g' u') ∧
      AddGroupMember (AddGroupMember s g u).1 g u = ((AddGroupMember s g u).1, none)) := by
  cases h : get? s.groups g with
  | none => simp [AddGroupMember, h]
  | some grp =>
    refine ⟨by simp [AddGroupMember, h], fun hn => (by cases hn), fun _ => ?_⟩
    refine ⟨by simp [AddGroupMember, h], by simp [AddGroupMember, h, IsGroupMember, get?_set_self],
      ?_, ?_⟩
    · intro g' u' hne
      simp only [AddGroupMember, h, IsGroupMember]
      by_cases hg : g' = g
      · subst hg
        have hu : u' ≠ u := fun hu => hne (by rw [hu])
        rw [get?_set_self]
        simp only [get?_set_ne _ _ _ _ hu]
        cases get? s.groupMembers g' <;> simp [get?]
      · rw [get?_set_ne _ _ _ _ hg]
    · simp only [AddGroupMember, h, get?_set_self, Option.getD_some]
      rw [set_of_get? (set ((get? s.groupMembers g).getD []) u true) u true (get?_set_self _ _ _)]
      rw [set_of_get? (set s.groupMembers g _) g _ (get?_set_self _ _ _)]

/-- C17 at a concrete input: with m1, m2, m3 stored for user2, the status READ
is written to m2 and `GetMessage` reads it back; writing SENT over it
afterwards succeeds too; the id m9 is unknown and gives the error. -/
theorem UpdateMessageStatus_contract_witness :
    Stored threeMessages "m2" ∧ UniqueIDs threeMessages ∧ ¬ Stored threeMessages "m9" ∧
    (∃ msg, GetMessage
        (UpdateMessageStatus threeMessages (clockFrom 50) (MapOrder.asStored _) "m2"
          StatusRead).1 (MapOrder.backwards _) "m2" = (some msg, none) ∧
      msg.ID = "m2" ∧ msg.Status = StatusRead) ∧
    (UpdateMessageStatus threeMessages (clockFrom 50) (MapOrder.asStored _) "m9"
      StatusRead).2 = some "message not found" ∧
    (GetMessage
      (UpdateMessageStatus
        (UpdateMessageStatus threeMessages (clockFrom 50) (MapOrder.asStored _) "m2"
          StatusRead).1 (clockFrom 60) (MapOrder.asStored _) "m2" StatusSent).1
      (MapOrder.asStored _) "m2").1.map (fun msg => msg.Status) = some StatusSent :=
  ⟨by unfold Stored; decide, by unfold UniqueIDs; decide, by unfold Stored; decide,
    (((UpdateMessageStatus_contract threeMessages (clockFrom 50) (MapOrder.asStored _) "m2"
      StatusRead).2.2.2 (by unfold Stored; decide)).2 (by unfold UniqueIDs; decide)).2
      (MapOrder.backwards _),
    by decide, by decide⟩

/-- C18 at a concrete input: m2 is found among m1, m2, m3, the id m9 is not. -/
theorem GetMessage_lookup_witness :
    Stored threeMessages "m2" ∧ ¬ Stored threeMessages "m9" ∧
    (∃ msg, GetMessage threeMessages (MapOrder.backwards _) "m2" = (some msg, none) ∧
      msg.ID = "m2" ∧ ∃ e ∈ threeMessages.messages, msg ∈ e.2) ∧
    GetMessage threeMessages (MapOrder.backwards _) "m9" = (none, some "message not found") :=
  ⟨by unfold Stored; decide, by unfold Stored; decide,
    (GetMessage_lookup threeMessages (MapOrder.backwards _) "m2").1 (by unfold Stored; decide),
    by decide⟩

/-- C19 at a concrete input: the group g is created in the empty store and
has no member; creating it again is refused and changes nothing. -/
theorem CreateGroup_contract_witness :
    ((CreateGroup NewStore (clockFrom 0) teamGroup).2 = none ∧
      get? (CreateGroup NewStore (clockFrom 0) teamGroup).1.groups teamGroup.ID
        = some { teamGroup with CreatedAt := clockFrom 0 0, UpdatedAt := clockFrom 0 1 } ∧
      get? (CreateGroup NewStore (clockFrom 0) teamGroup).1.groupMembers teamGroup.ID
        = some [] ∧
      ∀ u, IsGroupMember (CreateGroup NewStore (clockFrom 0) teamGroup).1 teamGroup.ID u
        = false) ∧
    CreateGroup (CreateGroup NewStore (clockFrom 0) teamGroup).1 (clockFrom 5) teamGroup
      = ((CreateGroup NewStore (clockFrom 0) teamGroup).1, some "group already exists") :=
  ⟨(CreateGroup_contract NewStore (clockFrom 0) teamGroup).2.2 (by decide), by decide⟩

/-- C20 at a concrete input: in the store of the group chat, d joins the group
g, and joining again changes nothing; the group h does not exist. -/
theorem AddGroupMember_contract_witness :
    IsGroupMember (run NewStore groupChatCalls) "g" "d" = false ∧
    ((AddGroupMember (run NewStore groupChatCalls) "g" "d").2 = none ∧
      IsGroupMember (AddGroupMember (run NewStore groupChatCalls) "g" "d").1 "g" "d" = true ∧
      (∀ g' u', (g', u') ≠ ("g", "d") →
        IsGroupMember (AddGroupMember (run NewStore groupChatCalls) "g" "d").1 g' u'
          = IsGroupMember (run NewStore groupChatCalls) g' u') ∧
      AddGroupMember (AddGroupMember (run NewStore groupChatCalls) "g" "d").1 "g" "d"
        = ((AddGroupMember (run NewStore groupChatCalls) "g" "d").1, none)) ∧
    AddGroupMember (run NewStore groupChatCalls) "h" "d"
      = (run NewStore groupChatCalls, some "group not found") :=
  ⟨by decide,
    (AddGroupMember_contract (run NewStore groupChatCalls) "g" "d").2.2 (by decide),
    by decide⟩

/-! ## `IsGroupMember` (C21) -/

theorem CreateMessageRead_frame (s : MemoryStore) (clk : Clock) (o : MapOrder (List Message))
    (m u : String) :
    (CreateMessageRead s clk o m u).1.users = s.users ∧
    (CreateMessageRead s clk o m u).1.groups = s.groups ∧
    (CreateMessageRead s clk o m u).1.groupMembers = s.groupMembers ∧
    (CreateMessageRead s clk o m u).1.userConversations = s.userConversations := by
  unfold CreateMessageRead
  simp only
  split
  · split <;> simp
  · split
    · split <;> simp
    · split <;> simp

theorem UpdateMessageStatus_frame (s : MemoryStore) (clk : Clock) (o : MapOrder (List Message))
    (m : String) (st : MessageStatus) :
    (UpdateMessageStatus s clk o m st).1.users = s.users ∧
    (UpdateMessageStatus s clk o m st).1.groups = s.groups ∧
    (UpdateMessageStatus s clk o m st).1.groupMembers = s.groupMembers ∧
    (UpdateMessageStatus s clk o m st).1.userConversations = s.userConversations ∧
    (UpdateMessageStatus s clk o m st).1.messageReads = s.messageReads := by
  unfold UpdateMessageStatus
  split <;> simp

theorem AddGroupMember_isGroupMember (s : MemoryStore) (g₀ u₀ g u : String) :
    IsGroupMember (AddGroupMember s g₀ u₀).1 g u = true ↔
      IsGroupMember s g u = true ∨
      ((AddGroupMember s g₀ u₀).2 = none ∧ g = g₀ ∧ u = u₀) := by
  cases h : get? s.groups g₀ with
  | none => simp [AddGroupMember, h]
  | some grp =>
    simp only [AddGroupMember, h, IsGroupMember, true_and]
    by_cases hg : g = g₀
    · subst hg
      rw [get?_set_self]
      by_cases hu : u = u₀
      · subst hu
        simp [get?_set_self]
      · simp only [get?_set_ne _ _ _ _ hu, hu, and_false, or_false]
        cases get? s.groupMembers g <;> simp [get?]
    · rw [get?_set_ne _ _ _ _ hg]
      simp [hg]

theorem step_membersOfGroups (s : MemoryStore) (c : Clock × Op) (h : MembersOfGroups s) :
    MembersOfGroups (step s c) := by
  obtain ⟨clk, op⟩ := c
  intro g
  cases op with
  | createUser user =>
    simp only [step, CreateUser]
    split
    · exact h g
    · exact h g
  | createGroup group =>
    simp only [step, CreateGroup]
    split
    · exact h g
    · simp only
      by_cases hg : g = group.ID
      · subst hg
        simp [get?_set_self]
      · rw [get?_set_ne _ _ _ _ hg, get?_set_ne _ _ _ _ hg]
        exact h g
  | addGroupMember g₀ u₀ =>
    simp only [step, AddGroupMember]
    split
    · exact h g
    · rename_i grp hgrp
      simp only
      by_cases hg : g = g₀
      · subst hg
        intro _
        rw [hgrp]
        simp
      · rw [get?_set_ne _ _ _ _ hg]
        exact h g
  | createMessage o message =>
    have hf := CreateMessage_frame s clk o message
    simp only [step]
    rw [hf.2.2.1, hf.2.1]
    exact h g
  | updateMessageStatus o id st =>
    have hf := UpdateMessageStatus_frame s clk o id st
    simp only [step]
    rw [hf.2.2.1, hf.2.1]
    exact h g
  | createMessageRead o m u =>
    have hf := CreateMessageRead_frame s clk o m u
    simp only [step]
    rw [hf.2.2.1, hf.2.1]
    exact h g

theorem run_membersOfGroups (calls : List (Clock × Op)) : MembersOfGroups (run NewStore calls) :=
  run_invariant MembersOfGroups step_membersOfGroups NewStore calls
    (by intro g hg; simp [NewStore, get?] at hg)

theorem isGroupMember_of_groupMembers (s s' : MemoryStore) (h : s'.groupMembers = s.groupMembers)
    (g u : String) : IsGroupMember s' g u = IsGroupMember s g u := by
  unfold IsGroupMember
  rw [h]

/-- What one call does to `IsGroupMember`, in a store in which membership sets
belong to stored groups. -/
theorem step_isGroupMember (s : MemoryStore) (hs : MembersOfGroups s) (c : Clock × Op)
    (g u : String) :
    IsGroupMember (step s c) g u = true ↔
      IsGroupMember s g u = true ∨
      (c.2 = Op.addGroupMember g u ∧ (AddGroupMember s g u).2 = none) := by
  obtain ⟨clk, op⟩ := c
  have hsame : ∀ s' : MemoryStore, s'.groupMembers = s.groupMembers →
      (∀ g' u', op ≠ Op.addGroupMember g' u') →
      (IsGroupMember s' g u = true ↔
        IsGroupMember s g u = true ∨
        (op = Op.addGroupMember g u ∧ (AddGroupMember s g u).2 = none)) := by
    intro s' hgm hop
    rw [isGroupMember_of_groupMembers s s' hgm]
    exact ⟨Or.inl, fun h => h.elim id (fun h => absurd h.1 (hop g u))⟩
  cases op with
  | createUser user =>
    apply hsame _ _ (fun _ _ h => by cases h)
    simp only [step, CreateUser]
    split <;> rfl
  | createGroup group =>
    simp only [step]
    have hnot : ∀ g' u', Op.createGroup group ≠ Op.addGroupMember g' u' :=
      fun _ _ h => by cases h
    cases hgr : get? s.groups group.ID with
    | some grp =>
      apply hsame _ _ hnot
      simp [CreateGroup, hgr]
    | none =>
      have hnone : get? s.groupMembers group.ID = none := by
        by_contra hne
        exact hs group.ID hne hgr
      have : IsGroupMember (CreateGroup s clk group).1 g u = IsGroupMember s g u := by
        simp only [CreateGroup, hgr, IsGroupMember]
        by_cases hg : g = group.ID
        · subst hg
          rw [get?_set_self, hnone]
          rfl
        · rw [get?_set_ne _ _ _ _ hg]
      rw [this]
      exact ⟨Or.inl, fun h => h.elim id (fun h => absurd h.1 (hnot g u))⟩
  | addGroupMember g₀ u₀ =>
    simp only [step]
    rw [AddGroupMember_isGroupMember]
    constructor
    · rintro (h | ⟨h1, h2, h3⟩)
      · exact Or.inl h
      · subst h2
        subst h3
        exact Or.inr ⟨rfl, h1⟩
    · rintro (h | ⟨h1, h2⟩)
      · exact Or.inl h
      · simp only [Op.addGroupMember.injEq] at h1
        obtain ⟨h3, h4⟩ := h1
        subst h3
        subst h4
        exact Or.inr ⟨h2, rfl, rfl⟩
  | createMessage o message =>
    exact hsame _ (CreateMessage_frame s clk o message).2.2.1 (fun _ _ h => by cases h)
  | updateMessageStatus o id st =>
    exact hsame _ (UpdateMessageStatus_frame s clk o id st).2.2.1 (fun _ _ h => by cases h)
  | createMessageRead o m u' =>
    exact hsame _ (CreateMessageRead_frame s clk o m u').2.2.1 (fun _ _ h => by cases h)

/-- C21.  In the store reached from the empty store by any sequence of calls
of the store's operations, `IsGroupMember(g, u)` is true exactly when an
earlier call `AddGroupMember(g, u)` returned no error.  It is a total function:
for a group that is not stored, and so for a pair never added, it returns
false.  `CreateMessage`, `UpdateMessageStatus` and `CreateMessageRead` leave
its value as it was. -/
theorem IsGroupMember_iff_added (calls : List (Clock × Op)) (g u : String) :
    (IsGroupMember (run NewStore calls) g u = true ↔
      ∃ pre c post, calls = pre ++ c :: post ∧ c.2 = Op.addGroupMember g u ∧
        (AddGroupMember (run NewStore pre) g u).2 = none) ∧
    (get? (run NewStore calls).groups g = none →
      IsGroupMember (run NewStore calls) g u = false) ∧
    (∀ clk o message,
      IsGroupMember (CreateMessage (run NewStore calls) clk o message).1 g u
        = IsGroupMember (run NewStore calls) g u) ∧
    (∀ clk o id st,
      IsGroupMember (UpdateMessageStatus (run NewStore calls) clk o id st).1 g u
        = IsGroupMember (run NewStore calls) g u) ∧
    (∀ clk o id u',
      IsGroupMember (CreateMessageRead (run NewStore calls) clk o id u').1 g u
        = IsGroupMember (run NewStore calls) g u) := by
  refine ⟨?_, ?_, ?_, ?_, ?_⟩
  · induction calls using List.reverseRecOn with
    | nil =>
      simp only [run, List.foldl_nil]
      constructor
      · intro h
        simp [IsGroupMember, NewStore, get?] at h
      · rintro ⟨pre, c, post, h, _⟩
        simp at h
    | append_singleton init c ih =>
      rw [run_snoc, step_isGroupMember _ (run_membersOfGroups init), ih]
      constructor
      · rintro (⟨pre, c', post, h1, h2, h3⟩ | ⟨h1, h2⟩)
        · exact ⟨pre, c', post ++ [c], by rw [h1]; simp, h2, h3⟩
        · exact ⟨init, c, [], rfl, h1, h2⟩
      · rintro ⟨pre, c', post, h1, h2, h3⟩
        rcases List.eq_nil_or_concat post with hp | ⟨post', c'', hp⟩
        · subst hp
          have := List.append_inj_left' h1 rfl
          have hc : c = c' := by
            have := List.append_inj_right' h1 rfl
            simpa using this
          subst hc
          subst this
          exact Or.inr ⟨h2, h3⟩
        · subst hp
          have h1' : init ++ [c] = (pre ++ c' :: post') ++ [c''] := by
            rw [h1]; simp
          have := List.append_inj_left' h1' rfl
          exact Or.inl ⟨pre, c', post', this, h2, h3⟩
  · intro hnone
    have hgm : get? (run NewStore calls).groupMembers g = none := by
      by_contra hne
      exact run_membersOfGroups calls g hne hnone
    simp [IsGroupMember, hgm]
  · intro clk o message
    exact isGroupMember_of_groupMembers _ _ (CreateMessage_frame _ clk o message).2.2.1 g u
  · intro clk o id st
    exact isGroupMember_of_groupMembers _ _ (UpdateMessageStatus_frame _ clk o id st).2.2.1 g u
  · intro clk o id u'
    exact isGroupMember_of_groupMembers _ _ (CreateMessageRead_frame _ clk o id u').2.2.1 g u

/-- C21 at a concrete sequence: the group g is made, a, b and c are added and
a message is sent to g.  b is a member, d is not, and the unknown group h has
no member; adding a member to h fails and leaves it so. -/
theorem IsGroupMember_iff_added_witness :
    (IsGroupMember (run NewStore groupChatCalls) "g" "b" = true ↔
      ∃ pre c post, groupChatCalls = pre ++ c :: post ∧ c.2 = Op.addGroupMember "g" "b" ∧
        (AddGroupMember (run NewStore pre) "g" "b").2 = none) ∧
    IsGroupMember (run NewStore groupChatCalls) "g" "b" = true ∧
    IsGroupMember (run NewStore groupChatCalls) "g" "d" = false ∧
    IsGroupMember (run NewStore groupChatCalls) "h" "a" = false ∧
    IsGroupMember (run NewStore (groupChatCalls ++ [(clockFrom 50, .addGroupMember "h" "a")]))
      "h" "a" = false :=
  ⟨(IsGroupMember_iff_added groupChatCalls "g" "b").1, by decide, by decide, by decide,
    by decide⟩

/-! ## The destinations of the stored messages (C22) -/

/-- The outcomes of `SendMessage`: an error response and the store as it was,
or the message built from the request is stored; then the text of the request
is not empty after trimming and the destination is a stored group, of which
the sender is a member, or a stored user. -/
theorem SendMessage_cases (s : MemoryStore) (trimSpace : List UInt8 → List UInt8)
    (newID : String) (clk : Clock) (o : MapOrder Bool) (auth : String)
    (body : Option SendMessageRequest) :
    ((Handler.SendMessage s trimSpace newID clk o auth body).1 = s ∧
      ∃ err, (Handler.SendMessage s trimSpace newID clk o auth body).2 = .error err) ∨
    ∃ req convType, body = some req ∧ auth ≠ "" ∧ IsEmpty trimSpace req.Message = false ∧
      get? s.users auth ≠ none ∧
      ((convType = ConversationTypeGroup ∧ get? s.groups req.DestinationID ≠ none ∧
          IsGroupMember s req.DestinationID auth = true) ∨
        (convType = ConversationTypeOneToOne ∧ get? s.groups req.DestinationID = none ∧
          get? s.users req.DestinationID ≠ none)) ∧
      (Handler.SendMessage s trimSpace newID clk o auth body).1
        = (CreateMessage s clk o (newMessage trimSpace newID auth req convType)).1 := by
  unfold Handler.SendMessage
  by_cases hauth : auth = ""
  · rw [if_pos hauth]
    exact Or.inl ⟨rfl, _, rfl⟩
  rw [if_neg hauth]
  cases body with
  | none => exact Or.inl ⟨rfl, _, rfl⟩
  | some req =>
    simp only
    by_cases hempty : IsEmpty trimSpace req.Message = true
    · rw [if_pos hempty]
      exact Or.inl ⟨rfl, _, rfl⟩
    rw [if_neg hempty]
    by_cases hforb : req.SenderID ≠ "" ∧ req.SenderID ≠ auth
    · rw [if_pos hforb]
      exact Or.inl ⟨rfl, _, rfl⟩
    rw [if_neg hforb]
    have hsender : (if req.SenderID ≠ "" then req.SenderID else auth) = auth := by
      by_cases h : req.SenderID ≠ ""
      · rw [if_pos h]
        by_contra hne
        exact hforb ⟨h, hne⟩
      · rw [if_neg h]
    rw [hsender]
    have hempty' : IsEmpty trimSpace req.Message = false := by
      cases h : IsEmpty trimSpace req.Message
      · rfl
      · exact absurd h hempty
    cases hu : get? s.users auth with
    | none => exact Or.inl ⟨by simp [GetUser, hu], _, by simp [GetUser, hu]; rfl⟩
    | some usr =>
      simp only [GetUser, hu]
      cases hg : get? s.groups req.DestinationID with
      | some grp =>
        simp only [GetGroup, hg]
        by_cases hmem : ¬ IsGroupMember s req.DestinationID auth = true
        · rw [if_pos hmem]
          exact Or.inl ⟨rfl, _, rfl⟩
        · rw [if_neg hmem]
          refine Or.inr ⟨req, ConversationTypeGroup, rfl, hauth, hempty', by simp,
            Or.inl ⟨rfl, by rw [hg]; simp, not_not.mp hmem⟩, sendStored_store _ _ _ _ _ _ _ _⟩
      | none =>
        simp only [GetGroup, hg]
        cases hd : get? s.users req.DestinationID with
        | none => exact Or.inl ⟨rfl, _, rfl⟩
        | some usr' =>
          simp only
          refine Or.inr ⟨req, ConversationTypeOneToOne, rfl, hauth, hempty', by simp,
            Or.inr ⟨rfl, hg, by rw [hd]; simp⟩, sendStored_store _ _ _ _ _ _ _ _⟩

theorem step_users_groups (s : MemoryStore) (c : Clock × Op) (k : String) :
    (get? s.users k ≠ none → get? (step s c).users k ≠ none) ∧
    (get? s.groups k ≠ none → get? (step s c).groups k ≠ none) := by
  obtain ⟨clk, op⟩ := c
  cases op with
  | createUser user =>
    simp only [step, CreateUser]
    split
    · exact ⟨id, id⟩
    · refine ⟨fun h => ?_, id⟩
      simp only
      by_cases hk : k = user.ID
      · rw [hk, get?_set_self]
        simp
      · rw [get?_set_ne _ _ _ _ hk]
        exact h
  | createGroup group =>
    simp only [step, CreateGroup]
    split
    · exact ⟨id, id⟩
    · refine ⟨id, fun h => ?_⟩
      simp only
      by_cases hk : k = group.ID
      · rw [hk, get?_set_self]
        simp
      · rw [get?_set_ne _ _ _ _ hk]
        exact h
  | addGroupMember g u =>
    simp only [step, AddGroupMember]
    split <;> exact ⟨id, id⟩
  | createMessage o message =>
    have hf := CreateMessage_frame s clk o message
    simp only [step]
    rw [hf.1, hf.2.1]
    exact ⟨id, id⟩
  | updateMessageStatus o id st =>
    have hf := UpdateMessageStatus_frame s clk o id st
    simp only [step]
    rw [hf.1, hf.2.1]
    exact ⟨fun h => h, fun h => h⟩
  | createMessageRead o m u =>
    have hf := CreateMessageRead_frame s clk o m u
    simp only [step]
    rw [hf.1, hf.2.1]
    exact ⟨id, id⟩

/-- A call of the store keeps the destinations resolved, when it is not a
`CreateMessage` for a destination that is neither a user nor a group. -/
theorem step_destinationsResolve (s : MemoryStore) (c : Clock × Op)
    (hc : ∀ o msg, c.2 = Op.createMessage o msg →
      get? s.users msg.DestinationID ≠ none ∨ get? s.groups msg.DestinationID ≠ none)
    (h : DestinationsResolve s) : DestinationsResolve (step s c) := by
  intro e he x hx
  have hmono := step_users_groups s c x.DestinationID
  rcases step_messages_mem s c e he x hx with ⟨e₀, he₀, x₀, hx₀, hf⟩ | ⟨o, msg, hop, hxs⟩
  · have hd : x₀.DestinationID = x.DestinationID := by
      simp only [msgFixed, Prod.mk.injEq] at hf
      exact hf.2.2.1
    rw [← hd] at hmono ⊢
    exact (h e₀ he₀ x₀ hx₀).imp hmono.1 hmono.2
  · have hd : x.DestinationID = msg.DestinationID := by rw [hxs]; rfl
    rw [hd] at hmono ⊢
    exact (hc o msg hop).imp hmono.1 hmono.2

/-- A request to a handler leaves the store as it was or has the effect of one
call of the store; a message is created only for a destination that is a
stored user or group. -/
theorem handle_cases (s : MemoryStore) (h : HandlerCall) :
    handle s h = s ∨
    ∃ c : Clock × Op, handle s h = step s c ∧
      ∀ o msg, c.2 = Op.createMessage o msg →
        get? s.users msg.DestinationID ≠ none ∨ get? s.groups msg.DestinationID ≠ none := by
  cases h with
  | sendMessage trimSpace newID clk o auth body =>
    rcases SendMessage_cases s trimSpace newID clk o auth body with
      ⟨h, _⟩ | ⟨req, convType, _, _, _, _, hdest, h⟩
    · exact Or.inl h
    · refine Or.inr ⟨(clk, .createMessage o (newMessage trimSpace newID auth req convType)),
        h, ?_⟩
      intro o' msg hop
      simp only [Op.createMessage.injEq] at hop
      rw [← hop.2]
      show get? s.users req.DestinationID ≠ none ∨ get? s.groups req.DestinationID ≠ none
      rcases hdest with ⟨_, hg, _⟩ | ⟨_, _, hu⟩
      · exact Or.inr hg
      · exact Or.inl hu
  | ackDelivered clk o o' auth body =>
    rcases AckDelivered_store s clk o o' auth body with h | ⟨req, message, _, _, _, h⟩
    · exact Or.inl h
    · exact Or.inr ⟨(clk, .updateMessageStatus o' req.MessageID StatusDelivered), h,
        fun _ _ hop => by cases hop⟩
  | ackRead clk o o' auth body =>
    rcases AckRead_store s clk o o' auth body with h | ⟨m, u, h⟩
    · exact Or.inl h
    · exact Or.inr ⟨(clk, .createMessageRead o' m u), h, fun _ _ hop => by cases hop⟩

theorem runCalls_snoc (s : MemoryStore) (calls : List Call) (c : Call) :
    runCalls s (calls ++ [c]) = applyCall (runCalls s calls) c := by
  simp [runCalls, List.foldl_append]

/-- C22 as stated fails: after the single call `CreateMessage` of a message
for "ghost" the message is stored, and no user and no group is. -/
theorem CreateMessage_unknown_destination :
    ghostMessage.users = [] ∧ ghostMessage.groups = [] ∧
    (ghostMessage.messages.map
      (fun e => (e.1, e.2.map (fun m => (m.ID, m.DestinationID)))))
      = [("ghost", [("m1", "ghost")])] ∧
    ¬ DestinationsResolve ghostMessage := by
  refine ⟨by decide, by decide, by decide, ?_⟩
  intro h
  have := h ("ghost", [stampMessage (clockFrom 10)
    { helloMsg "m1" with SenderID := "nobody", DestinationID := "ghost" }]) (by decide) _
    (List.mem_singleton_self _)
  revert this
  decide

/-- C22 as amended.  In every store reached from the empty store by calls of
`CreateUser`, `CreateGroup`, `AddGroupMember`, `UpdateMessageStatus` and
`CreateMessageRead` and by requests to the handlers `SendMessage`,
`AckDelivered` and `AckRead`, in any order, the destination of every stored
message is the id of a stored user or of a stored group: the handler
`SendMessage` checks the destination before it calls `CreateMessage`, which
itself stores a message for any destination. -/
theorem destinations_resolve (calls : List Call)
    (hcalls : ∀ c ∈ calls, ∀ clk o msg, c ≠ Call.op (clk, Op.createMessage o msg)) :
    DestinationsResolve (runCalls NewStore calls) := by
  induction calls using List.reverseRecOn with
  | nil =>
    intro e he
    simp [runCalls, NewStore] at he
  | append_singleton init c ih =>
    have hinit := ih (fun c' hc' => hcalls c' (List.mem_append_left _ hc'))
    have hc := hcalls c (List.mem_append_right _ (List.mem_singleton_self _))
    rw [runCalls_snoc]
    cases c with
    | op sc =>
      apply step_destinationsResolve _ sc _ hinit
      intro o msg hop
      exfalso
      obtain ⟨clk, op⟩ := sc
      simp only at hop
      subst hop
      exact hc clk o msg rfl
    | request h =>
      simp only [applyCall]
      rcases handle_cases (runCalls NewStore init) h with heq | ⟨sc, heq, hres⟩
      · rw [heq]
        exact hinit
      · rw [heq]
        exact step_destinationsResolve _ sc hres hinit

/-- C22 as amended, at a concrete sequence: user1 and user2 are made, the
handler stores the message of user1 for user2 and refuses the one for
"ghost". -/
theorem destinations_resolve_witness :
    DestinationsResolve (runCalls NewStore sendCalls) ∧
    ((runCalls NewStore sendCalls).messages.map
      (fun e => (e.1, e.2.map (fun m => (m.ID, m.DestinationID)))))
      = [("user2", [("m2", "user2")])] ∧
    (runCalls NewStore sendCalls).users.map (fun e => e.1) = ["user1", "user2"] :=
  ⟨destinations_resolve sendCalls (by
      intro c hc clk o msg h
      subst h
      simp [sendCalls] at hc),
    by decide, by decide⟩

/-! ## What a status write leaves untouched (C25) -/

theorem setStatusIn_forall₂ (m : String) (st : MessageStatus) (t : Nat) (l : List Message) :
    List.Forall₂ (fun x x' => msgFixed x' = msgFixed x ∧ (x.ID ≠ m → x' = x)) l
      (setStatusIn m st t l) := by
  induction l with
  | nil => exact List.Forall₂.nil
  | cons a l ih =>
    simp only [setStatusIn]
    by_cases ha : a.ID = m
    · rw [if_pos ha]
      refine List.Forall₂.cons ⟨rfl, fun h => absurd ha h⟩ ?_
      exact List.forall₂_same.mpr (fun x _ => ⟨rfl, fun _ => rfl⟩)
    · rw [if_neg ha]
      exact List.Forall₂.cons ⟨rfl, fun _ => rfl⟩ ih

theorem messages_forall₂_refl (m : String) (ms : List (String × List Message)) :
    List.Forall₂
      (fun e e' => e'.1 = e.1 ∧
        List.Forall₂ (fun x x' => msgFixed x' = msgFixed x ∧ (x.ID ≠ m → x' = x)) e.2 e'.2)
      ms ms :=
  List.forall₂_same.mpr
    (fun _ _ => ⟨rfl, List.forall₂_same.mpr (fun _ _ => ⟨rfl, fun _ => rfl⟩)⟩)

theorem writeStatus_forall₂ (m k : String) (st : MessageStatus) (t : Nat)
    (ms : List (String × List Message)) :
    List.Forall₂
      (fun e e' => e'.1 = e.1 ∧
        List.Forall₂ (fun x x' => msgFixed x' = msgFixed x ∧ (x.ID ≠ m → x' = x)) e.2 e'.2)
      ms (writeStatus m st t k ms) := by
  induction ms with
  | nil => exact List.Forall₂.nil
  | cons e ms ih =>
    have hw : writeStatus m st t k (e :: ms)
        = (if e.1 = k then (e.1, setStatusIn m st t e.2) else e) :: writeStatus m st t k ms :=
      rfl
    rw [hw]
    refine List.Forall₂.cons ?_ ih
    by_cases hk : e.1 = k
    · rw [if_pos hk]
      exact ⟨rfl, setStatusIn_forall₂ m st t e.2⟩
    · rw [if_neg hk]
      exact ⟨rfl, List.forall₂_same.mpr (fun _ _ => ⟨rfl, fun _ => rfl⟩)⟩

/-- C25.  In a store with unique message ids, `UpdateMessageStatus(id, st)`
that returns no error and `CreateMessageRead(id, u)` (which never returns one)
leave the users, the groups, the membership sets and the conversation lists as
they were; the map of the messages keeps its keys and their order, every slice
its length and every message its place, its id, sender, destination, text, kind
and `CreatedAt`; a message whose id is not `id` is not changed at all; and the
stored message whose id is `id` is a single one. -/
theorem status_write_frame (s : MemoryStore) (huniq : UniqueIDs s) (clk : Clock)
    (o : MapOrder (List Message)) (id : String) :
    (∀ st, (UpdateMessageStatus s clk o id st).2 = none →
      StatusFrame s (UpdateMessageStatus s clk o id st).1 id ∧
      (UpdateMessageStatus s clk o id st).1.messageReads = s.messageReads) ∧
    (∀ u, (CreateMessageRead s clk o id u).2 = none ∧
      StatusFrame s (CreateMessageRead s clk o id u).1 id) ∧
    (∀ e₁ ∈ s.messages, ∀ e₂ ∈ s.messages, ∀ x ∈ e₁.2, ∀ y ∈ e₂.2,
      x.ID = id → y.ID = id → x = y) := by
  refine ⟨?_, ?_, ?_⟩
  · intro st _
    have hf := UpdateMessageStatus_frame s clk o id st
    refine ⟨⟨hf.1, hf.2.1, hf.2.2.1, hf.2.2.2.1, ?_⟩, hf.2.2.2.2⟩
    unfold UpdateMessageStatus
    split
    · exact writeStatus_forall₂ _ _ _ _ _
    · exact messages_forall₂_refl _ _
  · intro u
    have hf := CreateMessageRead_frame s clk o id u
    refine ⟨CreateMessageRead_err s clk o id u, hf.1, hf.2.1, hf.2.2.1, hf.2.2.2, ?_⟩
    rcases CreateMessageRead_messages_cases s clk o id u with h | ⟨k, h⟩
    · rw [h]
      exact messages_forall₂_refl _ _
    · rw [h]
      exact writeStatus_forall₂ _ _ _ _ _
  · intro e₁ h₁ e₂ h₂ x hx y hy hxi hyi
    exact huniq.eq_of_id s e₁ e₂ h₁ h₂ x y hx hy (hxi.trans hyi.symm)

/-- C25 at a concrete input: with m1, m2, m3 stored for user2, READ is written
to m2 and user2 reads m3; the ids, the order and m1 stay as they were. -/
theorem status_write_frame_witness :
    UniqueIDs threeMessages ∧
    ((UpdateMessageStatus threeMessages (clockFrom 50) (MapOrder.asStored _) "m2" StatusRead).2
        = none →
      StatusFrame threeMessages
        (UpdateMessageStatus threeMessages (clockFrom 50) (MapOrder.asStored _) "m2"
          StatusRead).1 "m2" ∧
      (UpdateMessageStatus threeMessages (clockFrom 50) (MapOrder.asStored _) "m2"
        StatusRead).1.messageReads = threeMessages.messageReads) ∧
    (UpdateMessageStatus threeMessages (clockFrom 50) (MapOrder.asStored _) "m2" StatusRead).2
      = none ∧
    ((get? (UpdateMessageStatus threeMessages (clockFrom 50) (MapOrder.asStored _) "m2"
      StatusRead).1.messages "user2").getD []).map (fun m => (m.ID, m.Status, m.UpdatedAt))
      = [("m1", StatusSent, 11), ("m2", StatusRead, 50), ("m3", StatusSent, 31)] ∧
    ((get? (CreateMessageRead threeMessages (clockFrom 60) (MapOrder.asStored _) "m3"
      "user2").1.messages "user2").getD []).map (fun m => (m.ID, m.Status, m.UpdatedAt))
      = [("m1", StatusSent, 11), ("m2", StatusSent, 21), ("m3", StatusRead, 62)] :=
  ⟨by unfold UniqueIDs; decide,
    (status_write_frame threeMessages (by unfold UniqueIDs; decide) (clockFrom 50)
      (MapOrder.asStored _) "m2").1 StatusRead,
    by decide, by decide, by decide⟩

/-! ## The unread count of the handler `GetUserConversations` (C23) -/

theorem GetMessageReads_any (s : MemoryStore) (o : MapOrder MessageRead) (id u : String) :
    (GetMessageReads s o id).any (fun read => read.UserID = u) = receiptOf s id u := by
  unfold GetMessageReads receiptOf
  cases h : get? s.messageReads id with
  | none => rfl
  | some reads =>
    simp only [Option.getD_some]
    rw [Bool.eq_iff_iff, List.any_eq_true, List.any_eq_true]
    constructor
    · rintro ⟨r, hr, hp⟩
      obtain ⟨e, he, rfl⟩ := List.mem_map.mp hr
      exact ⟨e, (o.perm reads).mem_iff.mp he, hp⟩
    · rintro ⟨e, he, hp⟩
      exact ⟨e.2, List.mem_map.mpr ⟨e, (o.perm reads).mem_iff.mpr he, rfl⟩, hp⟩

theorem countUnread_eq (s : MemoryStore) (o : Nat → MapOrder MessageRead) (u : String) :
    ∀ (l : List Message) (j : Nat), countUnread s o u l j = unreadAmong s u l := by
  intro l
  induction l with
  | nil => intro j; rfl
  | cons a l ih =>
    intro j
    unfold unreadAmong at ih ⊢
    simp only [countUnread, GetMessageReads_any, ih (j + 1), List.countP_cons]
    rw [Nat.add_comm]
    congr 1
    by_cases hp : a.SenderID ≠ u ∧ ¬ receiptOf s a.ID u = true
    · simp [hp]
    · rw [if_neg hp]
      simp only [decide_eq_true_eq]
      rw [if_neg hp]

theorem GetMessages_newest (s : MemoryStore) (d : String) (n : Nat) (hn : (n : Int) ≤ maxInt) :
    ∃ next, GetMessages s d n ""
      = some (((get? s.messages d).getD []).reverse.take n, next, none) := by
  cases h : get? s.messages d with
  | none => exact ⟨"", by simp [GetMessages, h]⟩
  | some msgs => exact ⟨_, GetMessages_first_page s d msgs n h hn⟩

theorem conversationItem_eq (s : MemoryStore) (o : Nat → MapOrder MessageRead) (u : String)
    (conv : UserConversation) :
    ∃ item, conversationItem s o u conv = some item ∧
      item.ConversationID = conv.ID ∧ item.DestinationID = conv.DestinationID ∧
      item.ConversationType = conv.ConversationType ∧ item.UpdatedAt = conv.UpdatedAt ∧
      item.LastMessage = ((get? s.messages conv.DestinationID).getD []).reverse.head? ∧
      item.UnreadCount
        = unreadAmong s u (((get? s.messages conv.DestinationID).getD []).reverse.take 1000) := by
  obtain ⟨n1, h1⟩ := GetMessages_newest s conv.DestinationID 1 (by decide)
  obtain ⟨n2, h2⟩ := GetMessages_newest s conv.DestinationID 1000 (by decide)
  have h1' : GetMessages s conv.DestinationID 1 ""
      = some (((get? s.messages conv.DestinationID).getD []).reverse.take 1, n1, none) := h1
  have h2' : GetMessages s conv.DestinationID 1000 ""
      = some (((get? s.messages conv.DestinationID).getD []).reverse.take 1000, n2, none) := h2
  have hci : conversationItem s o u conv
      = some ⟨conv.ID, conv.DestinationID, conv.ConversationType,
          (((get? s.messages conv.DestinationID).getD []).reverse.take 1).head?,
          countUnread s o u (((get? s.messages conv.DestinationID).getD []).reverse.take 1000) 0,
          conv.UpdatedAt⟩ := by
    simp only [conversationItem, h1', h2']
  refine ⟨_, hci, rfl, rfl, rfl, rfl, ?_, ?_⟩
  · simp only
    cases ((get? s.messages conv.DestinationID).getD []).reverse <;> rfl
  · exact countUnread_eq s o u _ 0

theorem conversationItems_eq (s : MemoryStore) (o : Nat → Nat → MapOrder MessageRead)
    (u : String) : ∀ (convs : List UserConversation) (i : Nat),
    ∃ items, conversationItems s o u convs i = some items ∧
      List.Forall₂ (fun conv item =>
        item.ConversationID = conv.ID ∧ item.DestinationID = conv.DestinationID ∧
        item.ConversationType = conv.ConversationType ∧ item.UpdatedAt = conv.UpdatedAt ∧
        item.LastMessage = ((get? s.messages conv.DestinationID).getD []).reverse.head? ∧
        item.UnreadCount = unreadAmong s u
          (((get? s.messages conv.DestinationID).getD []).reverse.take 1000)) convs items := by
  intro convs
  induction convs with
  | nil => intro i; exact ⟨[], rfl, List.Forall₂.nil⟩
  | cons conv rest ih =>
    intro i
    obtain ⟨item, hitem, hprops⟩ := conversationItem_eq s (o i) u conv
    obtain ⟨items, hitems, hall⟩ := ih (i + 1)
    exact ⟨item :: items, by simp only [conversationItems, hitem, hitems, Option.map_some'],
      List.Forall₂.cons hprops hall⟩

theorem unreadAmong_reverse (s : MemoryStore) (u : String) (l : List Message) :
    unreadAmong s u l.reverse = unreadAmong s u l := by
  unfold unreadAmong
  exact (List.reverse_perm l).countP_eq _

/-- What the handler `GetUserConversations` answers to a user who asks for the
own conversations: one item for each row the store returns, in that order,
with the newest message of the slice `messages[DestinationID]` and the number
of unread messages among the 1000 newest of that slice. -/
theorem GetUserConversations_items (s : MemoryStore) (o : Nat → Nat → MapOrder MessageRead)
    (u : String) (hu : u ≠ "") :
    ∃ resp, Handler.GetUserConversations s o u u = some (.ok resp) ∧
      List.Forall₂ (fun conv item =>
        item.ConversationID = conv.ID ∧ item.DestinationID = conv.DestinationID ∧
        item.ConversationType = conv.ConversationType ∧ item.UpdatedAt = conv.UpdatedAt ∧
        item.LastMessage = ((get? s.messages conv.DestinationID).getD []).reverse.head? ∧
        item.UnreadCount = unreadAmong s u
          (((get? s.messages conv.DestinationID).getD []).reverse.take 1000))
        (GetUserConversations s u).1 resp.Conversations := by
  obtain ⟨items, hitems, hall⟩ := conversationItems_eq s o u (GetUserConversations s u).1 0
  refine ⟨⟨items⟩, ?_, hall⟩
  unfold Handler.GetUserConversations
  rw [if_neg hu, if_neg (fun h => h rfl)]
  have herr : (GetUserConversations s u).2 = none := by
    unfold GetUserConversations
    split <;> rfl
  cases hg : GetUserConversations s u with
  | mk convs err =>
    rw [hg] at herr hitems
    simp only at herr hitems
    subst herr
    simp only [hitems, Option.map_some']

/-- C23, on the code.  In the store `crowdedGroup` the slice of g holds 1001
messages of a, none sent by u and none with a receipt of u, so the number the
claim names, and the comment of the handler describes (lines 65-68, "count
messages sent to user that haven't been read", over `allMessages`), is 1001.
The handler scans only the one page `GetMessages(g, 1000, "")` (line 70) and
reports the unread count 1000 on the row of u for g. -/
theorem unread_count_capped :
    ((get? crowdedGroup.messages "g").getD []).length = 1001 ∧
    unreadAmong crowdedGroup "u" ((get? crowdedGroup.messages "g").getD []) = 1001 ∧
    ∃ item, Handler.GetUserConversations crowdedGroup (fun _ _ => MapOrder.asStored _) "u" "u"
        = some (.ok ⟨[item]⟩) ∧
      item.ConversationID = "uc_u_g" ∧ item.DestinationID = "g" ∧ item.UnreadCount = 1000 := by
  have hget : (get? crowdedGroup.messages "g").getD [] = (List.range 1001).map numbered := by
    simp [crowdedGroup, get?]
  have hall : ∀ m ∈ (List.range 1001).map numbered,
      decide (m.SenderID ≠ "u" ∧ ¬ receiptOf crowdedGroup m.ID "u" = true) = true := by
    intro m hm
    obtain ⟨i, _, rfl⟩ := List.mem_map.mp hm
    have h1 : (numbered i).SenderID ≠ "u" := by
      show "a" ≠ "u"
      decide
    have h2 : receiptOf crowdedGroup (numbered i).ID "u" = false := by
      simp [receiptOf, crowdedGroup, get?]
    simp [h1, h2]
  refine ⟨by rw [hget]; simp, ?_, ?_⟩
  · rw [hget]
    unfold unreadAmong
    rw [List.countP_eq_length.mpr hall]
    simp
  · obtain ⟨resp, hresp, hitems⟩ := GetUserConversations_items crowdedGroup
      (fun _ _ => MapOrder.asStored _) "u" (by decide)
    have hrows : (GetUserConversations crowdedGroup "u").1
        = [⟨"uc_u_g", "u", "g", ConversationTypeGroup, 4, 10003⟩] := by decide
    rw [hrows] at hitems
    obtain ⟨items⟩ := resp
    cases hitems with
    | cons h1 h2 =>
      cases h2
      rename_i item
      refine ⟨item, hresp, h1.1, h1.2.1, ?_⟩
      rw [h1.2.2.2.2.2]
      show unreadAmong crowdedGroup "u"
        (((get? crowdedGroup.messages "g").getD []).reverse.take 1000) = 1000
      rw [hget]
      unfold unreadAmong
      rw [List.countP_eq_length.mpr (fun m hm =>
        hall m (List.mem_reverse.mp (List.mem_of_mem_take hm)))]
      simp

/-- What the handler computes, for every store.  To a user `u` who asks for
the own conversations the handler answers with one item for each row of `u`,
in the order of the store's `GetUserConversations`; the unread count of the
item of a row with destination `d` is taken over the page
`GetMessages(d, 1000, "")`, the 1000 newest messages of the slice of `d`: the
number of those whose sender is not `u` and for which no receipt with the user
`u` is recorded.  While the slice has at most 1000 messages this is the number
over the whole slice; beyond that the older messages are not looked at.
Messages sent by `u` are never counted. -/
theorem unread_count_newest (s : MemoryStore) (o : Nat → Nat → MapOrder MessageRead)
    (u : String) (hu : u ≠ "") :
    (∃ resp, Handler.GetUserConversations s o u u = some (.ok resp) ∧
      List.Forall₂ (fun conv item =>
        item.ConversationID = conv.ID ∧ item.DestinationID = conv.DestinationID ∧
        item.UnreadCount = unreadAmong s u
          (((get? s.messages conv.DestinationID).getD []).reverse.take 1000) ∧
        (((get? s.messages conv.DestinationID).getD []).length ≤ 1000 →
          item.UnreadCount
            = unreadAmong s u ((get? s.messages conv.DestinationID).getD [])))
        (GetUserConversations s u).1 resp.Conversations) ∧
    (∀ l : List Message, (∀ m ∈ l, m.SenderID = u) → unreadAmong s u l = 0) := by
  constructor
  · obtain ⟨resp, hresp, hitems⟩ := GetUserConversations_items s o u hu
    refine ⟨resp, hresp, hitems.imp ?_⟩
    intro conv item h
    refine ⟨h.1, h.2.1, h.2.2.2.2.2, fun hlen => ?_⟩
    rw [h.2.2.2.2.2, List.take_of_length_le (by rw [List.length_reverse]; exact hlen),
      unreadAmong_reverse]
  · intro l hl
    unfold unreadAmong
    rw [List.countP_eq_zero]
    intro m hm
    simp [hl m hm]

/-- The unread count at a concrete input below 1000 messages: in the group
chat of a, b and c with the one message m1 of a, the handler reports one
unread message to b and none to the sender a. -/
theorem unread_count_newest_witness :
    ((∃ resp, Handler.GetUserConversations (run NewStore groupChatCalls)
        (fun _ _ => MapOrder.backwards _) "b" "b" = some (.ok resp) ∧
      List.Forall₂ (fun conv item =>
        item.ConversationID = conv.ID ∧ item.DestinationID = conv.DestinationID ∧
        item.UnreadCount = unreadAmong (run NewStore groupChatCalls) "b"
          (((get? (run NewStore groupChatCalls).messages conv.DestinationID).getD
            []).reverse.take 1000) ∧
        (((get? (run NewStore groupChatCalls).messages conv.DestinationID).getD []).length
            ≤ 1000 →
          item.UnreadCount = unreadAmong (run NewStore groupChatCalls) "b"
            ((get? (run NewStore groupChatCalls).messages conv.DestinationID).getD [])))
        (GetUserConversations (run NewStore groupChatCalls) "b").1 resp.Conversations) ∧
      (∀ l : List Message, (∀ m ∈ l, m.SenderID = "b") →
        unreadAmong (run NewStore groupChatCalls) "b" l = 0)) ∧
    (Handler.GetUserConversations (run NewStore groupChatCalls)
      (fun _ _ => MapOrder.backwards _) "b" "b").map
      (fun r => r.toOption.map (fun resp => resp.Conversations.map
        (fun item => (item.DestinationID, item.UnreadCount)))) = some (some [("g", 1)]) ∧
    (Handler.GetUserConversations (run NewStore groupChatCalls)
      (fun _ _ => MapOrder.backwards _) "a" "a").map
      (fun r => r.toOption.map (fun resp => resp.Conversations.map
        (fun item => (item.DestinationID, item.UnreadCount)))) = some (some [("g", 0)]) :=
  ⟨unread_count_newest (run NewStore groupChatCalls) (fun _ _ => MapOrder.backwards _) "b"
    (by decide), by decide, by decide⟩

/-! ## The unread count of a recipient (C27) -/

/-- C27, on the code.  user1 has sent the one-to-one message m1 to user2 and
user2 has no receipt for it.  The handler reads the slice of the destination of
the row, `messages["user1"]` for the row of user2 with user1, and m1 is in
`messages["user2"]`: the item of user2 for user1 has the unread count 0 and no
last message.  When user3 has sent m2 to user1, the same item counts m2 and
shows it as last message, a message of the conversation of user3 and user1. -/
theorem recipient_unread_count_missing :
    (threeUsers.messages.map (fun e => (e.1, e.2.map
      (fun m => (m.ID, m.SenderID, m.DestinationID, m.ConversationType)))))
      = [("user2", [("m1", "user1", "user2", ConversationTypeOneToOne)])] ∧
    receiptOf threeUsers "m1" "user2" = false ∧
    Handler.GetUserConversations threeUsers (fun _ _ => MapOrder.asStored _) "user2" "user2"
      = some (.ok ⟨[⟨"uc_user2_user1", "user1", ConversationTypeOneToOne, none, 0, 15⟩]⟩) ∧
    (Handler.GetUserConversations crossTalk (fun _ _ => MapOrder.asStored _) "user2" "user2").map
      (fun r => r.toOption.map (fun resp => resp.Conversations.map
        (fun item => (item.DestinationID, item.UnreadCount,
          (item.LastMessage.map (fun m => [m.ID, m.SenderID, m.DestinationID])).getD []))))
      = some (some [("user1", 1, ["m2", "user3", "user1"])]) := by
  refine ⟨by decide, by decide, by decide, by decide⟩

/-! ## `ContainsString` (C28) -/

/-- C28, on the code.  Let `fold` be a case folding that treats ASCII as ASCII
does.  For every text and query `ContainsString` returns a value: no index of
its loops is outside the lower-cased text or query; for the empty query the
value is false.  For a text and a query of ASCII characters the value is true
exactly when the query is not empty and some contiguous substring of the text
equals the query, letters compared ignoring case: there the claim holds.  It
fails beyond ASCII, where `toLowerString` changes `A` to `Z` only and reads
every byte that is not UTF-8 as U+FFFD: "äpfel" is not found in "ÄPFEL",
although the text contains it ignoring case whenever Ä and ä are one letter;
and the query of the one byte 0xBD is found in the text of the one byte 0xFF,
of which it is no substring. -/
theorem ContainsString_ascii_letters_only (fold : Char → Char) (hfold : FoldsAscii fold) :
    (∀ text query : List UInt8, ∃ b, ContainsString text query = some b) ∧
    (∀ text : List UInt8, ContainsString text [] = some false) ∧
    (∀ t q : String, IsAscii t → IsAscii q →
      (ContainsString (utf8 t) (utf8 q) = some true ↔
        q.data ≠ [] ∧ CaseInsensitiveSubstring fold t.data q.data)) ∧
    (fold 'Ä' = fold 'ä' → CaseInsensitiveSubstring fold "ÄPFEL".data "äpfel".data) ∧
    ContainsString (utf8 "ÄPFEL") (utf8 "äpfel") = some false ∧
    ContainsString [0xFF] [0xBD] = some true ∧
    ¬ (∃ pre post : List UInt8, [0xFF] = pre ++ [0xBD] ++ post) := by
  refine ⟨fun text query => ?_, fun text => by simp [ContainsString], fun t q ht hq => ?_,
    apfel_ignoring_case fold hfold, by decide, by decide, ?_⟩
  · obtain ⟨b, hb, _⟩ := ContainsString_runes text query
    exact ⟨b, hb⟩
  · rw [ContainsString_utf8, ascii_substring_iff fold hfold t.data q.data ht hq]
  · rintro ⟨pre, post, h⟩
    have hm : (0xBD : UInt8) ∈ [(0xFF : UInt8)] := by
      rw [h]
      simp
    simp at hm

/-- C28 at concrete inputs, with the case folding `foldLatin1`: "LO b" is
found in "Hello Bob!", of which it is a substring ignoring case, and "lob" is
not; the empty query is not found; a query longer than the text is not found.
Ä and ä are one letter for `foldLatin1`, "ÄPFEL" contains "äpfel" ignoring
case, and `ContainsString` does not find it. -/
theorem ContainsString_ascii_letters_only_witness :
    FoldsAscii foldLatin1 ∧
    (ContainsString (utf8 "Hello Bob!") (utf8 "LO b") = some true ↔
      "LO b".data ≠ [] ∧ CaseInsensitiveSubstring foldLatin1 "Hello Bob!".data "LO b".data) ∧
    ContainsString (utf8 "Hello Bob!") (utf8 "LO b") = some true ∧
    ContainsString (utf8 "Hello Bob!") (utf8 "lob") = some false ∧
    ContainsString (utf8 "Bob") (utf8 "Hello Bob!") = some false ∧
    ContainsString (utf8 "Hello Bob!") [] = some false ∧
    foldLatin1 'Ä' = foldLatin1 'ä' ∧
    CaseInsensitiveSubstring foldLatin1 "ÄPFEL".data "äpfel".data ∧
    ContainsString (utf8 "ÄPFEL") (utf8 "äpfel") = some false :=
  ⟨foldLatin1_ascii,
    (ContainsString_ascii_letters_only foldLatin1 foldLatin1_ascii).2.2.1 "Hello Bob!" "LO b"
      (by unfold IsAscii; decide) (by unfold IsAscii; decide),
    by decide, by decide, by decide, by decide, by decide,
    (ContainsString_ascii_letters_only foldLatin1 foldLatin1_ascii).2.2.2.1 (by decide),
    by decide⟩

/-! ## Rejected acknowledgements (C29) -/

theorem isRecipient_iff (s : MemoryStore) (x : Message) (u : String) :
    isRecipient s x u = true ↔
      (x.ConversationType = ConversationTypeOneToOne ∧ x.DestinationID = u) ∨
      (x.ConversationType ≠ ConversationTypeOneToOne ∧
        IsGroupMember s x.DestinationID u = true) := by
  unfold isRecipient
  by_cases h : x.ConversationType = ConversationTypeOneToOne
  · rw [if_pos h]
    simp [h]
  · rw [if_neg h]
    simp [h]

theorem GetMessage_some (s : MemoryStore) (o : MapOrder (List Message)) (id : String)
    (message : Message) (err : Option String)
    (h : GetMessage s o id = (some message, err)) :
    message.ID = id ∧ ∃ e ∈ s.messages, message ∈ e.2 := by
  unfold GetMessage at h
  split at h
  · rename_i msg hf
    simp only [Prod.mk.injEq, Option.some.injEq] at h
    obtain ⟨hid, e, he, hme⟩ := findMessage_some id _ msg hf
    rw [← h.1]
    exact ⟨hid, e, (o.perm _).mem_iff.mp he, hme⟩
  · simp at h

/-- In a store with unique ids, when no message has the id or the message of
the id is not for the user, the message `GetMessage` finds, if any, fails the
test of the recipient. -/
theorem found_not_recipient (s : MemoryStore) (huniq : UniqueIDs s)
    (o : MapOrder (List Message)) (auth id : String)
    (hrej : ¬ Stored s id ∨ ∃ e ∈ s.messages, ∃ x ∈ e.2, x.ID = id ∧
      ¬ ((x.ConversationType = ConversationTypeOneToOne ∧ x.DestinationID = auth) ∨
        (x.ConversationType ≠ ConversationTypeOneToOne ∧
          IsGroupMember s x.DestinationID auth = true)))
    (message : Message) (err : Option String)
    (hget : GetMessage s o id = (some message, err)) :
    ¬ isRecipient s message auth = true := by
  obtain ⟨hid, e, he, hme⟩ := GetMessage_some s o id message err hget
  rcases hrej with hns | ⟨e', he', x, hx, hxid, hnot⟩
  · exact absurd ⟨e, he, message, hme, hid⟩ hns
  · have hxm : x = message :=
      huniq.eq_of_id s e' e he' he x message hx hme (hxid.trans hid.symm)
    rw [← hxm, isRecipient_iff]
    exact hnot

theorem AckDelivered_rejected (s : MemoryStore) (huniq : UniqueIDs s) (clk : Clock)
    (o o' : MapOrder (List Message)) (auth : String) (req : AckDeliveredRequest)
    (hrej : ¬ Stored s req.MessageID ∨ ∃ e ∈ s.messages, ∃ x ∈ e.2, x.ID = req.MessageID ∧
      ¬ ((x.ConversationType = ConversationTypeOneToOne ∧ x.DestinationID = auth) ∨
        (x.ConversationType ≠ ConversationTypeOneToOne ∧
          IsGroupMember s x.DestinationID auth = true))) :
    ∃ err, Handler.AckDelivered s clk o o' auth (some req) = (s, .error err) := by
  unfold Handler.AckDelivered
  by_cases hauth : auth = ""
  · rw [if_pos hauth]
    exact ⟨_, rfl⟩
  rw [if_neg hauth]
  simp only
  by_cases hforb : req.UserID ≠ "" ∧ req.UserID ≠ auth
  · rw [if_pos hforb]
    exact ⟨_, rfl⟩
  rw [if_neg hforb]
  have huser : (if req.UserID ≠ "" then req.UserID else auth) = auth := by
    by_cases h : req.UserID ≠ ""
    · rw [if_pos h]
      by_contra hne
      exact hforb ⟨h, hne⟩
    · rw [if_neg h]
  rw [huser]
  cases hget : GetMessage s o req.MessageID with
  | mk fst snd =>
    cases fst with
    | none => exact ⟨_, rfl⟩
    | some message =>
      cases snd with
      | some _ => exact ⟨_, rfl⟩
      | none =>
        simp only
        rw [if_pos (found_not_recipient s huniq o auth req.MessageID hrej message none hget)]
        exact ⟨_, rfl⟩

theorem AckRead_rejected (s : MemoryStore) (huniq : UniqueIDs s) (clk : Clock)
    (o o' : MapOrder (List Message)) (auth : String) (req : AckReadRequest)
    (hrej : ¬ Stored s req.MessageID ∨ ∃ e ∈ s.messages, ∃ x ∈ e.2, x.ID = req.MessageID ∧
      ¬ ((x.ConversationType = ConversationTypeOneToOne ∧ x.DestinationID = auth) ∨
        (x.ConversationType ≠ ConversationTypeOneToOne ∧
          IsGroupMember s x.DestinationID auth = true))) :
    ∃ err, Handler.AckRead s clk o o' auth (some req) = (s, .error err) := by
  unfold Handler.AckRead
  by_cases hauth : auth = ""
  · rw [if_pos hauth]
    exact ⟨_, rfl⟩
  rw [if_neg hauth]
  simp only
  by_cases hforb : req.UserID ≠ "" ∧ req.UserID ≠ auth
  · rw [if_pos hforb]
    exact ⟨_, rfl⟩
  rw [if_neg hforb]
  have huser : (if req.UserID ≠ "" then req.UserID else auth) = auth := by
    by_cases h : req.UserID ≠ ""
    · rw [if_pos h]
      by_contra hne
      exact hforb ⟨h, hne⟩
    · rw [if_neg h]
  rw [huser]
  cases hget : GetMessage s o req.MessageID with
  | mk fst snd =>
    cases fst with
    | none => exact ⟨_, rfl⟩
    | some message =>
      cases snd with
      | some _ => exact ⟨_, rfl⟩
      | none =>
        simp only
        rw [if_pos (found_not_recipient s huniq o auth req.MessageID hrej message none hget)]
        exact ⟨_, rfl⟩

/-- C29.  In a store with unique message ids, when no stored message has the
acknowledged id, or the message of that id is neither one-to-one with the
acting user as its destination nor a group message (a message that is not
one-to-one) of whose destination group the acting user is a member, the
handlers `AckDelivered` and `AckRead` write an error response and return the
store exactly as it was: statuses, receipts, conversations and all the rest. -/
theorem rejected_ack_untouched (s : MemoryStore) (huniq : UniqueIDs s) (clk : Clock)
    (o o' : MapOrder (List Message)) (auth userID messageID : String)
    (hrej : ¬ Stored s messageID ∨ ∃ e ∈ s.messages, ∃ x ∈ e.2, x.ID = messageID ∧
      ¬ ((x.ConversationType = ConversationTypeOneToOne ∧ x.DestinationID = auth) ∨
        (x.ConversationType ≠ ConversationTypeOneToOne ∧
          IsGroupMember s x.DestinationID auth = true))) :
    (∃ err, Handler.AckDelivered s clk o o' auth
      (some { UserID := userID, MessageID := messageID }) = (s, .error err)) ∧
    (∃ err, Handler.AckRead s clk o o' auth
      (some { UserID := userID, MessageID := messageID }) = (s, .error err)) :=
  ⟨AckDelivered_rejected s huniq clk o o' auth ⟨userID, messageID⟩ hrej,
    AckRead_rejected s huniq clk o o' auth ⟨userID, messageID⟩ hrej⟩

/-- C29 at the input of the scenario: m1 is one-to-one from user1 to user2.
The acknowledgements of user3 for m1 are refused as not from the recipient,
those of user2 for the unknown m9 as not found; the store stays as it was. -/
theorem rejected_ack_untouched_witness :
    UniqueIDs threeUsers ∧
    ((∃ err, Handler.AckDelivered threeUsers (clockFrom 50) (MapOrder.asStored _)
        (MapOrder.backwards _) "user3" (some { UserID := "", MessageID := "m1" })
        = (threeUsers, .error err)) ∧
      (∃ err, Handler.AckRead threeUsers (clockFrom 50) (MapOrder.asStored _)
        (MapOrder.backwards _) "user3" (some { UserID := "", MessageID := "m1" })
        = (threeUsers, .error err))) ∧
    (Handler.AckRead threeUsers (clockFrom 50) (MapOrder.asStored _) (MapOrder.backwards _)
      "user3" (some { UserID := "", MessageID := "m1" })).2 = .error ErrNotMessageRecipient ∧
    (Handler.AckDelivered threeUsers (clockFrom 50) (MapOrder.asStored _)
      (MapOrder.backwards _) "user2" (some { UserID := "user2", MessageID := "m9" })).2
      = .error ErrMessageNotFound ∧
    (Handler.AckRead threeUsers (clockFrom 50) (MapOrder.asStored _) (MapOrder.backwards _)
      "user2" (some { UserID := "user2", MessageID := "m1" })).2
      = .ok { Message := "Message read" } :=
  ⟨by unfold UniqueIDs; decide,
    rejected_ack_untouched threeUsers (by unfold UniqueIDs; decide) (clockFrom 50)
      (MapOrder.asStored _) (MapOrder.backwards _) "user3" "" "m1"
      (Or.inr ⟨("user2", [stampMessage (clockFrom 10) (helloMsg "m1")]), by decide,
        stampMessage (clockFrom 10) (helloMsg "m1"), List.mem_singleton_self _, rfl,
        by decide⟩),
    by decide, by decide, by decide⟩

/-! ## The timestamp of a conversation row (C24) -/

theorem bumpRow_updated (d : String) (c : ConversationType) (t : Nat) :
    ∀ (rows rows' : List UserConversation), bumpRow d c t rows = some rows' →
      (rows.map (fun uc => (uc.DestinationID, uc.ConversationType))).Nodup →
      ∀ uc ∈ rows', uc.DestinationID = d → uc.ConversationType = c → uc.UpdatedAt = t := by
  intro rows
  induction rows with
  | nil => intro rows' h; simp [bumpRow] at h
  | cons a rest ih =>
    intro rows' h hnd uc huc hd hc
    rw [List.map_cons, List.nodup_cons] at hnd
    simp only [bumpRow] at h
    by_cases ha : a.DestinationID = d ∧ a.ConversationType = c
    · rw [if_pos ha] at h
      simp only [Option.some.injEq] at h
      subst h
      rcases List.mem_cons.mp huc with huc | huc
      · rw [huc]
      · exfalso
        apply hnd.1
        rw [ha.1, ha.2, ← hd, ← hc]
        exact List.mem_map_of_mem (fun uc => (uc.DestinationID, uc.ConversationType)) huc
    · rw [if_neg ha] at h
      cases hb : bumpRow d c t rest with
      | none => simp [hb] at h
      | some r =>
        simp only [hb, Option.map_some', Option.some.injEq] at h
        subst h
        rcases List.mem_cons.mp huc with huc | huc
        · subst huc
          exact absurd ⟨hd, hc⟩ ha
        · exact ih r hb hnd.2 uc huc hd hc

/-- The row of the destination and kind in the list of the user after
`updateUserConversation` carries a clock value read during the call, and the
call reads the clock once or twice. -/
theorem updateUserConversation_updated (s : MemoryStore) (h : RowsUnique s) (clk : Clock) (k : Nat)
    (u d : String) (c : ConversationType) :
    (∀ uc ∈ conversationsOf (updateUserConversation s clk k u d c).1 u,
      uc.DestinationID = d → uc.ConversationType = c →
      uc.UpdatedAt = clk k ∨ uc.UpdatedAt = clk (k + 1)) ∧
    k < (updateUserConversation s clk k u d c).2 := by
  have hnd := h.conversationsOf s u
  unfold conversationsOf at hnd ⊢
  rcases hb : bumpRow d c (clk k) ((get? s.userConversations u).getD []) with _ | rows'
  · simp only [updateUserConversation, hb, get?_set_self, Option.getD_some]
    refine ⟨?_, by omega⟩
    intro uc huc hd hc
    rcases List.mem_append.mp huc with huc | huc
    · exact absurd ⟨hd, hc⟩ (bumpRow_none d c (clk k) _ hb uc huc)
    · rw [List.mem_singleton.mp huc]
      exact Or.inr rfl
  · simp only [updateUserConversation, hb, get?_set_self, Option.getD_some]
    refine ⟨?_, by omega⟩
    intro uc huc hd hc
    exact Or.inl (bumpRow_updated d c (clk k) _ rows' hb hnd uc huc hd hc)

theorem fanOut_other (clk : Clock) (sender d : String) (c : ConversationType)
    (members : List (String × Bool)) (acc : MemoryStore × Nat) :
    conversationsOf (fanOut clk sender d c members acc).1 sender = conversationsOf acc.1 sender := by
  induction members generalizing acc with
  | nil => rfl
  | cons e rest ih =>
    obtain ⟨memberID, b⟩ := e
    simp only [fanOut]
    split
    · rename_i hne
      rw [ih, updateUserConversation_other _ _ _ _ _ _ _ (fun h => hne h.symm)]
    · exact ih acc

/-- After `CreateMessage` the sender's row of the destination and kind of the
message carries a clock value read after the two reads that stamp the
message. -/
theorem CreateMessage_sender_row (s : MemoryStore) (h : RowsUnique s) (clk : Clock)
    (o : MapOrder Bool) (msg : Message) :
    ∀ uc ∈ conversationsOf (CreateMessage s clk o msg).1 msg.SenderID,
      uc.DestinationID = msg.DestinationID → uc.ConversationType = msg.ConversationType →
      ∃ j, 2 ≤ j ∧ uc.UpdatedAt = clk j := by
  have h0 : RowsUnique (appendMessage s (stampMessage clk msg)) := h
  have e1 : (stampMessage clk msg).SenderID = msg.SenderID := rfl
  have e2 : (stampMessage clk msg).DestinationID = msg.DestinationID := rfl
  have e3 : (stampMessage clk msg).ConversationType = msg.ConversationType := rfl
  unfold CreateMessage
  simp only [e1, e2, e3]
  generalize appendMessage s (stampMessage clk msg) = s1 at h0
  generalize msg.SenderID = a
  generalize msg.DestinationID = b
  generalize msg.ConversationType = k
  have hfirst := updateUserConversation_updated s1 h0 clk 2 a b k
  have hfirst' : ∀ uc ∈ conversationsOf (updateUserConversation s1 clk 2 a b k).1 a,
      uc.DestinationID = b → uc.ConversationType = k → ∃ j, 2 ≤ j ∧ uc.UpdatedAt = clk j := by
    intro uc huc hd hc
    rcases hfirst.1 uc huc hd hc with hu | hu
    · exact ⟨2, le_refl _, hu⟩
    · exact ⟨3, by omega, hu⟩
  have h1 := updateUserConversation_rowsUnique s1 clk 2 a b k h0
  generalize updateUserConversation s1 clk 2 a b k = r at hfirst hfirst' h1
  split
  · by_cases hself : b = a
    · subst hself
      have hsecond := updateUserConversation_updated r.1 h1 clk r.2 b b k
      intro uc huc hd hc
      rcases hsecond.1 uc huc hd hc with hu | hu
      · exact ⟨r.2, by omega, hu⟩
      · exact ⟨r.2 + 1, by omega, hu⟩
    · intro uc huc hd hc
      simp only at huc
      rw [updateUserConversation_other _ _ _ _ _ _ _ (fun h => hself h.symm)] at huc
      exact hfirst' uc huc hd hc
  · split
    · intro uc huc hd hc
      simp only at huc
      rw [fanOut_other] at huc
      exact hfirst' uc huc hd hc
    · exact hfirst'

/-- C24 as stated fails: after the three `CreateMessage` calls of user1 for
user2, read from a clock that advances by one at every read, the third message
has `CreatedAt` 30 and `UpdatedAt` 31, and the row of user1 for user2 has
`UpdatedAt` 32, the value of the third read of that call. -/
theorem row_timestamp_differs :
    user2Messages.map (fun m => (m.ID, m.CreatedAt, m.UpdatedAt))
      = [("m1", 10, 11), ("m2", 20, 21), ("m3", 30, 31)] ∧
    (conversationsOf threeMessages "user1").map
      (fun uc => (uc.DestinationID, uc.ConversationType, uc.UpdatedAt))
      = [("user2", ConversationTypeOneToOne, 32)] ∧
    (conversationsOf oneMessage "user1").map
      (fun uc => (uc.DestinationID, uc.ConversationType, uc.UpdatedAt))
      = [("user2", ConversationTypeOneToOne, 13)] := by
  refine ⟨by decide, by decide, by decide⟩

/-- C24 as amended.  In the store reached from the empty store by any sequence
of calls that ends with a `CreateMessage` call, hence after any number N >= 1
of such calls for the same sender, destination and kind, the sender has a row
of that destination and kind, and its `UpdatedAt` is the value of a
`time.Now()` read of that last call, made after the two reads that give the
message its `CreatedAt` and `UpdatedAt`; the message is the last of the slice of
its destination.  So the row is later than the message when the clock advances
at every read, and carries the timestamp of the message when the clock stands
still during the call. -/
theorem conversation_timestamp (calls : List (Clock × Op)) (clk : Clock) (o : MapOrder Bool)
    (msg : Message) :
    hasRow (run NewStore (calls ++ [(clk, .createMessage o msg)])) msg.SenderID
      msg.DestinationID msg.ConversationType ∧
    ((get? (run NewStore (calls ++ [(clk, .createMessage o msg)])).messages
      msg.DestinationID).getD []).getLast? = some (stampMessage clk msg) ∧
    (stampMessage clk msg).CreatedAt = clk 0 ∧ (stampMessage clk msg).UpdatedAt = clk 1 ∧
    ∀ uc ∈ conversationsOf (run NewStore (calls ++ [(clk, .createMessage o msg)])) msg.SenderID,
      uc.DestinationID = msg.DestinationID → uc.ConversationType = msg.ConversationType →
      (∃ j, 2 ≤ j ∧ uc.UpdatedAt = clk j) ∧
      ((∀ i j, i < j → clk i < clk j) → (stampMessage clk msg).UpdatedAt < uc.UpdatedAt) ∧
      ((∀ j, clk j = clk 0) → uc.UpdatedAt = (stampMessage clk msg).CreatedAt ∧
        uc.UpdatedAt = (stampMessage clk msg).UpdatedAt) := by
  rw [run_snoc]
  simp only [step]
  refine ⟨(CreateMessage_covers _ clk o msg).1, ?_, rfl, rfl, ?_⟩
  · rw [(CreateMessage_frame _ clk o msg).2.2.2.1, get?_set_self]
    simp
  · intro uc huc hd hc
    obtain ⟨j, hj, hu⟩ := CreateMessage_sender_row _ (run_rowsUnique calls) clk o msg uc huc hd hc
    refine ⟨⟨j, hj, hu⟩, fun hmono => ?_, fun hconst => ?_⟩
    · rw [hu]
      exact hmono 1 j (by omega)
    · rw [hu, hconst j]
      exact ⟨rfl, (hconst 1).symm⟩

/-- C24 as amended, at a concrete sequence: after m1 and m2 the third message
m3 of user1 for user2 is sent at a clock that starts at 30; the row of user1
for user2 then has one of the values 32, 33, ... of that clock; with a clock
that stands at 30 the row has the timestamp of the message. -/
theorem conversation_timestamp_witness :
    (∀ uc ∈ conversationsOf threeMessages "user1",
      uc.DestinationID = "user2" → uc.ConversationType = ConversationTypeOneToOne →
      (∃ j, 2 ≤ j ∧ uc.UpdatedAt = clockFrom 30 j) ∧
      ((∀ i j, i < j → clockFrom 30 i < clockFrom 30 j) →
        (stampMessage (clockFrom 30) (helloMsg "m3")).UpdatedAt < uc.UpdatedAt) ∧
      ((∀ j, clockFrom 30 j = clockFrom 30 0) →
        uc.UpdatedAt = (stampMessage (clockFrom 30) (helloMsg "m3")).CreatedAt ∧
        uc.UpdatedAt = (stampMessage (clockFrom 30) (helloMsg "m3")).UpdatedAt)) ∧
    (conversationsOf threeMessages "user1").map (fun uc => uc.UpdatedAt) = [clockFrom 30 2] ∧
    (conversationsOf
      (run NewStore [(fun _ => 30, .createMessage (MapOrder.asStored Bool) (helloMsg "m1"))])
      "user1").map (fun uc => uc.UpdatedAt)
      = [(stampMessage (fun _ => 30) (helloMsg "m1")).CreatedAt] :=
  ⟨(conversation_timestamp
      [(clockFrom 10, .createMessage (MapOrder.asStored Bool) (helloMsg "m1")),
       (clockFrom 20, .createMessage (MapOrder.asStored Bool) (helloMsg "m2"))]
      (clockFrom 30) (MapOrder.asStored Bool) (helloMsg "m3")).2.2.2.2,
    by decide, by decide⟩

/-! ## `SanitizeString` and the text the handler stores (C30) -/

theorem decodeRune_take (s : List UInt8) (n : Nat) (hn : 1 ≤ n) :
    decodeRune (s.take n) = decodeRune s ∨ decodeRune (s.take n) = (0xFFFD, 1) := by
  cases s with
  | nil => left; simp
  | cons b0 rest =>
    obtain ⟨m, rfl⟩ : ∃ m, n = m + 1 := ⟨n - 1, by omega⟩
    rw [List.take_succ_cons]
    unfold decodeRune
    by_cases h1 : b0 < 0x80
    · left
      simp only [h1, if_true]
    · simp only [h1, if_false]
      by_cases h2 : 0xC0 ≤ b0 ∧ b0 < 0xE0
      · simp only [h2, and_self, if_true]
        cases rest with
        | nil => left; simp
        | cons b1 r1 =>
          cases m with
          | zero => right; simp
          | succ m => left; simp
      · simp only [h2, if_false]
        by_cases h3 : 0xE0 ≤ b0 ∧ b0 < 0xF0
        · simp only [h3, and_self, if_true]
          rcases rest with _ | ⟨b1, _ | ⟨b2, r2⟩⟩
          · left; simp
          · left
            cases m <;> simp
          · rcases m with _ | _ | m
            · right; simp
            · right; simp
            · left; simp
        · simp only [h3, if_false]
          by_cases h4 : 0xF0 ≤ b0 ∧ b0 < 0xF8
          · simp only [h4, and_self, if_true]
            rcases rest with _ | ⟨b1, _ | ⟨b2, _ | ⟨b3, r3⟩⟩⟩
            · left; simp
            · left
              cases m <;> simp
            · left
              rcases m with _ | _ | m <;> simp
            · rcases m with _ | _ | _ | m
              · right; simp
              · right; simp
              · right; simp
              · left; simp
          · left
            simp only [h4, if_false]

theorem decodeRune_width_pos (s : List UInt8) : 1 ≤ (decodeRune s).2 := by
  unfold decodeRune
  split
  · exact le_refl _
  · split
    · exact le_refl _
    · split
      · split
        · dsimp only
          split <;> simp
        · exact le_refl _
      · split
        · split
          · dsimp only
            split <;> simp
          · exact le_refl _
        · split
          · split
            · dsimp only
              split <;> simp
            · exact le_refl _
          · exact le_refl _

theorem trimLeft_no_leading : ∀ (fuel : Nat) (s : List UInt8), s.length ≤ fuel →
    leadingSpace (trimLeft fuel s) = false := by
  intro fuel
  induction fuel with
  | zero =>
    intro s hs
    have : s = [] := List.length_eq_zero.mp (by omega)
    subst this
    simp [trimLeft, leadingSpace]
  | succ fuel ih =>
    intro s hs
    unfold trimLeft
    by_cases hnil : s = []
    · rw [if_pos hnil]
      simp [leadingSpace]
    · rw [if_neg hnil]
      by_cases hsp : isSpace (decodeRune s).1 = true
      · rw [if_pos hsp]
        apply ih
        have hw := decodeRune_width_pos s
        have hl : 0 < s.length := List.length_pos.mpr hnil
        rw [List.length_drop]
        omega
      · rw [if_neg hsp]
        simp [leadingSpace, hsp]

theorem decodeLastRune_width_pos (s : List UInt8) (h : s ≠ []) : 1 ≤ (decodeLastRune s).2 := by
  unfold decodeLastRune
  cases hlast : s.getLast? with
  | none => exact absurd (List.getLast?_eq_none_iff.mp hlast) h
  | some last =>
    simp only
    by_cases h1 : last < 0x80
    · rw [if_pos h1]
    · rw [if_neg h1]
      generalize (if 2 ≤ s.length ∧ runeStartAt s (s.length - 2) = true then s.length - 2
        else if 3 ≤ s.length ∧ runeStartAt s (s.length - 3) = true then s.length - 3
        else if 4 ≤ s.length ∧ runeStartAt s (s.length - 4) = true then s.length - 4
        else s.length - 5) = start
      by_cases h2 : start + (decodeRune (s.drop start)).2 ≠ s.length
      · rw [if_pos h2]
      · rw [if_neg h2]
        exact decodeRune_width_pos _

theorem trimRight_no_trailing : ∀ (fuel : Nat) (s : List UInt8), s.length ≤ fuel →
    trailingSpace (trimRight fuel s) = false := by
  intro fuel
  induction fuel with
  | zero =>
    intro s hs
    have : s = [] := List.length_eq_zero.mp (by omega)
    subst this
    simp [trimRight, trailingSpace]
  | succ fuel ih =>
    intro s hs
    unfold trimRight
    by_cases hnil : s = []
    · rw [if_pos hnil]
      simp [trailingSpace]
    · rw [if_neg hnil]
      by_cases hsp : isSpace (decodeLastRune s).1 = true
      · rw [if_pos hsp]
        apply ih
        have hl : 0 < s.length := List.length_pos.mpr hnil
        have hw := decodeLastRune_width_pos s hnil
        rw [List.length_take]
        omega
      · rw [if_neg hsp]
        simp [trailingSpace, hsp]

theorem trimRight_take : ∀ (fuel : Nat) (s : List UInt8),
    ∃ n, trimRight fuel s = s.take n := by
  intro fuel
  induction fuel with
  | zero => intro s; exact ⟨s.length, by simp [trimRight]⟩
  | succ fuel ih =>
    intro s
    unfold trimRight
    split
    · exact ⟨0, by simp⟩
    · split
      · obtain ⟨n, hn⟩ := ih (s.take (s.length - (decodeLastRune s).2))
        exact ⟨min n (s.length - (decodeLastRune s).2), by rw [hn, List.take_take]⟩
      · exact ⟨s.length, by simp⟩

/-- A prefix of at least one byte of a string that does not begin with white
space does not begin with white space. -/
theorem take_no_leading (s : List UInt8) (n : Nat) (h : leadingSpace s = false) :
    leadingSpace (s.take n) = false := by
  by_cases hnil : s.take n = []
  · simp [leadingSpace, hnil]
  · have hn : 1 ≤ n := by
      rcases n with _ | n
      · simp at hnil
      · omega
    have hs : s ≠ [] := by
      intro h0
      rw [h0] at hnil
      simp at hnil
    have hsp : isSpace (decodeRune s).1 = false := by
      simpa [leadingSpace, hs] using h
    rcases decodeRune_take s n hn with ht | ht
    · simp [leadingSpace, ht, hsp]
    · have hfffd : isSpace 0xFFFD = false := by decide
      simp [leadingSpace, ht, hfffd]

theorem TrimSpace_clean (s : List UInt8) :
    leadingSpace (TrimSpace s) = false ∧ trailingSpace (TrimSpace s) = false := by
  unfold TrimSpace
  refine ⟨?_, trimRight_no_trailing _ _ (le_refl _)⟩
  obtain ⟨n, hn⟩ := trimRight_take (trimLeft s.length s).length (trimLeft s.length s)
  rw [hn]
  exact take_no_leading _ n (trimLeft_no_leading _ s (le_refl _))

theorem trimLeft_of_clean (fuel : Nat) (s : List UInt8) (h : leadingSpace s = false) :
    trimLeft fuel s = s := by
  cases fuel with
  | zero => rfl
  | succ fuel =>
    unfold trimLeft
    by_cases hnil : s = []
    · rw [if_pos hnil, hnil]
    · rw [if_neg hnil]
      have : isSpace (decodeRune s).1 = false := by simpa [leadingSpace, hnil] using h
      rw [if_neg (by rw [this]; exact Bool.false_ne_true)]

theorem trimRight_of_clean (fuel : Nat) (s : List UInt8) (h : trailingSpace s = false) :
    trimRight fuel s = s := by
  cases fuel with
  | zero => rfl
  | succ fuel =>
    unfold trimRight
    by_cases hnil : s = []
    · rw [if_pos hnil, hnil]
    · rw [if_neg hnil]
      have : isSpace (decodeLastRune s).1 = false := by simpa [trailingSpace, hnil] using h
      rw [if_neg (by rw [this]; exact Bool.false_ne_true)]

theorem TrimSpace_of_clean (s : List UInt8) (h1 : leadingSpace s = false)
    (h2 : trailingSpace s = false) : TrimSpace s = s := by
  unfold TrimSpace
  rw [trimLeft_of_clean _ s h1, trimRight_of_clean _ s h2]

theorem decodeLastRune_ascii (s : List UInt8) (b : UInt8) (hb : b < 0x80)
    (h : s.getLast? = some b) : decodeLastRune s = (b.toNat, 1) := by
  unfold decodeLastRune
  rw [h]
  simp only [hb, if_true]

theorem decodeRune_ascii (b : UInt8) (rest : List UInt8) (hb : b < 0x80) :
    decodeRune (b :: rest) = (b.toNat, 1) := by
  simp only [decodeRune, hb, if_true]

theorem getLast?_append_pair {α : Type} (l : List α) (a b : α) :
    (l ++ [a, b]).getLast? = some b := by
  have : l ++ [a, b] = (l ++ [a]) ++ [b] := by
    rw [List.append_assoc]
    rfl
  rw [this, List.getLast?_append]
  rfl

theorem longText_length : longText.length = 10001 := by
  rw [longText, List.length_append, List.length_replicate]
  rfl

theorem TrimSpace_longText : TrimSpace longText = longText := by
  apply TrimSpace_of_clean
  · have : longText = 0x61 :: (List.replicate 9998 0x61 ++ [0x20, 0x62]) := by
      unfold longText
      rw [show (9999 : Nat) = 9998 + 1 from rfl, List.replicate_succ]
      rfl
    rw [this]
    simp only [leadingSpace, decodeRune_ascii 0x61 _ (by decide)]
    decide
  · have hl : longText.getLast? = some 0x62 := getLast?_append_pair _ _ _
    simp only [trailingSpace, decodeLastRune_ascii longText 0x62 (by decide) hl]
    decide

theorem SanitizeString_longText :
    SanitizeString TrimSpace longText 10000 = List.replicate 9999 0x61 ++ [0x20] := by
  unfold SanitizeString
  simp only [TrimSpace_longText]
  rw [if_pos (by rw [longText_length]; decide)]
  unfold longText
  rw [List.take_append_eq_append_take,
    List.take_of_length_le (by rw [List.length_replicate]; decide), List.length_replicate]
  rfl

theorem IsEmpty_longText : IsEmpty TrimSpace longText = false := by
  unfold IsEmpty
  rw [TrimSpace_longText]
  have : longText ≠ [] := by
    intro h
    have := longText_length
    rw [h] at this
    cases this
  simp [this]

theorem handle_sendLongText :
    handle threeUsers sendLongText
      = (CreateMessage threeUsers (clockFrom 70) (MapOrder.asStored _)
          (newMessage TrimSpace "m2" "user1"
            { SenderID := "", DestinationID := "user2", Message := longText }
            ConversationTypeOneToOne)).1 := by
  have hu1 : (GetUser threeUsers "user1").2 = none := by decide
  have hg : (GetGroup threeUsers "user2").2 = some "group not found" := by decide
  have hu2 : (GetUser threeUsers "user2").2 = none := by decide
  have hh : handle threeUsers sendLongText
      = (Handler.SendMessage threeUsers TrimSpace "m2" (clockFrom 70) (MapOrder.asStored _)
          "user1" (some { SenderID := "", DestinationID := "user2", Message := longText })).1 :=
    rfl
  rw [hh]
  unfold Handler.SendMessage
  rw [if_neg (by decide)]
  simp only
  rw [if_neg (by rw [IsEmpty_longText]; exact Bool.false_ne_true), if_neg (by decide)]
  rw [if_neg (by decide)]
  simp only [hu1, hg, hu2]
  exact sendStored_store _ _ _ _ _ _ _ _

theorem SanitizeString_props (s : List UInt8) (maxLen : Int) (hmax : 0 < maxLen) :
    ((SanitizeString TrimSpace s maxLen).length : Int) ≤ maxLen ∧
    leadingSpace (SanitizeString TrimSpace s maxLen) = false ∧
    (TrimSpace s ≠ [] → SanitizeString TrimSpace s maxLen ≠ []) ∧
    (((TrimSpace s).length : Int) ≤ maxLen →
      SanitizeString TrimSpace s maxLen = TrimSpace s ∧
      trailingSpace (SanitizeString TrimSpace s maxLen) = false) := by
  unfold SanitizeString
  simp only
  by_cases hc : maxLen > 0 ∧ ((TrimSpace s).length : Int) > maxLen
  · rw [if_pos hc]
    refine ⟨?_, take_no_leading _ _ (TrimSpace_clean s).1, ?_, fun h => absurd h (by omega)⟩
    · rw [List.length_take]
      omega
    · intro hne h
      have hlen : ((TrimSpace s).take maxLen.toNat).length = 0 := by rw [h]; rfl
      rw [List.length_take] at hlen
      have : 0 < (TrimSpace s).length := List.length_pos.mpr hne
      omega
  · rw [if_neg hc]
    refine ⟨by omega, (TrimSpace_clean s).1, fun h => h, fun _ => ⟨rfl, (TrimSpace_clean s).2⟩⟩

theorem newMessage_text (trimSpace : List UInt8 → List UInt8) (newID senderID : String)
    (req : SendMessageRequest) (convType : ConversationType) (clk : Clock) :
    (stampMessage clk (newMessage trimSpace newID senderID req convType)).MessageText
      = SanitizeString trimSpace req.Message 10000 :=
  rfl

/-- C30 as stated fails: `SanitizeString("a b", 2)` trims nothing and cuts
after the second byte, which leaves "a " with a space at its end; and the
handler `SendMessage`, given a text of 9999 letters a, a space and a letter b,
stores its first 10000 bytes, which end with the space. -/
theorem SanitizeString_trailing_space :
    SanitizeString TrimSpace (utf8 "a b") 2 = utf8 "a " ∧
    trailingSpace (SanitizeString TrimSpace (utf8 "a b") 2) = true ∧
    longText.length = 10001 ∧
    ∃ msg, ((get? (handle threeUsers sendLongText).messages "user2").getD []).getLast?
        = some msg ∧
      msg.ID = "m2" ∧ msg.MessageText = List.replicate 9999 0x61 ++ [0x20] ∧
      msg.MessageText.length = 10000 ∧ trailingSpace msg.MessageText = true := by
  have hX := SanitizeString_longText
  have hlen : (SanitizeString TrimSpace longText 10000).length = 10000 := by
    rw [hX, List.length_append, List.length_replicate]
    rfl
  have htr : trailingSpace (SanitizeString TrimSpace longText 10000) = true := by
    rw [hX]
    have hl : (List.replicate 9999 (0x61 : UInt8) ++ [0x20]).getLast? = some 0x20 := by
      rw [List.getLast?_append]
      rfl
    have hne : List.replicate 9999 (0x61 : UInt8) ++ [0x20] ≠ [] := by
      intro h
      have := congrArg List.length h
      rw [List.length_append, List.length_replicate] at this
      cases this
    simp only [trailingSpace, decodeLastRune_ascii _ 0x20 (by decide) hl, hne]
    decide
  have hd : (newMessage TrimSpace "m2" "user1" ⟨"", "user2", longText⟩
      ConversationTypeOneToOne).DestinationID = "user2" := rfl
  have htext := newMessage_text TrimSpace "m2" "user1" ⟨"", "user2", longText⟩
    ConversationTypeOneToOne (clockFrom 70)
  simp only at htext
  refine ⟨by decide, by decide, longText_length, ?_⟩
  refine ⟨stampMessage (clockFrom 70) (newMessage TrimSpace "m2" "user1"
    ⟨"", "user2", longText⟩ ConversationTypeOneToOne), ?_, rfl, ?_, ?_, ?_⟩
  · rw [handle_sendLongText, (CreateMessage_frame _ _ _ _).2.2.2.1, hd, get?_set_self,
      Option.getD_some, List.getLast?_append]
    rfl
  · rw [htext, hX]
  · rw [htext, hlen]
  · rw [htext, htr]

/-- C30 as amended.  For every string `s` and every `maxLen > 0`,
`SanitizeString(s, maxLen)` has at most `maxLen` bytes and does not begin with
white space; it is not empty when the trimmed string is not; and when the
trimmed string fits in `maxLen` bytes it is the trimmed string and does not
end with white space either.  Hence every message text the handler
`SendMessage` stores is not empty, at most 10000 bytes long and without white
space at its beginning, and without white space at its end when the trimmed
text of the request has at most 10000 bytes. -/
theorem SanitizeString_bounds (s : List UInt8) (maxLen : Int) (hmax : 0 < maxLen) :
    (((SanitizeString TrimSpace s maxLen).length : Int) ≤ maxLen ∧
      leadingSpace (SanitizeString TrimSpace s maxLen) = false ∧
      (TrimSpace s ≠ [] → SanitizeString TrimSpace s maxLen ≠ []) ∧
      (((TrimSpace s).length : Int) ≤ maxLen →
        SanitizeString TrimSpace s maxLen = TrimSpace s ∧
        trailingSpace (SanitizeString TrimSpace s maxLen) = false)) ∧
    (∀ (st : MemoryStore) (newID : String) (clk : Clock) (o : MapOrder Bool) (auth : String)
      (body : Option SendMessageRequest),
      ((Handler.SendMessage st TrimSpace newID clk o auth body).1 = st ∧
        ∃ err, (Handler.SendMessage st TrimSpace newID clk o auth body).2 = .error err) ∨
      ∃ req msg, body = some req ∧
        (Handler.SendMessage st TrimSpace newID clk o auth body).1
          = (CreateMessage st clk o msg).1 ∧
        msg.MessageText = SanitizeString TrimSpace req.Message 10000 ∧
        msg.MessageText ≠ [] ∧ msg.MessageText.length ≤ 10000 ∧
        leadingSpace msg.MessageText = false ∧
        ((TrimSpace req.Message).length ≤ 10000 → trailingSpace msg.MessageText = false)) := by
  refine ⟨SanitizeString_props s maxLen hmax, ?_⟩
  intro st newID clk o auth body
  rcases SendMessage_cases st TrimSpace newID clk o auth body with
    h | ⟨req, convType, hbody, _, hempty, _, _, hstore⟩
  · exact Or.inl h
  · have hp := SanitizeString_props req.Message 10000 (by decide)
    have hne : TrimSpace req.Message ≠ [] := by
      intro h
      simp [IsEmpty, h] at hempty
    refine Or.inr ⟨req, newMessage TrimSpace newID auth req convType, hbody, hstore, rfl,
      hp.2.2.1 hne, ?_, hp.2.1, fun hfit => (hp.2.2.2 (by exact_mod_cast hfit)).2⟩
    have := hp.1
    show (SanitizeString TrimSpace req.Message 10000).length ≤ 10000
    omega

/-- C30 as amended, at concrete inputs: "  Hello Bob! " is trimmed to "Hello
Bob!" and, with the limit 5, cut to "Hello"; the handler stores the trimmed
text of the request. -/
theorem SanitizeString_bounds_witness :
    (0 : Int) < 5 ∧
    ((SanitizeString TrimSpace (utf8 "  Hello Bob! ") 5).length : Int) ≤ 5 ∧
    leadingSpace (SanitizeString TrimSpace (utf8 "  Hello Bob! ") 5) = false ∧
    SanitizeString TrimSpace (utf8 "  Hello Bob! ") 5 = utf8 "Hello" ∧
    SanitizeString TrimSpace (utf8 "  Hello Bob! ") 10000 = utf8 "Hello Bob!" ∧
    ((get? (handle threeUsers sendPaddedHi).messages "user2").getD []).map
      (fun m => (m.ID, m.MessageText)) = [("m1", utf8 "Hello Bob!"), ("m2", utf8 "Hi")] :=
  ⟨by decide, (SanitizeString_bounds (utf8 "  Hello Bob! ") 5 (by decide)).1.1,
    (SanitizeString_bounds (utf8 "  Hello Bob! ") 5 (by decide)).1.2.1, by decide, by decide,
    by decide⟩

end ChatApp
